import Mathlib

/-!
Bitmap Drawing: a shallow embedding of the scene parser, the rasterizer and the bitmap encoder

The definitions follow the C sources (`bitmap.c`, `draw.c`, `parse.c`, `linked_list.c`,
`list.c`) function by function and keep their names.

Conventions of the embedding:

* `uint32_t` values are natural numbers below `2^32`; every unsigned operation of the
  source is followed by an explicit `% 2^32`.
* `int` values are integers; conversions between the signed and the unsigned 32-bit
  types are the two's complement ones (`to_u32`, `to_int`).
* a `char` buffer is a list of byte values (`List Nat`, each below 256) for binary data
  and a list of characters (`Str`) for text, without the terminating NUL.
* memory allocation succeeds, except where the requested size is negative.
-/

namespace BitmapDrawing

/-! ## Machine integers -/

/-- Value of an expression of type `uint32_t`: unsigned arithmetic wraps modulo `2^32`. -/
def u32 (n : Nat) : Nat := n % 2 ^ 32

/-- Conversion of an `int` (or wider signed value) to `uint32_t`. -/
def to_u32 (i : Int) : Nat := (i % 2 ^ 32).toNat

/-- Conversion of a 32-bit pattern or a wider signed value to `int` (two's complement). -/
def to_int (i : Int) : Int := (i + 2 ^ 31) % 2 ^ 32 - 2 ^ 31

/-! ## bitmap.h / bitmap.c -/

def BITMAP_SUCCESS : Nat := 0
def BITMAP_ERR_NULL_POINTER_PASSED : Nat := 1
def BITMAP_ERR_WIDTH_HEIGHT_OUT_OF_BOUND : Nat := 2
def BITMAP_FILE_HEADER_SIZE : Nat := 14
def BITMAP_INFO_HEADER_SIZE : Nat := 40
def BITMAP_HEADER_SIZE : Nat := BITMAP_FILE_HEADER_SIZE + BITMAP_INFO_HEADER_SIZE
def BITMAP_RGB_COLOR_SIZE : Nat := 3
def BITMAP_ALIGNMENT : Nat := 4

/-- The struct `PixelBuffer`: `data` holds the `data_size` bytes of the pixel array. -/
structure PixelBuffer where
  data : List Nat
  data_size : Int
  width : Nat
  height : Nat
deriving DecidableEq, Repr

/-- The struct `BitmapFileHeader`; every field holds its bit pattern. -/
structure BitmapFileHeader where
  bf_type : Nat
  bf_size : Nat
  bf_reserved1 : Nat
  bf_reserved2 : Nat
  bf_off_bits : Nat
deriving DecidableEq, Repr

/-- The struct `BitmapInfoHeader`; every field (also the `int32_t` ones) holds its 32-bit or
16-bit pattern, which is what the masks of `bitmap_file_header_new` read. -/
structure BitmapInfoHeader where
  bi_size : Nat
  bi_width : Nat
  bi_height : Nat
  bi_planes : Nat
  bi_bit_count : Nat
  bi_compression : Nat
  bi_size_image : Nat
  bi_x_pels_per_meter : Nat
  bi_y_pels_per_meter : Nat
  bi_clr_used : Nat
  bi_clr_important : Nat
deriving DecidableEq, Repr

/-- Size of a row of the picture in bytes (`bitmap.c`, `bitmap_pixel_array_row_size`). -/
def bitmap_pixel_array_row_size (width : Nat) : Nat :=
  let line_width := u32 (width * BITMAP_RGB_COLOR_SIZE)
  if line_width % BITMAP_ALIGNMENT ≠ 0 then
    u32 (line_width + BITMAP_ALIGNMENT - line_width % BITMAP_ALIGNMENT)
  else
    line_width

/-- Size of the pixel area in bytes (`bitmap.c`, `bitmap_pixel_array_size`). -/
def bitmap_pixel_array_size (width height : Nat) : Nat :=
  let line_width_align := bitmap_pixel_array_row_size width
  u32 (line_width_align * height)

/-- Write into the pixel buffer (`bitmap.c`, `bitmap_write_pixel`), for a buffer whose `data`
is not NULL. Returns the return code and the buffer afterwards. -/
def bitmap_write_pixel (pix_buffer : PixelBuffer) (column row color : Nat) : Nat × PixelBuffer :=
  if row ≥ pix_buffer.height ∨ column ≥ pix_buffer.width then
    (BITMAP_ERR_WIDTH_HEIGHT_OUT_OF_BOUND, pix_buffer)
  else
    let row := u32 (pix_buffer.height - row)
    let line_width := bitmap_pixel_array_row_size pix_buffer.width
    let pixel := u32 (row * line_width) + u32 (column * BITMAP_RGB_COLOR_SIZE)
    if ((pixel + 2 : Nat) : Int) < pix_buffer.data_size then
      let data := pix_buffer.data.set pixel (color &&& 0xff)
      let data := data.set (pixel + 1) ((color &&& 0xff00) >>> 8)
      let data := data.set (pixel + 2) ((color &&& 0xff0000) >>> 16)
      (BITMAP_SUCCESS, { pix_buffer with data := data })
    else
      (BITMAP_SUCCESS, pix_buffer)

/-- Create a pixel buffer (`bitmap.c`, `bitmap_pixel_buffer_new`). `data_size` is an `int`;
a negative size converts to a `size_t` above `2^63`, which `malloc` cannot serve, and the
function returns NULL (`none`). -/
def bitmap_pixel_buffer_new (width height : Nat) : Option PixelBuffer :=
  let data_size := to_int (bitmap_pixel_array_size width height)
  if data_size < 0 then
    none
  else
    some { data := List.replicate data_size.toNat 0,
           data_size := data_size,
           width := width,
           height := height }

/-- Data array of a pixel buffer and its size (`bitmap.c`, `bitmap_get_pixel_array`). -/
def bitmap_get_pixel_array (pix_buffer : PixelBuffer) : List Nat × Int :=
  (pix_buffer.data, pix_buffer.data_size)

/-- The two header structs as `bitmap_file_header_new` fills them. -/
def bitmap_file_header_fields (width height : Nat) : BitmapFileHeader × BitmapInfoHeader :=
  ({ bf_type := 0x4d42,
     bf_size := u32 (BITMAP_HEADER_SIZE + bitmap_pixel_array_size width height),
     bf_reserved1 := 0,
     bf_reserved2 := 0,
     bf_off_bits := BITMAP_HEADER_SIZE },
   { bi_size := BITMAP_INFO_HEADER_SIZE,
     bi_width := u32 width,
     bi_height := u32 height,
     bi_planes := 1,
     bi_bit_count := 24,
     bi_compression := 0,
     bi_size_image := 0,
     bi_x_pels_per_meter := 0,
     bi_y_pels_per_meter := 0,
     bi_clr_used := 0,
     bi_clr_important := 0 })

/-- File header for a bitmap (`bitmap.c`, `bitmap_file_header_new`): the bytes
`header[0]` .. `header[53]` in order; `*data_size` is the length of the list. -/
def bitmap_file_header_new (width height : Nat) : List Nat :=
  let bmfh := (bitmap_file_header_fields width height).1
  let bmih := (bitmap_file_header_fields width height).2
  [ (bmfh.bf_type &&& 0x00ff) >>> 0,
    (bmfh.bf_type &&& 0xff00) >>> 8,
    (bmfh.bf_size &&& 0x000000ff) >>> 0,
    (bmfh.bf_size &&& 0x0000ff00) >>> 8,
    (bmfh.bf_size &&& 0x00ff0000) >>> 16,
    (bmfh.bf_size &&& 0xff000000) >>> 24,
    (bmfh.bf_reserved1 &&& 0x00ff) >>> 0,
    (bmfh.bf_reserved1 &&& 0xff00) >>> 8,
    (bmfh.bf_reserved2 &&& 0x00ff) >>> 0,
    (bmfh.bf_reserved2 &&& 0xff00) >>> 8,
    (bmfh.bf_off_bits &&& 0x000000ff) >>> 0,
    (bmfh.bf_off_bits &&& 0x0000ff00) >>> 8,
    (bmfh.bf_off_bits &&& 0x00ff0000) >>> 16,
    (bmfh.bf_off_bits &&& 0xff000000) >>> 24,
    (bmih.bi_size &&& 0x000000ff) >>> 0,
    (bmih.bi_size &&& 0x0000ff00) >>> 8,
    (bmih.bi_size &&& 0x00ff0000) >>> 16,
    (bmih.bi_size &&& 0xff000000) >>> 24,
    (bmih.bi_width &&& 0x000000ff) >>> 0,
    (bmih.bi_width &&& 0x0000ff00) >>> 8,
    (bmih.bi_width &&& 0x00ff0000) >>> 16,
    (bmih.bi_width &&& 0xff000000) >>> 24,
    (bmih.bi_height &&& 0x000000ff) >>> 0,
    (bmih.bi_height &&& 0x0000ff00) >>> 8,
    (bmih.bi_height &&& 0x00ff0000) >>> 16,
    (bmih.bi_height &&& 0xff000000) >>> 24,
    (bmih.bi_planes &&& 0x00ff) >>> 0,
    (bmih.bi_planes &&& 0xff00) >>> 8,
    (bmih.bi_bit_count &&& 0x00ff) >>> 0,
    (bmih.bi_bit_count &&& 0xff00) >>> 8,
    (bmih.bi_compression &&& 0x000000ff) >>> 0,
    (bmih.bi_compression &&& 0x0000ff00) >>> 8,
    (bmih.bi_compression &&& 0x00ff0000) >>> 16,
    (bmih.bi_compression &&& 0xff000000) >>> 24,
    (bmih.bi_size_image &&& 0x000000ff) >>> 0,
    (bmih.bi_size_image &&& 0x0000ff00) >>> 8,
    (bmih.bi_size_image &&& 0x00ff0000) >>> 16,
    (bmih.bi_size_image &&& 0xff000000) >>> 24,
    (bmih.bi_x_pels_per_meter &&& 0x000000ff) >>> 0,
    (bmih.bi_x_pels_per_meter &&& 0x0000ff00) >>> 8,
    (bmih.bi_x_pels_per_meter &&& 0x00ff0000) >>> 16,
    (bmih.bi_x_pels_per_meter &&& 0xff000000) >>> 24,
    (bmih.bi_y_pels_per_meter &&& 0x000000ff) >>> 0,
    (bmih.bi_y_pels_per_meter &&& 0x0000ff00) >>> 8,
    (bmih.bi_y_pels_per_meter &&& 0x00ff0000) >>> 16,
    (bmih.bi_y_pels_per_meter &&& 0xff000000) >>> 24,
    (bmih.bi_clr_used &&& 0x000000ff) >>> 0,
    (bmih.bi_clr_used &&& 0x0000ff00) >>> 8,
    (bmih.bi_clr_used &&& 0x00ff0000) >>> 16,
    (bmih.bi_clr_used &&& 0xff000000) >>> 24,
    (bmih.bi_clr_important &&& 0x000000ff) >>> 0,
    (bmih.bi_clr_important &&& 0x0000ff00) >>> 8,
    (bmih.bi_clr_important &&& 0x00ff0000) >>> 16,
    (bmih.bi_clr_important &&& 0xff000000) >>> 24 ]

/-! ### Reference notions for the encoder -/

/-- Little-endian encoding of a number in four bytes. -/
def le32 (n : Nat) : List Nat :=
  [n % 256, n / 256 % 256, n / 65536 % 256, n / 16777216 % 256]

/-- Little-endian encoding of a number in two bytes. -/
def le16 (n : Nat) : List Nat :=
  [n % 256, n / 256 % 256]

/-- Number that a list of bytes denotes in little-endian order. -/
def le_value : List Nat → Nat
  | [] => 0
  | b :: bs => b + 256 * le_value bs

/-- Row stride of the data model: `ceil(width*3 / 4) * 4`, over the rationals. -/
def rowStride (width : Nat) : Nat :=
  ⌈((width * 3 : Nat) : ℚ) / 4⌉₊ * 4

/-! ## parse.h: the drawing commands -/

/-- The struct `Rectangle`; `id` is an `id_t` (`uint32_t`), the other fields are `int`. -/
structure Rectangle where
  id : Nat
  color : Int
  x : Int
  y : Int
  width : Int
  height : Int
deriving DecidableEq, Repr

/-- The struct `Circle`. -/
structure Circle where
  id : Nat
  color : Int
  x : Int
  y : Int
  radius : Int
deriving DecidableEq, Repr

/-- The struct `Triangle`. -/
structure Triangle where
  id : Nat
  color : Int
  ax : Int
  ay : Int
  bx : Int
  «by» : Int
  cx : Int
  cy : Int
deriving DecidableEq, Repr

/-- What the `void *obj` of a command points to. -/
inductive Obj where
  | rectangle (rect : Rectangle)
  | circle (circle : Circle)
  | triangle (triangle : Triangle)
deriving DecidableEq, Repr

def SH_RECTANGLE : Nat := 0
def SH_CIRCLE : Nat := 1
def SH_TRIANGLE : Nat := 2

/-- The struct `Command`: `shape` is the value of the `enum Shape` tag, `obj` is `none` for a
NULL pointer. -/
structure Command where
  shape : Nat
  id : Nat
  obj : Option Obj
deriving DecidableEq, Repr

/-! ## draw.c -/

/-- One call of the write primitive: the arguments `bitmap_write_pixel` receives. -/
structure PixelWrite where
  column : Nat
  row : Nat
  color : Nat
deriving DecidableEq, Repr

/-- The loops of `draw_rectangle` (`draw.c`), over an arbitrary state `σ` that each call of
the write primitive transforms. Both guards compare with the rectangle's own `width` and
`height`, as the source does. -/
def draw_rectangle_with {σ : Type} (write : σ → Nat → Nat → Nat → σ) (s : σ)
    (rectangle : Rectangle) : σ :=
  let x_orig := rectangle.x
  let y_orig := rectangle.y
  let width := rectangle.width
  let height := rectangle.height
  let color := rectangle.color
  (List.range width.toNat).foldl (fun s (index_x : Nat) =>
    let x := x_orig + (index_x : Int)
    if x ≥ 0 ∧ x < width then
      (List.range height.toNat).foldl (fun s (index_y : Nat) =>
        let y := y_orig + (index_y : Int)
        if y ≥ 0 ∧ y < height then
          write s (to_u32 x) (to_u32 y) (to_u32 color)
        else s) s
    else s) s

/-- Draws the given rectangle to the pixel buffer (`draw.c`, `draw_rectangle`); the return
code of `bitmap_write_pixel` is ignored. -/
def draw_rectangle (pix_buffer : PixelBuffer) (rectangle : Rectangle) : PixelBuffer :=
  draw_rectangle_with (fun pb x y color => (bitmap_write_pixel pb x y color).2) pix_buffer rectangle

/-- The calls of the write primitive that `draw_rectangle` makes, in order. -/
def draw_rectangle_calls (rectangle : Rectangle) : List PixelWrite :=
  draw_rectangle_with (fun calls x y color => calls ++ [⟨x, y, color⟩]) [] rectangle

/-! ## linked_list.h / linked_list.c

A linked list is the list of the data of its elements, in order; the head structure that
`linked_list_new` returns carries no data and is not an element. Every element has data
(`linked_list_append` and `linked_list_insert` refuse NULL data), and the caller's data is
never NULL here. -/

def LINKED_LIST_MAX_LIST_SIZE : Nat := 10000
def LINKED_LIST_SUCCESS : Nat := 0
def LINKED_LIST_ERR_INDEX_OUT_OF_BOUND_OR_LIST_TOO_LONG : Nat := 1
def LINKED_LIST_ERR_OUT_OF_MEMORY : Nat := 2
def LINKED_LIST_ERR_LIST_IS_NULL_POINTER : Nat := 3
def LINKED_LIST_ERR_NO_DATA_GIVEN : Nat := 4

/-- The structure a `LinkedList *` inside a list points to: the head structure or the
element with a given index. -/
inductive ListNode where
  | head
  | element (index : Nat)
deriving DecidableEq, Repr

/-- The loop `while (l->next != NULL && i > 0) { l = l->next; i--; }` of
`linked_list_find_item`: `next` are the elements after `l`, `pos` is the index of `l`.
Returns the index of the final `l` and the final `i`. -/
def linked_list_find_item_walk {α : Type} : List α → Nat → Nat → Nat × Nat
  | [], i, pos => (pos, i)
  | _ :: _, 0, pos => (pos, 0)
  | _ :: next, i + 1, pos => linked_list_find_item_walk next i (pos + 1)

/-- Find the item of a list for an index, the last item for a negative index
(`linked_list.c`, `linked_list_find_item`); `none` is NULL. -/
def linked_list_find_item {α : Type} (list : List α) (index : Int) : Option ListNode :=
  match list with
  | [] => if index < 0 then some ListNode.head else none
  | _ :: next =>
    let i : Nat := if index < 0 then LINKED_LIST_MAX_LIST_SIZE else index.toNat
    let r := linked_list_find_item_walk next i 0
    if index ≥ 0 ∧ r.2 ≠ 0 then none else some (ListNode.element r.1)

/-- Find the last item (`linked_list.c`, `linked_list_find_last_item`). -/
def linked_list_find_last_item {α : Type} (list : List α) : Option ListNode :=
  linked_list_find_item list (-1)

/-- Append an element at the end of the list (`linked_list.c`, `linked_list_append`):
the return code and the list afterwards. The new element becomes the successor of the
item found, whatever followed that item before. -/
def linked_list_append {α : Type} (list : List α) (data : α) : Nat × List α :=
  match linked_list_find_last_item list with
  | none => (LINKED_LIST_ERR_INDEX_OUT_OF_BOUND_OR_LIST_TOO_LONG, list)
  | some ListNode.head => (LINKED_LIST_SUCCESS, [data])
  | some (ListNode.element k) => (LINKED_LIST_SUCCESS, list.take (k + 1) ++ [data])

/-- Insert an element to the list (`linked_list.c`, `linked_list_insert`): the return code
and the list afterwards. -/
def linked_list_insert {α : Type} (list : List α) (index : Int) (data : α) : Nat × List α :=
  if index < 0 then
    (LINKED_LIST_ERR_INDEX_OUT_OF_BOUND_OR_LIST_TOO_LONG, list)
  else if index = 0 then
    (LINKED_LIST_SUCCESS, data :: list)
  else
    match linked_list_find_item list (index - 1) with
    | none => (LINKED_LIST_ERR_INDEX_OUT_OF_BOUND_OR_LIST_TOO_LONG, list)
    | some ListNode.head => (LINKED_LIST_SUCCESS, data :: list)
    | some (ListNode.element k) =>
      (LINKED_LIST_SUCCESS, list.take (k + 1) ++ data :: list.drop (k + 1))

/-- Read the data of an element (`linked_list.c`, `linked_list_get`); `none` is NULL. -/
def linked_list_get {α : Type} (list : List α) (index : Int) : Option α :=
  if index < 0 then
    none
  else
    match linked_list_find_item list index with
    | none => none
    | some ListNode.head => none
    | some (ListNode.element k) => list.get? k

/-! ## list.h / list.c

An array list is the list of its elements; the caller's element is never NULL here. -/

def LIST_SUCCESS : Nat := 0
def LIST_ERR_INDEX_OUT_OF_BOUND : Nat := 1
def LIST_ERR_OUT_OF_MEMORY : Nat := 2
def LIST_ERR_NULL_POINTER : Nat := 3

/-- Creates a new list (`list.c`, `list_new`). -/
def list_new {α : Type} : List α := []

/-- Insert an element, subsequent elements are moved up (`list.c`, `list_insert`). -/
def list_insert {α : Type} (list : List α) (index : Int) (element : α) : Nat × List α :=
  if index < 0 ∨ index > list.length then
    (LIST_ERR_INDEX_OUT_OF_BOUND, list)
  else
    (LIST_SUCCESS, list.take index.toNat ++ element :: list.drop index.toNat)

/-- Insert an element at the end of the list (`list.c`, `list_append`). -/
def list_append {α : Type} (list : List α) (element : α) : Nat × List α :=
  list_insert list list.length element

/-- Read an element from the list (`list.c`, `list_get`), for the non-negative indices its
callers pass; `none` is NULL. -/
def list_get {α : Type} (list : List α) (index : Nat) : Option α :=
  if index ≥ list.length then none else list.get? index

/-- Overwrites an element in the list by another element (`list.c`, `list_set`): the return
code and the list afterwards. The bound check of the source returns
`LIST_ERR_INDEX_OUT_OF_BOUND` for every index below the length; for an index from the length
on the element is copied to memory behind the elements of the list: inside the array if its
memory holds more than `index` elements (`allocated`), where no element of the list changes,
and behind the array otherwise, which is undefined behaviour (`none`). -/
def list_set {α : Type} (list : List α) (allocated : Nat) (index : Int) (_element : α) :
    Option (Nat × List α) :=
  if index < list.length then
    some (LIST_ERR_INDEX_OUT_OF_BOUND, list)
  else if index < allocated then
    some (LIST_SUCCESS, list)
  else
    none

/-! ## parse.h / parse.c and main.h -/

def PARSE_SUCCESS : Nat := 0
def PARSE_ERR_OUT_OF_MEM : Nat := 1
def PARSE_ERR_INDEX_OUT_OF_BOUND : Nat := 2
def PARSE_ERR_LIST : Nat := 3
def PARSE_ERR_PASSED_NULL_POINTER : Nat := 4
def PARSE_ERR_PROPERTY_NAME_TOO_LONG : Nat := 5
def PARSE_ERR_INVALID_INPUT : Nat := 6
def PARSE_ERR_EOF : Nat := 7
def PARSE_MAX_PROPERTY_NAME_LENGTH : Nat := 20
def PARSE_MAX_VALUE_STRING_LENGTH : Nat := 400

def ERR_USAGE : Nat := 1
def ERR_READ_INPUT : Nat := 2
def ERR_INVALID_INPUT : Nat := 3
def ERR_DUPLICATE_ID : Nat := 4
def ERR_WRITE_FILE : Nat := 5
def ERR_OUT_OF_MEM : Nat := 6
def ERR_UNRECOGNISED : Nat := 7

/-- The contents of a C string, without the terminating NUL. -/
abbrev Str := List Char

/-- Outcome of a call that returns a code and, on success, a result: `ok` for
`PARSE_SUCCESS` with the result, `error` for any other return code, and `undefined` when the
call reads outside the array it was given, for which C defines no behaviour. -/
inductive Outcome (α : Type) where
  | ok (value : α)
  | error (code : Nat)
  | undefined
deriving DecidableEq, Repr

/-- Continue with the result of a successful call; pass any other outcome on, as the
`if (ret != PARSE_SUCCESS) goto cleanup` of the source does. -/
def Outcome.bind {α β : Type} (o : Outcome α) (f : α → Outcome β) : Outcome β :=
  match o with
  | Outcome.ok value => f value
  | Outcome.error code => Outcome.error code
  | Outcome.undefined => Outcome.undefined

/-- The struct `Property`: `value` is an `int64_t`. -/
structure Property where
  name : Str
  value : Int
deriving DecidableEq, Repr

/-- The array `prop_rectangle` of `parse.c`, without its terminating empty string. -/
def prop_rectangle : List Str :=
  ["id".toList, "color".toList, "x".toList, "y".toList, "width".toList, "height".toList]

/-- The array `prop_circle` of `parse.c`, without its terminating empty string. -/
def prop_circle : List Str :=
  ["id".toList, "color".toList, "x".toList, "y".toList, "radius".toList]

/-- The array `prop_triangle` of `parse.c`, without its terminating empty string. -/
def prop_triangle : List Str :=
  ["id".toList, "color".toList, "ax".toList, "ay".toList, "bx".toList, "by".toList,
   "cx".toList, "cy".toList]

/-- The value `EOF` (-1) stored in a `char`: with the signed 8-bit `char` of the usual
platforms the byte 0xFF of a file compares equal to it. -/
def EOF_CHAR : Char := Char.ofNat 255

/-- The reading loop of `readline`: the characters stored in the buffer, up to and including
the newline or `EOF` that stops the loop, and the rest of the file. At the end of the file
`fgetc` returns `EOF`. -/
def readline_scan : Str → Str × Str
  | [] => ([EOF_CHAR], [])
  | c :: file =>
    if c = EOF_CHAR ∨ c = '\n' then ([c], file)
    else ((c :: (readline_scan file).1), (readline_scan file).2)

/-- Read a line from the file (`parse.c`, `readline`): `none` for `PARSE_ERR_EOF`, else the
line buffer (its last character is the newline or the stored `EOF`) and the rest of the
file. -/
def readline (file : Str) : Option (Str × Str) :=
  let r := readline_scan file
  if r.1.length = 1 ∧ r.1.head? = some EOF_CHAR then none else some r

/-- Helper for adding a part of a string to a linked list (`parse.c`,
`insert_split_to_list`); `part` is `line[index_start .. index_end)`. -/
def insert_split_to_list (list : List Str) (part : Str) : Nat × List Str :=
  if part.length > 0 then
    let r := linked_list_append list part
    if r.1 ≠ LINKED_LIST_SUCCESS then (PARSE_ERR_LIST, r.2) else (PARSE_SUCCESS, r.2)
  else
    (PARSE_ERR_INDEX_OUT_OF_BOUND, list)

/-- The step `if (index_start != index_end) ret = insert_split_to_list(...)` of
`split_line`. -/
def split_line_insert_last_part (split : List Str) (part : Str) : Nat × List Str :=
  if part ≠ [] then insert_split_to_list split part else (PARSE_SUCCESS, split)

/-- The main loop of `split_line` followed by the insertion of the remaining part: the first
argument holds the characters from `index_end` on, `part` is `line[index_start .. index_end)`.
The inner loop that jumps over further spaces is the space branch taken again with an empty
`part`. `none` is NULL. -/
def split_line_loop : Str → Str → List Str → Option (List Str)
  | [], part, split =>
    let r := split_line_insert_last_part split part
    if r.1 ≠ PARSE_SUCCESS then none else some r.2
  | c :: line, part, split =>
    if c = Char.ofNat 0 ∨ c = '\n' then
      let r := split_line_insert_last_part split part
      if r.1 ≠ PARSE_SUCCESS then none else some r.2
    else if c = ' ' then
      let r := split_line_insert_last_part split part
      if r.1 ≠ PARSE_SUCCESS then none else split_line_loop line [] r.2
    else if c = '=' then
      let r := split_line_insert_last_part split part
      if r.1 ≠ PARSE_SUCCESS then none
      else
        let r := insert_split_to_list r.2 ['=']
        if r.1 ≠ PARSE_SUCCESS then none else split_line_loop line [] r.2
    else
      split_line_loop line (part ++ [c]) split

/-- Split a line at spaces and equal signs (`parse.c`, `split_line`). -/
def split_line (line : Str) : Option (List Str) :=
  split_line_loop line [] []

/-! ### `strtol` of the C library (ISO C 7.22.1.4), for a 64-bit `long` -/

def LONG_MAX : Int := 2 ^ 63 - 1
def LONG_MIN : Int := -(2 ^ 63)

/-- The white-space characters of `isspace` in the C locale. -/
def isspace (c : Char) : Bool :=
  c = ' ' ∨ c = '\t' ∨ c = '\n' ∨ c = Char.ofNat 11 ∨ c = Char.ofNat 12 ∨ c = '\r'

/-- Value of a digit or letter: `0`-`9` are 0-9, `a`-`z` and `A`-`Z` are 10-35. -/
def digit_value (c : Char) : Option Nat :=
  if 48 ≤ c.toNat ∧ c.toNat ≤ 57 then some (c.toNat - 48)
  else if 97 ≤ c.toNat ∧ c.toNat ≤ 122 then some (c.toNat - 97 + 10)
  else if 65 ≤ c.toNat ∧ c.toNat ≤ 90 then some (c.toNat - 65 + 10)
  else none

/-- A character that is a digit in the given base. -/
def is_digit (base : Nat) (c : Char) : Bool :=
  match digit_value c with
  | some d => d < base
  | none => false

/-- The digits of the subject sequence: accumulates the digits at the start of the string
and returns the number read, whether a digit was read, and the rest of the string. -/
def strtol_digits (base : Nat) : Str → Nat → Bool → Nat × Bool × Str
  | [], acc, any => (acc, any, [])
  | c :: s, acc, any =>
    match digit_value c with
    | some d => if d < base then strtol_digits base s (acc * base + d) true else (acc, any, c :: s)
    | none => (acc, any, c :: s)

/-- The string after an optional sign and whether the sign was a minus. -/
def strtol_sign : Str → Bool × Str
  | '-' :: s => (true, s)
  | '+' :: s => (false, s)
  | s => (false, s)

/-- The string after the optional prefix `0x` or `0X` of base 16; the prefix belongs to the
subject sequence only when a hexadecimal digit follows it. -/
def strtol_hex_start (base : Nat) : Str → Str
  | '0' :: x :: d :: s =>
    if base = 16 ∧ (x = 'x' ∨ x = 'X') ∧ is_digit base d then d :: s else '0' :: x :: d :: s
  | s => s

/-- The function `strtol`: the converted value and the string `*endptr` points to. Leading
white space is skipped; without any digit no conversion is performed and `*endptr` is
`nptr`; a value outside the range of `long` is replaced by `LONG_MAX` or `LONG_MIN`. -/
def strtol (nptr : Str) (base : Nat) : Int × Str :=
  let s := strtol_sign (nptr.dropWhile isspace)
  let r := strtol_digits base (strtol_hex_start base s.2) 0 false
  if r.2.1 then
    let v : Int := if s.1 then -(r.1 : Int) else (r.1 : Int)
    (max LONG_MIN (min LONG_MAX v), r.2.2)
  else
    (0, nptr)

/-- The loop `while (value_string[index] != 0 || secure_counter < 0)` of
`convert_to_value`: the first argument holds the characters from `index` on. At the
terminating NUL the loop goes on when `secure_counter` is negative, and then reads past the
end of the string: `none`. Otherwise the final `index`. -/
def convert_to_value_scan : Str → Nat → Int → Option Nat
  | [], index, secure_counter => if secure_counter < 0 then none else some index
  | _ :: value_string, index, secure_counter =>
    convert_to_value_scan value_string (index + 1) (secure_counter - 1)

/-- Converts the string containing a property value to an integer value (`parse.c`,
`convert_to_value`). The result of `strtol` is stored in an `int`. -/
def convert_to_value (value_string : Str) (base : Nat) : Outcome Int :=
  if value_string.head? ≠ some '"' then
    Outcome.error PARSE_ERR_INVALID_INPUT
  else
    match convert_to_value_scan value_string 0 PARSE_MAX_VALUE_STRING_LENGTH with
    | none => Outcome.undefined
    | some index =>
      if index ≤ 2 then
        Outcome.error PARSE_ERR_INVALID_INPUT
      else if value_string.get? (index - 1) ≠ some '"' then
        Outcome.error PARSE_ERR_INVALID_INPUT
      else
        let r := strtol ((value_string.take (index - 1)).drop 1) base
        let num : Int := to_int r.1
        if r.2 ≠ [] then
          Outcome.error PARSE_ERR_INVALID_INPUT
        else
          Outcome.ok num

/-- The loop of `split_to_properties` that gets all properties after the shape keyword: the
first argument holds the parts from `index` on, `list` is the property list so far. A part
of the split list has `data_size` equal to its length plus one. -/
def split_to_properties_loop : List Str → List Property → Outcome (List Property)
  | [], list => Outcome.ok list
  | command :: split_list, list =>
    if command.length + 1 ≥ PARSE_MAX_PROPERTY_NAME_LENGTH then
      Outcome.error PARSE_ERR_PROPERTY_NAME_TOO_LONG
    else
      match split_list with
      | [] => Outcome.error PARSE_ERR_INVALID_INPUT
      | equal_sign :: split_list =>
        if equal_sign ≠ ['='] then
          Outcome.error PARSE_ERR_INVALID_INPUT
        else
          match split_list with
          | [] => Outcome.error PARSE_ERR_INVALID_INPUT
          | value_string :: split_list =>
            let base := if command = "color".toList then 16 else 10
            match convert_to_value value_string base with
            | Outcome.error ret => Outcome.error ret
            | Outcome.undefined => Outcome.undefined
            | Outcome.ok value =>
              let r := list_append list { name := command, value := value }
              if r.1 ≠ LIST_SUCCESS then Outcome.error PARSE_ERR_LIST
              else split_to_properties_loop split_list r.2

/-- Translates the list of `split_line` to a list of properties (`parse.c`,
`split_to_properties`); the first property is the shape keyword with value 0. -/
def split_to_properties (split_list : List Str) : Outcome (List Property) :=
  match linked_list_get split_list 0 with
  | none => Outcome.error PARSE_ERR_INVALID_INPUT
  | some command =>
    if command.length + 1 ≥ PARSE_MAX_PROPERTY_NAME_LENGTH then
      Outcome.error PARSE_ERR_PROPERTY_NAME_TOO_LONG
    else
      let r := list_append list_new { name := command, value := 0 }
      if r.1 ≠ LIST_SUCCESS then Outcome.error PARSE_ERR_LIST
      else split_to_properties_loop (split_list.drop 1) r.2

/-- Find a property in a property list (`parse.c`, `find_property`): the value of the first
property with the name, stored in an `int`. -/
def find_property : List Property → Str → Outcome Int
  | [], _ => Outcome.error PARSE_ERR_INVALID_INPUT
  | prop_command :: list, name =>
    if prop_command.name = name then Outcome.ok (to_int prop_command.value)
    else find_property list name

/-- Converts a property list to a command of the given shape (`parse.c`,
`properties_to_command`). -/
def properties_to_command (list : List Property) : Outcome Command :=
  match list_get list 0 with
  | none => Outcome.error PARSE_ERR_INVALID_INPUT
  | some prop_command =>
    if prop_command.name = "rectangle".toList then
      (find_property list "id".toList).bind fun id =>
      (find_property list "color".toList).bind fun color =>
      (find_property list "x".toList).bind fun x =>
      (find_property list "y".toList).bind fun y =>
      (find_property list "width".toList).bind fun width =>
      (find_property list "height".toList).bind fun height =>
      Outcome.ok { shape := SH_RECTANGLE, id := to_u32 id,
                   obj := some (Obj.rectangle { id := to_u32 id, color := color, x := x, y := y,
                                                width := width, height := height }) }
    else if prop_command.name = "triangle".toList then
      (find_property list "id".toList).bind fun id =>
      (find_property list "color".toList).bind fun color =>
      (find_property list "ax".toList).bind fun ax =>
      (find_property list "ay".toList).bind fun ay =>
      (find_property list "bx".toList).bind fun bx =>
      (find_property list "by".toList).bind fun b_y =>
      (find_property list "cx".toList).bind fun cx =>
      (find_property list "cy".toList).bind fun cy =>
      Outcome.ok { shape := SH_TRIANGLE, id := to_u32 id,
                   obj := some (Obj.triangle { id := to_u32 id, color := color, ax := ax, ay := ay,
                                               bx := bx, «by» := b_y, cx := cx, cy := cy }) }
    else if prop_command.name = "circle".toList then
      (find_property list "id".toList).bind fun id =>
      (find_property list "color".toList).bind fun color =>
      (find_property list "x".toList).bind fun x =>
      (find_property list "y".toList).bind fun y =>
      (find_property list "radius".toList).bind fun radius =>
      Outcome.ok { shape := SH_CIRCLE, id := to_u32 id,
                   obj := some (Obj.circle { id := to_u32 id, color := color, x := x, y := y,
                                             radius := radius }) }
    else
      Outcome.error PARSE_ERR_INVALID_INPUT

/-- Parses a command given as a string (`parse.c`, `parse_line`). -/
def parse_line (line : Str) : Outcome Command :=
  match split_line line with
  | none => Outcome.error PARSE_ERR_OUT_OF_MEM
  | some split =>
    (split_to_properties split).bind fun property =>
    properties_to_command property

/-- The message `parse_file` prints before it returns an error. -/
inductive Printed where
  | err_msg_read_input
  | err_msg_invalid_input (line_number : Int)
  | err_msg_duplicate_id (id : Int)
  | err_msg_out_of_mem
  | err_msg_unrecognised
deriving DecidableEq, Repr

/-- Outcome of `parse_file`: `success` with the command list, `failure` with the return code
and the message printed, or `undefined`. -/
inductive FileOutcome where
  | success (list : List Command)
  | failure (ret : Nat) (printed : Printed)
  | undefined
deriving DecidableEq, Repr

/-- The loop of `parse_file` that searches the right place for `id`: the first argument
holds the elements `linked_list_get` returns from `index_search_list` on. `none` when the id
is already in the list, else the final `index_search_list`. The `int id` is compared with
the `uint32_t` ids of the list as an unsigned number. -/
def parse_file_search (id : Int) : List Command → Int → Option Int
  | [], index_search_list => some index_search_list
  | search_id_command :: command_list, index_search_list =>
    if to_u32 id < search_id_command.id then
      some index_search_list
    else if to_u32 id = search_id_command.id then
      none
    else
      parse_file_search id command_list (index_search_list + 1)

/-- The loop of `parse_file` that reads each line, with `fuel` bounding the number of
iterations (`none` when it runs out): the rest of the file, the command list so far and the
line number. -/
def parse_file_loop : Nat → Str → List Command → Int → Option FileOutcome
  | 0, _, _, _ => none
  | fuel + 1, input, command_list, line_number =>
    match readline input with
    | none => some (FileOutcome.success command_list)
    | some (line_buffer, input) =>
      match parse_line line_buffer with
      | Outcome.undefined => some FileOutcome.undefined
      | Outcome.error ret =>
        if ret = PARSE_ERR_OUT_OF_MEM then
          some (FileOutcome.failure ERR_OUT_OF_MEM Printed.err_msg_out_of_mem)
        else if ret = PARSE_ERR_INVALID_INPUT then
          some (FileOutcome.failure ERR_INVALID_INPUT (Printed.err_msg_invalid_input line_number))
        else
          some (FileOutcome.failure ERR_UNRECOGNISED Printed.err_msg_unrecognised)
      | Outcome.ok command =>
        let id : Int := to_int command.id
        match parse_file_search id command_list 0 with
        | none => some (FileOutcome.failure ERR_DUPLICATE_ID (Printed.err_msg_duplicate_id id))
        | some index_search_list =>
          let r := linked_list_insert command_list index_search_list command
          if r.1 ≠ LINKED_LIST_SUCCESS then
            some (FileOutcome.failure ERR_UNRECOGNISED Printed.err_msg_unrecognised)
          else
            parse_file_loop fuel input r.2 (line_number + 1)

/-- Parses an input file (`parse.c`, `parse_file`); `input` is the content of the file, or
`none` when it cannot be opened. Every iteration of the reading loop takes at least one
character of the file, so one more iteration than the file has characters is enough. -/
def parse_file (input : Option Str) : Option FileOutcome :=
  match input with
  | none => some (FileOutcome.failure ERR_READ_INPUT Printed.err_msg_read_input)
  | some input => parse_file_loop (input.length + 1) input [] 1

/-! ## draw.h / draw.c, continued -/

def DRAW_SUCCESS : Nat := 0
def DRAW_ERR_NULL_POINTER_PASSED : Nat := 1
def DRAW_ERR_COMMAND_INVALID : Nat := 2

/-- The greatest `j` up to `k` with `j * j ≤ n`. -/
def floor_sqrt_search (n : Nat) : Nat → Nat
  | 0 => 0
  | k + 1 => if (k + 1) * (k + 1) ≤ n then k + 1 else floor_sqrt_search n k

/-- The value of `sqrt` of the C library, converted to `int`, for an `int` argument that is
not negative: the integer part of the square root. (The argument is below `2^31`, so it is
a `double` exactly, and the correctly rounded root of such a number is below the next
integer whenever the exact root is.) -/
def floor_sqrt (n : Nat) : Nat :=
  floor_sqrt_search n n

/-- A value of type `double` in `draw_triangle`: the number it holds, as a fraction
`num / den` with a positive denominator. The arithmetic is that of IEEE 754 binary64 with
rounding to nearest, ties to even (`Frac.round`), evaluated in `double` precision. -/
structure Frac where
  num : Int
  den : Int
deriving DecidableEq, Repr

/-- Conversion of an `int` to `double`, which is exact. -/
def Frac.of_int (i : Int) : Frac := { num := i, den := 1 }

/-- The exact quotient `p / q` of two integers, for `q > 0`. -/
def Frac.quot (p q : Int) : Frac := { num := p, den := q }

/-- The least `s` from the given one on with `n * 2^s ≥ d * 2^52`, searched in at most `fuel`
steps: with it the integer part of `n * 2^s / d` has 53 bits. -/
def double_scale_up (n d : Nat) : Nat → Nat → Nat
  | 0, s => s
  | fuel + 1, s => if n * 2 ^ s < d * 2 ^ 52 then double_scale_up n d fuel (s + 1) else s

/-- The least `t` from the given one on with `n < d * 2^(53 + t)`, searched in at most `fuel`
steps: with it the integer part of `n / (d * 2^t)` has 53 bits. -/
def double_scale_down (n d : Nat) : Nat → Nat → Nat
  | 0, t => t
  | fuel + 1, t => if d * 2 ^ (53 + t) ≤ n then double_scale_down n d fuel (t + 1) else t

/-- The integer nearest to `n / d`; of two nearest integers the even one. -/
def round_half_even (n d : Nat) : Nat :=
  let q := n / d
  let r := n % d
  if 2 * r > d ∨ (2 * r = d ∧ q % 2 = 1) then q + 1 else q

/-- The `double` nearest to a number, the one with an even significand of two nearest ones:
the number is scaled by a power of two so that its integer part has 53 bits, rounded to an
integer and scaled back. The exponent is not limited: the numbers of `draw_triangle` (sums
and quotients of `int` values) are far from the overflow and underflow thresholds of
`double`. -/
def Frac.round (a : Frac) : Frac :=
  let n := a.num.natAbs
  let d := a.den.natAbs
  let sign : Int := if a.num < 0 then -1 else 1
  if n = 0 then { num := 0, den := 1 }
  else if n < d * 2 ^ 53 then
    let s := double_scale_up n d (53 + d) 0
    { num := sign * (round_half_even (n * 2 ^ s) d : Nat), den := 2 ^ s }
  else
    let t := double_scale_down n d n 0
    { num := sign * (round_half_even n (d * 2 ^ t) : Nat) * 2 ^ t, den := 1 }

/-- The quotient `(double)p / (double)q` of two integer-valued doubles, for `q > 0`. -/
def Frac.div (p q : Int) : Frac := (Frac.quot p q).round

/-- Sum of two doubles. -/
def Frac.add (a b : Frac) : Frac :=
  Frac.round { num := a.num * b.den + b.num * a.den, den := a.den * b.den }

/-- The comparison `a > b` of two doubles. -/
def Frac.gt (a b : Frac) : Bool :=
  decide (a.num * b.den > b.num * a.den)

/-- Conversion of a `double` to `int`: the fractional part is discarded. -/
def Frac.to_int (a : Frac) : Int :=
  Int.tdiv a.num a.den

/-- Draws a horizontal line (`draw.c`, `horizline`), over an arbitrary state `σ` that each
call of the write primitive transforms; `width` and `height` are those of the pixel
buffer. -/
def horizline_with {σ : Type} (write : σ → Nat → Nat → Nat → σ) (width height : Nat) (s : σ)
    (x1 x2 y color : Int) : σ :=
  let first := if x1 > x2 then x2 else x1
  let last := if x1 > x2 then x1 else x2
  if y ≥ 0 ∧ y < height then
    (List.range (last - first).toNat).foldl (fun s (i : Nat) =>
      let x := first + (i : Int)
      if x ≥ 0 ∧ x < width then
        write s (to_u32 x) (to_u32 y) (to_u32 color)
      else s) s
  else s

/-- The three compare-and-swap steps at the start of `draw_triangle`: the points
`(ax, ay)`, `(bx, by)`, `(cx, cy)` afterwards. -/
def draw_triangle_sort (triangle : Triangle) : (Int × Int) × (Int × Int) × (Int × Int) :=
  let a := (triangle.ax, triangle.ay)
  let b := (triangle.bx, triangle.«by»)
  let c := (triangle.cx, triangle.cy)
  let ab := if a.2 > b.2 then (b, a) else (a, b)
  let a := ab.1
  let b := ab.2
  let bc := if b.2 > c.2 then (c, b) else (b, c)
  let b := bc.1
  let c := bc.2
  let ab := if a.2 > b.2 then (b, a) else (a, b)
  (ab.1, ab.2, c)

/-- The running variables of the filler of `draw_triangle`: the state of the pixel writes,
`sx`, `ex` and `sy` (`sy` always holds an integer; `ey` is never read). -/
structure TriangleState (σ : Type) where
  s : σ
  sx : Frac
  ex : Frac
  sy : Int

/-- A given number of iterations of a loop
`while (sy <= ...) { horizline(pix_buffer, sx, ex, sy, color); sy++; ey++; sx += dsx; ex += dex; }`
of `draw_triangle`. -/
def draw_triangle_rows {σ : Type} (write : σ → Nat → Nat → Nat → σ) (width height : Nat)
    (color : Int) (dsx dex : Frac) : Nat → TriangleState σ → TriangleState σ
  | 0, st => st
  | n + 1, st =>
    draw_triangle_rows write width height color dsx dex n
      { s := horizline_with write width height st.s st.sx.to_int st.ex.to_int st.sy color,
        sx := st.sx.add dsx,
        ex := st.ex.add dex,
        sy := st.sy + 1 }

/-- A loop `while (sy <= limit) { ... }` of `draw_triangle`: `sy` grows by one in every
iteration, so the loop runs `limit - sy + 1` times, or not at all. -/
def draw_triangle_while {σ : Type} (write : σ → Nat → Nat → Nat → σ) (width height : Nat)
    (color : Int) (dsx dex : Frac) (limit : Int) (st : TriangleState σ) : TriangleState σ :=
  draw_triangle_rows write width height color dsx dex (limit - st.sy + 1).toNat st

/-- Draws the given triangle (`draw.c`, `draw_triangle`), over an arbitrary state `σ` that
each call of the write primitive transforms. The differences of the rows in the tests of
the slopes are computed in `int` and wrap around; the differences and quotients of the
slopes themselves are taken in `double`, the differences exactly. -/
def draw_triangle_with {σ : Type} (write : σ → Nat → Nat → Nat → σ) (width height : Nat)
    (s : σ) (triangle : Triangle) : σ :=
  let color := triangle.color
  let sorted := draw_triangle_sort triangle
  let ax := sorted.1.1
  let ay := sorted.1.2
  let bx := sorted.2.1.1
  let b_y := sorted.2.1.2
  let cx := sorted.2.2.1
  let cy := sorted.2.2.2
  let dx1 := if to_int (b_y - ay) > 0 then Frac.div (bx - ax) (b_y - ay) else Frac.of_int 0
  let dx2 := if to_int (cy - ay) > 0 then Frac.div (cx - ax) (cy - ay) else Frac.of_int 0
  let dx3 := if to_int (cy - b_y) > 0 then Frac.div (cx - bx) (cy - b_y) else Frac.of_int 0
  let st : TriangleState σ := { s := s, sx := Frac.of_int ax, ex := Frac.of_int ax, sy := ay }
  if dx1.gt dx2 = true then
    let st := draw_triangle_while write width height color dx2 dx1 b_y st
    let st := { st with ex := Frac.of_int bx }
    let st := draw_triangle_while write width height color dx2 dx3 cy st
    st.s
  else
    let st := draw_triangle_while write width height color dx1 dx2 b_y st
    let st := { st with sx := Frac.of_int bx, sy := b_y }
    let st := draw_triangle_while write width height color dx3 dx2 cy st
    st.s

/-- Draws the given triangle to the pixel buffer (`draw.c`, `draw_triangle`). -/
def draw_triangle (pix_buffer : PixelBuffer) (triangle : Triangle) : PixelBuffer :=
  draw_triangle_with (fun pb x y color => (bitmap_write_pixel pb x y color).2)
    pix_buffer.width pix_buffer.height pix_buffer triangle

/-- The calls of the write primitive that `draw_triangle` makes, in order, for a pixel
buffer of the given width and height. -/
def draw_triangle_calls (width height : Nat) (triangle : Triangle) : List PixelWrite :=
  draw_triangle_with (fun calls x y color => calls ++ [⟨x, y, color⟩]) width height []
    triangle

/-- The argument `radius * radius - index_x * index_x` of `sqrt` in `draw_circle`: the
products and the difference are computed in `int` and wrap around. -/
def circle_radicand (radius : Int) (index_x : Nat) : Int :=
  to_int (to_int (radius * radius) - to_int ((index_x : Int) * (index_x : Int)))

/-- The two writes of one iteration of an inner loop of `draw_circle`, in the column
`column`: the pixel `index_y` rows below the centre and the one `index_y` rows above it,
each only inside the image. -/
def draw_circle_pair {σ : Type} (write : σ → Nat → Nat → Nat → σ) (height : Nat)
    (column y color : Int) (s : σ) (index_y : Nat) : σ :=
  let upper_y := y + (index_y : Int)
  let lower_y := y - (index_y : Int)
  let s := if upper_y ≥ 0 ∧ upper_y < height then
      write s (to_u32 column) (to_u32 upper_y) (to_u32 color)
    else s
  if lower_y ≥ 0 ∧ lower_y < height then
    write s (to_u32 column) (to_u32 lower_y) (to_u32 color)
  else s

/-- Draws the given circle (`draw.c`, `draw_circle`), over an arbitrary state `σ` that each
call of the write primitive transforms; `width` and `height` are those of the pixel buffer.
The message printed when a write of the left bar does not return `BITMAP_SUCCESS` is not
part of the state. For a negative argument `sqrt` returns a NaN, and `y_offset` is not
positive: the inner loops do not run, as for the argument 0. -/
def draw_circle_with {σ : Type} (write : σ → Nat → Nat → Nat → σ) (width height : Nat)
    (s : σ) (circle : Circle) : σ :=
  let color := circle.color
  let x := circle.x
  let y := circle.y
  let radius := circle.radius
  (List.range radius.toNat).foldl (fun s (index_x : Nat) =>
    let upper_x := x + (index_x : Int)
    let lower_x := x - (index_x : Int)
    let y_offset := floor_sqrt (circle_radicand radius index_x).toNat
    let s := if upper_x ≥ 0 ∧ upper_x < width then
        (List.range y_offset).foldl (draw_circle_pair write height upper_x y color) s
      else s
    if lower_x > 0 ∧ lower_x < width then
      (List.range y_offset).foldl (draw_circle_pair write height lower_x y color) s
    else s) s

/-- Draws the given circle to the pixel buffer (`draw.c`, `draw_circle`). -/
def draw_circle (pix_buffer : PixelBuffer) (circle : Circle) : PixelBuffer :=
  draw_circle_with (fun pb x y color => (bitmap_write_pixel pb x y color).2)
    pix_buffer.width pix_buffer.height pix_buffer circle

/-- The calls of the write primitive that `draw_circle` makes, in order, for a pixel buffer
of the given width and height. -/
def draw_circle_calls (width height : Nat) (circle : Circle) : List PixelWrite :=
  draw_circle_with (fun calls x y color => calls ++ [⟨x, y, color⟩]) width height [] circle

/-- Executes the drawing command (`draw.c`, `draw_command`): `ok` with the pixel buffer
afterwards for `DRAW_SUCCESS`, `error` with the return code otherwise (nothing is drawn
then); `none` is a NULL pointer. The tag `shape` tells to which struct `obj` points; a
payload of another shape, which `parse_line` never builds, is read through a pointer of the
wrong type: `undefined`. -/
def draw_command (pix_buffer : Option PixelBuffer) (comm : Option Command) :
    Outcome PixelBuffer :=
  match pix_buffer with
  | none => Outcome.error DRAW_ERR_NULL_POINTER_PASSED
  | some pix_buffer =>
    match comm with
    | none => Outcome.error DRAW_ERR_NULL_POINTER_PASSED
    | some comm =>
      match comm.obj with
      | none => Outcome.error DRAW_ERR_COMMAND_INVALID
      | some obj =>
        if comm.shape = SH_TRIANGLE then
          match obj with
          | Obj.triangle triangle => Outcome.ok (draw_triangle pix_buffer triangle)
          | _ => Outcome.undefined
        else if comm.shape = SH_CIRCLE then
          match obj with
          | Obj.circle circ => Outcome.ok (draw_circle pix_buffer circ)
          | _ => Outcome.undefined
        else if comm.shape = SH_RECTANGLE then
          match obj with
          | Obj.rectangle rectangle => Outcome.ok (draw_rectangle pix_buffer rectangle)
          | _ => Outcome.undefined
        else
          Outcome.error DRAW_ERR_COMMAND_INVALID

/-! ## main.c -/

/-- The loop `draw commands` of `main`: the first argument holds the commands that
`linked_list_get` returns from `index_command` on (each with the size of a `Command`). An
error of `draw_command` ends the loop with `ERR_UNRECOGNISED`. -/
def main_draw_commands : List Command → PixelBuffer → Outcome PixelBuffer
  | [], pix_buffer => Outcome.ok pix_buffer
  | comm :: command_list, pix_buffer =>
    match draw_command (some pix_buffer) (some comm) with
    | Outcome.ok pix_buffer => main_draw_commands command_list pix_buffer
    | Outcome.error _ => Outcome.error ERR_UNRECOGNISED
    | Outcome.undefined => Outcome.undefined

/-- The part of `main` between parsing the input file and writing the output file: the pixel
buffer is created, set white with a rectangle command of the size of the image, and the
commands of the list are drawn in order. `width` and `height` are the non-negative `int`
values of the command line. The result is the pixel buffer that is written to the output
file, or the exit code of `main`. -/
def main_pixel_buffer (width height : Nat) (command_list : List Command) :
    Outcome PixelBuffer :=
  match bitmap_pixel_buffer_new width height with
  | none => Outcome.error ERR_OUT_OF_MEM
  | some pix_buffer =>
    let rect_white : Rectangle :=
      { id := 0, color := 0xffffff, x := 0, y := 0, width := width, height := height }
    let comm_white : Command :=
      { shape := SH_RECTANGLE, id := 0, obj := some (Obj.rectangle rect_white) }
    match draw_command (some pix_buffer) (some comm_white) with
    | Outcome.ok pix_buffer => main_draw_commands command_list pix_buffer
    | Outcome.error _ => Outcome.error ERR_UNRECOGNISED
    | Outcome.undefined => Outcome.undefined

/-! ### Reference notions for the parser -/

/-- The text of a scene file with the given lines, each ended by a newline. -/
def scene_text : List Str → Str
  | [] => []
  | line :: lines => line ++ '\n' :: scene_text lines

/-- A line of text as `readline` delimits it: it holds neither a newline nor the byte that
reads as `EOF`. -/
def is_text_line (line : Str) : Prop :=
  '\n' ∉ line ∧ EOF_CHAR ∉ line

/-- The line buffers that the successive calls of `readline` return for a file, until
`readline` reports the end of the file (`fuel` bounds the number of calls). -/
def read_lines_loop : Nat → Str → List Str
  | 0, _ => []
  | fuel + 1, file =>
    match readline file with
    | none => []
    | some (line_buffer, file) => line_buffer :: read_lines_loop fuel file

/-- The lines of a file as `readline` delimits them; every call takes at least one character
of the file. -/
def read_lines (file : Str) : List Str :=
  read_lines_loop (file.length + 1) file

/-- Ascending order of identifier. -/
def ascending_by_id (list : List Command) : Prop :=
  list.Pairwise (fun a b => a.id < b.id)

/-- Number that a sequence of digits denotes in a base, by position: the first digit has the
greatest weight. -/
def numeral_value (base : Nat) : Str → Nat
  | [] => 0
  | c :: text => (digit_value c).getD 0 * base ^ text.length + numeral_value base text

/-- A numeral: a non-empty sequence of digits of the base. -/
def is_numeral (base : Nat) (text : Str) : Bool :=
  !text.isEmpty && text.all (is_digit base)

/-- Number that an unsigned integer literal denotes: a numeral, in base 16 optionally after
`0x` or `0X`; `none` when the text is no such literal. -/
def literal_unsigned (base : Nat) (text : Str) : Option Nat :=
  if base = 16 ∧ (text.take 2 = ['0', 'x'] ∨ text.take 2 = ['0', 'X'])
      ∧ is_numeral base (text.drop 2) = true then
    some (numeral_value base (text.drop 2))
  else if is_numeral base text = true then
    some (numeral_value base text)
  else
    none

/-- Integer that a text denotes as an integer literal of the base: optional white space, an
optional sign, and an unsigned literal that extends to the end of the text; `none` when the
text is not entirely such a literal. -/
def literal_value (base : Nat) (text : Str) : Option Int :=
  let t := text.dropWhile isspace
  let u := if t.head? = some '-' ∨ t.head? = some '+' then t.drop 1 else t
  (literal_unsigned base u).map fun (n : Nat) =>
    if t.head? = some '-' then -(n : Int) else (n : Int)

/-- The `int` in which the code keeps an integer read by `strtol`: the number is cut to the
range of `long` and converted to `int`. It is the number itself in the range of `int`. -/
def stored_int (v : Int) : Int :=
  to_int (max LONG_MIN (min LONG_MAX v))

/-- The text between the first and the last character of a value string. -/
def quoted_text (value_string : Str) : Str :=
  (value_string.drop 1).dropLast

/-- The base in which the value of a property is written: 16 for `color`, else 10. -/
def property_base (name : Str) : Nat :=
  if name = "color".toList then 16 else 10

/-- The integer given on a line for a property, the line being its groups `name`, `=`,
`"text"` after the shape keyword: the integer that the quoted text of the first group with
that name denotes in the base of the property. -/
def given_value : List Str → Str → Option Int
  | group_name :: _ :: value_string :: groups, name =>
    if group_name = name then literal_value (property_base name) (quoted_text value_string)
    else given_value groups name
  | _, _ => none

/-- A well-formed value string of a base: a text between two double quotes, of at least one
character, that is entirely an integer literal of the base. -/
def is_value_string (base : Nat) (value_string : Str) : Prop :=
  3 ≤ value_string.length ∧ value_string.head? = some '"' ∧
  value_string.get? (value_string.length - 1) = some '"' ∧
  ∃ v, literal_value base (quoted_text value_string) = some v

/-- The parts after the shape keyword are well-formed groups: each is a name, the part `=`
and a well-formed value string in the base of the name. -/
def groups_well_formed : List Str → Prop
  | [] => True
  | name :: equal_sign :: value_string :: groups =>
    equal_sign = ['='] ∧ is_value_string (property_base name) value_string ∧
    groups_well_formed groups
  | _ => False

/-- The names of the groups are shorter than the name limit of 19 characters. -/
def group_names_short : List Str → Prop
  | [] => True
  | [name] => name.length < 19
  | [name, _] => name.length < 19
  | name :: _ :: _ :: groups => name.length < 19 ∧ group_names_short groups

/-- The value strings of the groups that start with a double quote have at most
`PARSE_MAX_VALUE_STRING_LENGTH` characters. -/
def value_strings_bounded : List Str → Prop
  | _ :: _ :: value_string :: groups =>
    (value_string.head? = some '"' → value_string.length ≤ PARSE_MAX_VALUE_STRING_LENGTH) ∧
    value_strings_bounded groups
  | _ => True

/-- The parts of a line after the shape keyword, for groups given as pairs of a name and a
value string: for each group the name, the part `=` and the value string. -/
def group_parts (groups : List (Str × Str)) : List Str :=
  groups.flatMap fun g => [g.1, ['='], g.2]

/-- The property that a group of a name and a value string stands for: the name is shorter
than the limit, and the value string converts to an integer in the base of the name. -/
def group_property (g : Str × Str) : Option Property :=
  if g.1.length + 1 ≥ PARSE_MAX_PROPERTY_NAME_LENGTH then none
  else
    match convert_to_value g.2 (property_base g.1) with
    | Outcome.ok value => some { name := g.1, value := value }
    | _ => none

/-! ### Reference notions for the rasterizer -/

/-- The pixel buffers of an image of `W` by `H` pixels: the pixel array has `rowStride W * H`
bytes, which is also the size the buffer records. -/
def is_pixel_buffer (W H : Nat) (pix_buffer : PixelBuffer) : Prop :=
  pix_buffer.width = W ∧ pix_buffer.height = H ∧
    pix_buffer.data_size = ((rowStride W * H : Nat) : Int) ∧
    pix_buffer.data.length = rowStride W * H

/-- The 24-bit color that the three bytes at `offset`, `offset + 1` and `offset + 2` of a
pixel array hold, blue first; `none` when the array ends before. -/
def color_at (data : List Nat) (offset : Nat) : Option Nat :=
  match data[offset]?, data[offset + 1]?, data[offset + 2]? with
  | some blue, some green, some red => some (blue + 256 * green + 65536 * red)
  | _, _, _ => none

/-- The pixel that the write primitive addresses as `(column, row)`: the three bytes from
offset `(height - row) * rowStride width + 3 * column` on. -/
def pixel_at (pix_buffer : PixelBuffer) (column row : Nat) : Option Nat :=
  color_at pix_buffer.data
    ((pix_buffer.height - row) * rowStride pix_buffer.width + 3 * column)

/-- The pixels of a pixel array of `height` rows of `width` pixels, row after row in the
order of storage. -/
def pixels_of (pix_buffer : PixelBuffer) : List (Option Nat) :=
  (List.range pix_buffer.height).flatMap fun (storage_row : Nat) =>
    (List.range pix_buffer.width).map fun (column : Nat) =>
      color_at pix_buffer.data (storage_row * rowStride pix_buffer.width + 3 * column)

/-- The example scene of the specification: a red rectangle and a green circle. -/
def example_scene : Str :=
  scene_text
    ["rectangle id=\"1\" color=\"ff0000\" x=\"0\" y=\"0\" width=\"2\" height=\"2\"".toList,
     "circle id=\"2\" color=\"00ff00\" x=\"5\" y=\"5\" radius=\"1\"".toList]

/-- The commands of the example scene. -/
def example_commands : List Command :=
  [{ shape := SH_RECTANGLE, id := 1,
     obj := some (Obj.rectangle
       { id := 1, color := 0xff0000, x := 0, y := 0, width := 2, height := 2 }) },
   { shape := SH_CIRCLE, id := 2,
     obj := some (Obj.circle { id := 2, color := 0x00ff00, x := 5, y := 5, radius := 1 }) }]

/-- The result of a call that returns a pixel buffer, if it succeeds. -/
def Outcome.pixel_buffer? : Outcome PixelBuffer → Option PixelBuffer
  | Outcome.ok pix_buffer => some pix_buffer
  | _ => none

/-- The pixel buffer after a sequence of calls of the write primitive. -/
def apply_writes (pix_buffer : PixelBuffer) (calls : List PixelWrite) : PixelBuffer :=
  calls.foldl (fun pb w => (bitmap_write_pixel pb w.column w.row w.color).2) pix_buffer

/-- The calls of one iteration of an inner loop of `draw_circle`, as a list. -/
def circle_pair_calls (height : Nat) (column y color : Int) (index_y : Nat) :
    List PixelWrite :=
  (if y + (index_y : Int) ≥ 0 ∧ y + (index_y : Int) < height then
    [⟨to_u32 column, to_u32 (y + (index_y : Int)), to_u32 color⟩] else []) ++
  (if y - (index_y : Int) ≥ 0 ∧ y - (index_y : Int) < height then
    [⟨to_u32 column, to_u32 (y - (index_y : Int)), to_u32 color⟩] else [])

/-- The calls of `draw_circle`, as a list expression: for every `index_x` the calls of the
bar right from the centre and those of the bar left from it. -/
def circle_calls (width height : Nat) (circle : Circle) : List PixelWrite :=
  (List.range circle.radius.toNat).flatMap fun (index_x : Nat) =>
    (if circle.x + (index_x : Int) ≥ 0 ∧ circle.x + (index_x : Int) < width then
      (List.range (floor_sqrt (circle_radicand circle.radius index_x).toNat)).flatMap
        (circle_pair_calls height (circle.x + (index_x : Int)) circle.y circle.color)
      else []) ++
    (if circle.x - (index_x : Int) > 0 ∧ circle.x - (index_x : Int) < width then
      (List.range (floor_sqrt (circle_radicand circle.radius index_x).toNat)).flatMap
        (circle_pair_calls height (circle.x - (index_x : Int)) circle.y circle.color)
      else [])

/-! ### Reference notions for the tokenizer -/

/-- A character other than the space and the equal sign. -/
def is_plain (c : Char) : Bool :=
  decide (c ≠ ' ' ∧ c ≠ '=')

/-- A character before the end of a line: neither the terminating NUL nor a newline. -/
def in_line (c : Char) : Bool :=
  decide (c ≠ Char.ofNat 0 ∧ c ≠ '\n')

/-- The characters of a line up to the first newline or the end of the string. -/
def line_content (line : Str) : Str :=
  line.takeWhile in_line

/-- The tokens of a text, in order: spaces are skipped, every equal sign is a token, and a
character other than these starts a token that extends over the maximal run of such
characters. Every step takes at least one character, so `fuel` from the length of the text on
is enough. -/
def token_runs_fuel : Nat → Str → List Str
  | 0, _ => []
  | _ + 1, [] => []
  | fuel + 1, c :: s =>
    if c = ' ' then token_runs_fuel fuel s
    else if c = '=' then ['='] :: token_runs_fuel fuel s
    else (c :: s.takeWhile is_plain) :: token_runs_fuel fuel (s.dropWhile is_plain)

/-- The tokens of a line: the maximal runs of characters other than space and `=` and the
equal signs, in order, up to the first newline or the end of the string. -/
def token_runs (line : Str) : List Str :=
  token_runs_fuel (line_content line).length (line_content line)

/-- The calls of `draw_rectangle`, as a list expression: for every column of the rectangle
that passes the guard, the calls for the rows that pass the guard. -/
def rectangle_calls (rectangle : Rectangle) : List PixelWrite :=
  (List.range rectangle.width.toNat).flatMap fun (index_x : Nat) =>
    if rectangle.x + (index_x : Int) ≥ 0 ∧ rectangle.x + (index_x : Int) < rectangle.width then
      (List.range rectangle.height.toNat).flatMap fun (index_y : Nat) =>
        if rectangle.y + (index_y : Int) ≥ 0 ∧
            rectangle.y + (index_y : Int) < rectangle.height then
          [⟨to_u32 (rectangle.x + (index_x : Int)), to_u32 (rectangle.y + (index_y : Int)),
            to_u32 rectangle.color⟩]
        else []
    else []

/-- The x-coordinate at row `y` of the line through the points `p` and `q`, with
`p.2 < q.2`, by linear interpolation, as an exact fraction. -/
def interpolate_x (p q : Int × Int) (y : Int) : Frac :=
  Frac.quot (p.1 * (q.2 - p.2) + (q.1 - p.1) * (y - p.2)) (q.2 - p.2)

/-- The calls of the write primitive that `draw_command` makes for a command, in order, on a
pixel buffer of the given width and height. -/
def command_calls (width height : Nat) (comm : Command) : List PixelWrite :=
  match comm.obj with
  | some (Obj.rectangle rectangle) => draw_rectangle_calls rectangle
  | some (Obj.circle circ) => draw_circle_calls width height circ
  | some (Obj.triangle triangle) => draw_triangle_calls width height triangle
  | none => []

/-- A command as `parse_line` builds it: the shape tag is that of the struct `obj` points
to. -/
def is_shape_command (comm : Command) : Prop :=
  (comm.shape = SH_RECTANGLE ∧ ∃ rectangle, comm.obj = some (Obj.rectangle rectangle)) ∨
  (comm.shape = SH_CIRCLE ∧ ∃ circle, comm.obj = some (Obj.circle circle)) ∨
  (comm.shape = SH_TRIANGLE ∧ ∃ triangle, comm.obj = some (Obj.triangle triangle))

/-- The bytes of a pixel array of rows of `W` pixels that belong to no pixel the write
primitive stores are zero: the bytes of the first row of the array and the padding bytes at
the end of every row. -/
def margins_zero (W : Nat) (pix_buffer : PixelBuffer) : Prop :=
  ∀ i, i < pix_buffer.data.length → (i < rowStride W ∨ 3 * W ≤ i % rowStride W) →
    pix_buffer.data[i]? = some 0


theorem land_shiftRight (a b i : Nat) : (a &&& b) >>> i = (a >>> i) &&& (b >>> i) := by
  apply Nat.eq_of_testBit_eq
  intro j
  simp

theorem byte0_eq (n : Nat) : (n &&& 0x000000ff) >>> 0 = n % 256 := by
  show n &&& (2 ^ 8 - 1) = _
  rw [Nat.and_pow_two_sub_one_eq_mod]

theorem byte1_eq (n : Nat) : (n &&& 0x0000ff00) >>> 8 = n / 256 % 256 := by
  rw [land_shiftRight]
  show n >>> 8 &&& (2 ^ 8 - 1) = _
  rw [Nat.and_pow_two_sub_one_eq_mod, Nat.shiftRight_eq_div_pow]

theorem byte2_eq (n : Nat) : (n &&& 0x00ff0000) >>> 16 = n / 65536 % 256 := by
  rw [land_shiftRight]
  show n >>> 16 &&& (2 ^ 8 - 1) = _
  rw [Nat.and_pow_two_sub_one_eq_mod, Nat.shiftRight_eq_div_pow]

theorem byte3_eq (n : Nat) : (n &&& 0xff000000) >>> 24 = n / 16777216 % 256 := by
  rw [land_shiftRight]
  show n >>> 24 &&& (2 ^ 8 - 1) = _
  rw [Nat.and_pow_two_sub_one_eq_mod, Nat.shiftRight_eq_div_pow]

/-- The four masked and shifted bytes of a 32-bit field are its little-endian encoding. -/
theorem field_bytes_eq_le32 (n : Nat) :
    [(n &&& 0x000000ff) >>> 0, (n &&& 0x0000ff00) >>> 8,
     (n &&& 0x00ff0000) >>> 16, (n &&& 0xff000000) >>> 24] = le32 n := by
  rw [byte0_eq, byte1_eq, byte2_eq, byte3_eq, le32]

theorem le_value_le32 (n : Nat) (h : n < 2 ^ 32) : le_value (le32 n) = n := by
  simp only [le32, le_value]
  omega

/-- The row size of the code is the rounding of `3 * width` up to a multiple of four, cut
to 32 bits. -/
theorem row_size_eq_mod (width : Nat) :
    bitmap_pixel_array_row_size width = ((width * 3 + 3) / 4 * 4) % 2 ^ 32 := by
  simp only [bitmap_pixel_array_row_size, u32, BITMAP_RGB_COLOR_SIZE, BITMAP_ALIGNMENT]
  generalize width * 3 = k
  have h1 : k % 2 ^ 32 % 4 = k % 4 := by omega
  have h2 : (k + 3) / 4 * 4 = if k % 4 = 0 then k else k + 4 - k % 4 := by split <;> omega
  rw [h1, h2]
  by_cases h : k % 4 = 0
  · simp [h]
  · simp only [h, if_false, ne_eq, not_false_eq_true, if_true]
    have h3 : k % 4 ≤ 3 := by omega
    have h4 : k % 2 ^ 32 + 4 - k % 4 = (k + 4 - k % 4) - 2 ^ 32 * (k / 2 ^ 32) := by omega
    omega

theorem rowStride_eq (width : Nat) : rowStride width = (width * 3 + 3) / 4 * 4 := by
  unfold rowStride
  congr 1
  apply le_antisymm
  · rw [Nat.ceil_le, div_le_iff₀ (by norm_num)]
    have h : width * 3 ≤ (width * 3 + 3) / 4 * 4 := by omega
    exact_mod_cast h
  · rcases Nat.eq_zero_or_pos ((width * 3 + 3) / 4) with h0 | hpos
    · rw [h0]; exact Nat.zero_le _
    · have hk : (width * 3 + 3) / 4 - 1 < ⌈((width * 3 : Nat) : ℚ) / 4⌉₊ := by
        rw [Nat.lt_ceil, lt_div_iff₀ (by norm_num)]
        have h : ((width * 3 + 3) / 4 - 1) * 4 < width * 3 := by omega
        exact_mod_cast h
      omega

theorem row_size_eq_rowStride_mod (width : Nat) :
    bitmap_pixel_array_row_size width = rowStride width % 2 ^ 32 := by
  rw [row_size_eq_mod, rowStride_eq]

/-- The header as a concatenation of encoded fields. -/
theorem header_eq (width height : Nat) :
    bitmap_file_header_new width height =
      [0x42, 0x4D] ++ le32 (u32 (54 + bitmap_pixel_array_size width height)) ++ [0, 0, 0, 0]
        ++ le32 54 ++ le32 40 ++ le32 (u32 width) ++ le32 (u32 height) ++ le16 1 ++ le16 24
        ++ List.replicate 24 0 := by
  simp only [bitmap_file_header_new, bitmap_file_header_fields, byte0_eq, byte1_eq, byte2_eq,
    byte3_eq, le32, le16, BITMAP_HEADER_SIZE, BITMAP_FILE_HEADER_SIZE, BITMAP_INFO_HEADER_SIZE]
  rfl

/-! ## The bitmap encoder -/

/-- C7. For every width and height (values of type `uint32_t`), `bitmap_file_header_new`
returns exactly 54 bytes: bytes 0-1 are 0x42 0x4D, bytes 6-9 are 0, bytes 10-13 encode 54,
bytes 14-17 encode 40, bytes 18-21 the width, bytes 22-25 the height, bytes 26-27 encode 1,
bytes 28-29 encode 24 (all little-endian), and bytes 30-53 are 0. -/
theorem bitmap_file_header_new_layout (width height : Nat)
    (hw : width < 2 ^ 32) (hh : height < 2 ^ 32) :
    (bitmap_file_header_new width height).length = 54 ∧
    (bitmap_file_header_new width height).take 2 = [0x42, 0x4D] ∧
    ((bitmap_file_header_new width height).drop 6).take 4 = [0, 0, 0, 0] ∧
    ((bitmap_file_header_new width height).drop 10).take 4 = le32 54 ∧
    ((bitmap_file_header_new width height).drop 14).take 4 = le32 40 ∧
    ((bitmap_file_header_new width height).drop 18).take 4 = le32 width ∧
    ((bitmap_file_header_new width height).drop 22).take 4 = le32 height ∧
    ((bitmap_file_header_new width height).drop 26).take 2 = le16 1 ∧
    ((bitmap_file_header_new width height).drop 28).take 2 = le16 24 ∧
    (bitmap_file_header_new width height).drop 30 = List.replicate 24 0 := by
  have hw' : u32 width = width := Nat.mod_eq_of_lt hw
  have hh' : u32 height = height := Nat.mod_eq_of_lt hh
  rw [header_eq, hw', hh']
  simp [le32, le16, List.replicate]

theorem bitmap_file_header_new_layout_witness :
    (640 : Nat) < 2 ^ 32 ∧ (480 : Nat) < 2 ^ 32 ∧
    ((bitmap_file_header_new 640 480).drop 18).take 4 = le32 640 :=
  ⟨by decide, by decide,
    (bitmap_file_header_new_layout 640 480 (by decide) (by decide)).2.2.2.2.2.1⟩

/-- C8. For every width and height, the little-endian value of header bytes 2-5 is
`54 + rowStride(width) * height` reduced modulo `2^32`, hence exactly
`54 + rowStride(width) * height` when that is below `2^32`; and it is the number of bytes of
the header plus the pixel array of the buffer `bitmap_pixel_buffer_new` creates, which is
what is output. -/
theorem bitmap_file_header_new_file_size (width height : Nat)
    (_hw : width < 2 ^ 32) (_hh : height < 2 ^ 32) :
    le_value (((bitmap_file_header_new width height).drop 2).take 4)
        = (54 + rowStride width * height) % 2 ^ 32 ∧
    (54 + rowStride width * height < 2 ^ 32 →
      le_value (((bitmap_file_header_new width height).drop 2).take 4)
        = 54 + rowStride width * height) ∧
    (∀ pix_buffer, bitmap_pixel_buffer_new width height = some pix_buffer →
      ((bitmap_file_header_new width height).length : Int)
          + (bitmap_get_pixel_array pix_buffer).2
        = le_value (((bitmap_file_header_new width height).drop 2).take 4) ∧
      (bitmap_get_pixel_array pix_buffer).1.length
        = ((bitmap_get_pixel_array pix_buffer).2).toNat) := by
  have hsize : le_value (((bitmap_file_header_new width height).drop 2).take 4)
      = u32 (54 + bitmap_pixel_array_size width height) := by
    rw [header_eq]
    have : (([0x42, 0x4D] ++ le32 (u32 (54 + bitmap_pixel_array_size width height))
        ++ [0, 0, 0, 0] ++ le32 54 ++ le32 40 ++ le32 (u32 width) ++ le32 (u32 height)
        ++ le16 1 ++ le16 24 ++ List.replicate 24 0).drop 2).take 4
        = le32 (u32 (54 + bitmap_pixel_array_size width height)) := by
      simp [le32]
    rw [this, le_value_le32]
    exact Nat.mod_lt _ (by norm_num)
  have hmod : u32 (54 + bitmap_pixel_array_size width height)
      = (54 + rowStride width * height) % 2 ^ 32 := by
    simp only [u32, bitmap_pixel_array_size, row_size_eq_rowStride_mod]
    rw [Nat.add_mod, Nat.mod_mod, Nat.mod_mul_mod, ← Nat.add_mod]
  refine ⟨by rw [hsize, hmod], fun hlt => by rw [hsize, hmod, Nat.mod_eq_of_lt hlt], ?_⟩
  intro pix_buffer hpb
  simp only [bitmap_pixel_buffer_new] at hpb
  split at hpb
  · exact absurd hpb (by simp)
  · rename_i hneg
    simp only [Option.some.injEq] at hpb
    subst hpb
    simp only [bitmap_get_pixel_array, List.length_replicate, and_true]
    rw [hsize, header_eq]
    have hlen : ([0x42, 0x4D] ++ le32 (u32 (54 + bitmap_pixel_array_size width height))
        ++ [0, 0, 0, 0] ++ le32 54 ++ le32 40 ++ le32 (u32 width) ++ le32 (u32 height)
        ++ le16 1 ++ le16 24 ++ List.replicate 24 0).length = 54 := by
      simp [le32, le16]
    rw [hlen]
    have hb : bitmap_pixel_array_size width height < 2 ^ 32 := Nat.mod_lt _ (by norm_num)
    simp only [to_int, u32] at hneg ⊢
    omega

theorem bitmap_file_header_new_file_size_witness :
    (4 : Nat) < 2 ^ 32 ∧ (3 : Nat) < 2 ^ 32 ∧
    le_value (((bitmap_file_header_new 4 3).drop 2).take 4)
        = (54 + rowStride 4 * 3) % 2 ^ 32 :=
  ⟨by decide, by decide, (bitmap_file_header_new_file_size 4 3 (by decide) (by decide)).1⟩

/-- C9. For every width `W` with `3*W + 3 < 2^32`, `bitmap_pixel_array_row_size W` equals
`ceil(3*W / 4) * 4` and is the least multiple of 4 that is not smaller than `3*W`. -/
theorem bitmap_pixel_array_row_size_eq_ceil (W : Nat) (h : 3 * W + 3 < 2 ^ 32) :
    bitmap_pixel_array_row_size W = ⌈((3 * W : Nat) : ℚ) / 4⌉₊ * 4 ∧
    4 ∣ bitmap_pixel_array_row_size W ∧
    3 * W ≤ bitmap_pixel_array_row_size W ∧
    ∀ m, 4 ∣ m → 3 * W ≤ m → bitmap_pixel_array_row_size W ≤ m := by
  have hceil : ⌈((3 * W : Nat) : ℚ) / 4⌉₊ * 4 = (W * 3 + 3) / 4 * 4 := by
    rw [← rowStride_eq, rowStride, Nat.mul_comm 3 W]
  have hrow : bitmap_pixel_array_row_size W = (W * 3 + 3) / 4 * 4 := by
    rw [row_size_eq_mod]
    apply Nat.mod_eq_of_lt
    omega
  rw [hceil, hrow]
  refine ⟨rfl, ⟨(W * 3 + 3) / 4, by ring⟩, by omega, ?_⟩
  rintro m ⟨k, rfl⟩ hk
  omega

theorem bitmap_pixel_array_row_size_eq_ceil_witness :
    3 * 5 + 3 < 2 ^ 32 ∧ bitmap_pixel_array_row_size 5 = ⌈((3 * 5 : Nat) : ℚ) / 4⌉₊ * 4 :=
  ⟨by decide, (bitmap_pixel_array_row_size_eq_ceil 5 (by decide)).1⟩

/-! ## The rasterizer -/

/-- C10, the code at the failing input. On a 10 x 10 canvas the rectangle `x=5, y=5,
width=3, height=3` covers the on-canvas pixel (5,5), yet `draw_rectangle` calls the write
primitive for no pixel at all: its guards compare the column with the rectangle's width and
the row with the rectangle's height, not with the size of the image. -/
theorem draw_rectangle_calls_inner_rectangle (pix_buffer : PixelBuffer) :
    ((5 : Int) ≤ 5 ∧ (5 : Int) ≤ 5 + 3 - 1 ∧ (0 : Int) ≤ 5 ∧ (5 : Int) < 10) ∧
    draw_rectangle_calls { id := 1, color := 0xff0000, x := 5, y := 5, width := 3, height := 3 }
      = [] ∧
    draw_rectangle pix_buffer
        { id := 1, color := 0xff0000, x := 5, y := 5, width := 3, height := 3 }
      = pix_buffer := by
  refine ⟨by decide, by decide, ?_⟩
  simp [draw_rectangle, draw_rectangle_with, List.range_succ]

/-! ## Lemmas on the linked list -/

theorem linked_list_find_item_walk_eq {α : Type} (next : List α) (i pos : Nat) :
    linked_list_find_item_walk next i pos = (pos + min i next.length, i - min i next.length) := by
  induction next generalizing i pos with
  | nil => simp [linked_list_find_item_walk]
  | cons a next ih =>
    cases i with
    | zero => simp [linked_list_find_item_walk]
    | succ i =>
      simp only [linked_list_find_item_walk, ih, List.length_cons]
      congr 1 <;> omega

theorem linked_list_find_item_of_lt {α : Type} (list : List α) (k : Nat) (h : k < list.length) :
    linked_list_find_item list (k : Int) = some (ListNode.element k) := by
  cases list with
  | nil => simp at h
  | cons a next =>
    simp only [List.length_cons] at h
    simp only [linked_list_find_item, linked_list_find_item_walk_eq]
    have h1 : ¬ ((k : Int) < 0) := by omega
    simp only [h1, if_false, Int.toNat_ofNat]
    have h2 : min k next.length = k := by omega
    simp [h2]

theorem linked_list_find_item_of_ge {α : Type} (list : List α) (k : Nat) (h : list.length ≤ k) :
    linked_list_find_item list (k : Int) = none := by
  cases list with
  | nil => simp [linked_list_find_item]
  | cons a next =>
    simp only [List.length_cons] at h
    simp only [linked_list_find_item, linked_list_find_item_walk_eq]
    have h1 : ¬ ((k : Int) < 0) := by omega
    simp only [h1, if_false, Int.toNat_ofNat]
    have h2 : k - min k next.length ≠ 0 := by omega
    simp [h2]

/-- For a non-negative index `linked_list_get` returns the element at that position, and NULL
from the length of the list on: the successive calls of a loop enumerate the list. -/
theorem linked_list_get_eq {α : Type} (list : List α) (k : Nat) :
    linked_list_get list (k : Int) = list.get? k := by
  have h1 : ¬ ((k : Int) < 0) := by omega
  simp only [linked_list_get, h1, if_false]
  by_cases h : k < list.length
  · rw [linked_list_find_item_of_lt list k h]
  · rw [linked_list_find_item_of_ge list k (by omega)]
    simp only [List.get?_eq_getElem?]
    exact (List.getElem?_eq_none (by omega)).symm

theorem linked_list_insert_eq {α : Type} (list : List α) (k : Nat) (data : α)
    (h : k ≤ list.length) :
    linked_list_insert list (k : Int) data
      = (LINKED_LIST_SUCCESS, list.take k ++ data :: list.drop k) := by
  have h1 : ¬ ((k : Int) < 0) := by omega
  simp only [linked_list_insert, h1, if_false]
  cases k with
  | zero => simp
  | succ k =>
    have h2 : ¬ (((k + 1 : Nat) : Int) = 0) := by omega
    have h3 : ((k + 1 : Nat) : Int) - 1 = (k : Int) := by omega
    simp only [h2, if_false, h3]
    rw [linked_list_find_item_of_lt list k (by omega)]

theorem linked_list_append_eq {α : Type} (list : List α) (data : α) :
    linked_list_append list data
      = (LINKED_LIST_SUCCESS, list.take (LINKED_LIST_MAX_LIST_SIZE + 1) ++ [data]) := by
  cases list with
  | nil => simp [linked_list_append, linked_list_find_last_item, linked_list_find_item]
  | cons a next =>
    simp only [linked_list_append, linked_list_find_last_item, linked_list_find_item,
      linked_list_find_item_walk_eq]
    have h1 : ((-1 : Int) < 0) := by omega
    have h2 : ¬ ((-1 : Int) ≥ 0) := by omega
    simp only [h1, if_true, h2, false_and, if_false]
    congr 2
    simp only [LINKED_LIST_MAX_LIST_SIZE, List.take_succ_cons, Nat.zero_add]
    congr 1
    rw [List.take_eq_take]
    simp

/-! ## Lemmas on reading and splitting lines -/

theorem readline_scan_line (line rest : Str) (h : is_text_line line) :
    readline_scan (line ++ '\n' :: rest) = (line ++ ['\n'], rest) := by
  induction line with
  | nil => simp [readline_scan]
  | cons c line ih =>
    have hc : ¬ (c = EOF_CHAR ∨ c = '\n') := by
      rcases h with ⟨h1, h2⟩
      simp only [List.mem_cons, not_or] at h1 h2
      intro hor
      rcases hor with hor | hor
      · exact h2.1 hor.symm
      · exact h1.1 hor.symm
    have hl : is_text_line line := by
      rcases h with ⟨h1, h2⟩
      simp only [List.mem_cons, not_or] at h1 h2
      exact ⟨h1.2, h2.2⟩
    simp only [List.cons_append, readline_scan, hc, if_false, List.append_eq, ih hl]

theorem readline_line (line rest : Str) (h : is_text_line line) :
    readline (line ++ '\n' :: rest) = some (line ++ ['\n'], rest) := by
  simp only [readline, readline_scan_line line rest h]
  have hne : ¬ ((line ++ ['\n']).length = 1 ∧ (line ++ ['\n']).head? = some EOF_CHAR) := by
    rintro ⟨h1, h2⟩
    cases line with
    | nil => exact absurd h2 (by decide)
    | cons c line => simp at h1
  simp only [hne, if_false]

theorem readline_nil : readline [] = none := by
  simp [readline, readline_scan]

theorem split_line_insert_last_part_eq (split : List Str) (part : Str) :
    split_line_insert_last_part split part
      = (PARSE_SUCCESS,
          if part ≠ [] then split.take (LINKED_LIST_MAX_LIST_SIZE + 1) ++ [part] else split) := by
  unfold split_line_insert_last_part
  split
  · rename_i hp
    have hlen : part.length > 0 := List.length_pos.mpr hp
    simp [insert_split_to_list, hlen, linked_list_append_eq]
  · rfl

theorem split_line_loop_newline (line rest part : Str) (split : List Str) (h : '\n' ∉ line) :
    split_line_loop (line ++ '\n' :: rest) part split = split_line_loop line part split := by
  induction line generalizing part split with
  | nil => simp [split_line_loop]
  | cons c line ih =>
    simp only [List.mem_cons, not_or] at h
    simp only [List.cons_append, split_line_loop, List.append_eq, ih _ _ h.2]

/-- The newline that ends a line buffer, and what follows it, does not change the parts. -/
theorem split_line_newline (line rest : Str) (h : '\n' ∉ line) :
    split_line (line ++ '\n' :: rest) = split_line line :=
  split_line_loop_newline line rest [] [] h

theorem parse_line_newline (line rest : Str) (h : '\n' ∉ line) :
    parse_line (line ++ '\n' :: rest) = parse_line line := by
  simp only [parse_line, split_line_newline line rest h]

/-! ## Lemmas on the outcome of a call and on the commands built -/

theorem Outcome.bind_eq_ok {α β : Type} (o : Outcome α) (f : α → Outcome β) (b : β) :
    o.bind f = Outcome.ok b ↔ ∃ a, o = Outcome.ok a ∧ f a = Outcome.ok b := by
  cases o with
  | ok value => simp [Outcome.bind]
  | error code => simp [Outcome.bind]
  | undefined => simp [Outcome.bind]

theorem to_u32_lt (i : Int) : to_u32 i < 2 ^ 32 := by
  simp only [to_u32]
  omega

theorem to_u32_to_int (n : Nat) (h : n < 2 ^ 32) : to_u32 (to_int (n : Int)) = n := by
  simp only [to_u32, to_int]
  omega

theorem to_int_of_range (v : Int) (h1 : -(2 ^ 31) ≤ v) (h2 : v < 2 ^ 31) : to_int v = v := by
  simp only [to_int]
  omega

theorem to_int_to_int (v : Int) : to_int (to_int v) = to_int v := by
  simp only [to_int]
  omega

/-- The shape of a successfully built command: it comes from the branch of its keyword, and
each field is the value `find_property` returned for the property of the same name. -/
theorem properties_to_command_ok (list : List Property) (c : Command)
    (h : properties_to_command list = Outcome.ok c) :
    ∃ prop_command rest, list = prop_command :: rest ∧
    ((prop_command.name = "rectangle".toList ∧ ∃ id color x y width height,
        find_property list "id".toList = Outcome.ok id ∧
        find_property list "color".toList = Outcome.ok color ∧
        find_property list "x".toList = Outcome.ok x ∧
        find_property list "y".toList = Outcome.ok y ∧
        find_property list "width".toList = Outcome.ok width ∧
        find_property list "height".toList = Outcome.ok height ∧
        c = { shape := SH_RECTANGLE, id := to_u32 id,
              obj := some (Obj.rectangle { id := to_u32 id, color := color, x := x, y := y,
                                           width := width, height := height }) }) ∨
     (prop_command.name = "triangle".toList ∧ ∃ id color ax ay bx b_y cx cy,
        find_property list "id".toList = Outcome.ok id ∧
        find_property list "color".toList = Outcome.ok color ∧
        find_property list "ax".toList = Outcome.ok ax ∧
        find_property list "ay".toList = Outcome.ok ay ∧
        find_property list "bx".toList = Outcome.ok bx ∧
        find_property list "by".toList = Outcome.ok b_y ∧
        find_property list "cx".toList = Outcome.ok cx ∧
        find_property list "cy".toList = Outcome.ok cy ∧
        c = { shape := SH_TRIANGLE, id := to_u32 id,
              obj := some (Obj.triangle { id := to_u32 id, color := color, ax := ax, ay := ay,
                                          bx := bx, «by» := b_y, cx := cx, cy := cy }) }) ∨
     (prop_command.name = "circle".toList ∧ ∃ id color x y radius,
        find_property list "id".toList = Outcome.ok id ∧
        find_property list "color".toList = Outcome.ok color ∧
        find_property list "x".toList = Outcome.ok x ∧
        find_property list "y".toList = Outcome.ok y ∧
        find_property list "radius".toList = Outcome.ok radius ∧
        c = { shape := SH_CIRCLE, id := to_u32 id,
              obj := some (Obj.circle { id := to_u32 id, color := color, x := x, y := y,
                                        radius := radius }) })) := by
  cases list with
  | nil => simp [properties_to_command, list_get] at h
  | cons p rest =>
    refine ⟨p, rest, rfl, ?_⟩
    simp only [properties_to_command, list_get, List.length_cons, ge_iff_le, nonpos_iff_eq_zero,
      Nat.add_one_ne_zero, if_false, List.get?_cons_zero] at h
    split at h
    · rename_i hr
      left
      refine ⟨hr, ?_⟩
      simp only [Outcome.bind_eq_ok, Outcome.ok.injEq] at h
      obtain ⟨id, h1, color, h2, x, h3, y, h4, w, h5, ht, h6, hc⟩ := h
      exact ⟨id, color, x, y, w, ht, h1, h2, h3, h4, h5, h6, hc.symm⟩
    · split at h
      · rename_i ht
        right; left
        refine ⟨ht, ?_⟩
        simp only [Outcome.bind_eq_ok, Outcome.ok.injEq] at h
        obtain ⟨id, h1, color, h2, ax, h3, ay, h4, bx, h5, b_y, h6, cx, h7, cy, h8, hc⟩ := h
        exact ⟨id, color, ax, ay, bx, b_y, cx, cy, h1, h2, h3, h4, h5, h6, h7, h8, hc.symm⟩
      · split at h
        · rename_i hci
          right; right
          refine ⟨hci, ?_⟩
          simp only [Outcome.bind_eq_ok, Outcome.ok.injEq] at h
          obtain ⟨id, h1, color, h2, x, h3, y, h4, r, h5, hc⟩ := h
          exact ⟨id, color, x, y, r, h1, h2, h3, h4, h5, hc.symm⟩
        · exact absurd h (by simp)

theorem properties_to_command_id_lt (list : List Property) (c : Command)
    (h : properties_to_command list = Outcome.ok c) : c.id < 2 ^ 32 := by
  obtain ⟨p, rest, _, hcase⟩ := properties_to_command_ok list c h
  rcases hcase with ⟨_, id, _, _, _, _, _, _, _, _, _, _, _, rfl⟩ |
    ⟨_, id, _, _, _, _, _, _, _, _, _, _, _, _, _, _, _, rfl⟩ |
    ⟨_, id, _, _, _, _, _, _, _, _, _, rfl⟩ <;> exact to_u32_lt id

theorem parse_line_id_lt (line : Str) (c : Command) (h : parse_line line = Outcome.ok c) :
    c.id < 2 ^ 32 := by
  simp only [parse_line] at h
  split at h
  · exact absurd h (by simp)
  · rw [Outcome.bind_eq_ok] at h
    obtain ⟨property, _, hp⟩ := h
    exact properties_to_command_id_lt property c hp

/-! ## The ordered insertion of `parse_file` -/

theorem ascending_by_id_nodup (list : List Command) (h : ascending_by_id list) :
    (list.map (fun c => c.id)).Nodup := by
  rw [List.Nodup, List.pairwise_map]
  exact List.Pairwise.imp (fun hlt => Nat.ne_of_lt hlt) h

/-- The search loop on an ascending list: it reports an id that is present, and otherwise
stops after the elements with a smaller id. -/
theorem parse_file_search_spec (id : Nat) (hid : id < 2 ^ 32) (list : List Command) (k : Int)
    (hs : ascending_by_id list) :
    ((∃ c ∈ list, c.id = id) → parse_file_search (to_int id) list k = none) ∧
    ((∀ c ∈ list, c.id ≠ id) → ∃ n : Nat, n ≤ list.length ∧
      parse_file_search (to_int id) list k = some (k + n) ∧
      (∀ c ∈ list.take n, c.id < id) ∧ (∀ c ∈ list.drop n, id < c.id)) := by
  induction list generalizing k with
  | nil =>
    refine ⟨fun ⟨c, hc, _⟩ => absurd hc (List.not_mem_nil c), fun _ => ⟨0, le_refl _, ?_, ?_, ?_⟩⟩
    · simp [parse_file_search]
    · simp
    · simp
  | cons s rest ih =>
    have hs' : (∀ b ∈ rest, s.id < b.id) ∧ ascending_by_id rest := List.pairwise_cons.mp hs
    simp only [parse_file_search, to_u32_to_int id hid]
    by_cases h1 : id < s.id
    · simp only [h1, if_true]
      constructor
      · rintro ⟨c, hc, hcid⟩
        rcases List.mem_cons.mp hc with rfl | hc
        · omega
        · have := hs'.1 c hc
          omega
      · intro _
        refine ⟨0, Nat.zero_le _, by simp, by simp, ?_⟩
        intro c hc
        rcases List.mem_cons.mp (by simpa using hc) with rfl | hc
        · exact h1
        · exact lt_trans h1 (hs'.1 c hc)
    · by_cases h2 : id = s.id
      · subst h2
        simp only [lt_irrefl, if_false, if_true]
        constructor
        · intro _; trivial
        · intro hne
          exact absurd rfl (hne s (List.mem_cons_self _ _))
      · simp only [h1, if_false, h2]
        obtain ⟨ih1, ih2⟩ := ih (k + 1) hs'.2
        constructor
        · rintro ⟨c, hc, hcid⟩
          rcases List.mem_cons.mp hc with rfl | hc
          · exact absurd hcid.symm h2
          · exact ih1 ⟨c, hc, hcid⟩
        · intro hne
          obtain ⟨n, hn, hsearch, hlt, hgt⟩ :=
            ih2 (fun c hc => hne c (List.mem_cons_of_mem _ hc))
          refine ⟨n + 1, by simpa using hn, ?_, ?_, ?_⟩
          · rw [hsearch]
            congr 1
            push_cast
            ring
          · intro c hc
            rw [List.take_succ_cons] at hc
            rcases List.mem_cons.mp hc with rfl | hc
            · omega
            · exact hlt c hc
          · intro c hc
            rw [List.drop_succ_cons] at hc
            exact hgt c hc

/-- Inserting at the place the search loop found keeps the list ascending and adds exactly
the new command. -/
theorem insert_at_place (c : Command) (list : List Command) (n : Nat)
    (hs : ascending_by_id list)
    (h1 : ∀ x ∈ list.take n, x.id < c.id) (h2 : ∀ x ∈ list.drop n, c.id < x.id) :
    ascending_by_id (list.take n ++ c :: list.drop n) ∧
    (list.take n ++ c :: list.drop n).Perm (c :: list) := by
  constructor
  · have hsplit : ascending_by_id (list.take n ++ list.drop n) := by
      rw [List.take_append_drop]; exact hs
    obtain ⟨ht, hd, hcross⟩ := List.pairwise_append.mp hsplit
    refine List.pairwise_append.mpr ⟨ht, List.pairwise_cons.mpr ⟨h2, hd⟩, ?_⟩
    intro a ha b hb
    rcases List.mem_cons.mp hb with rfl | hb
    · exact h1 a ha
    · exact hcross a ha b hb
  · have hp := @List.perm_middle _ c (list.take n) (list.drop n)
    rw [List.take_append_drop] at hp
    exact hp

theorem readline_scan_rest_le (file : Str) :
    (readline_scan file).2.length ≤ file.length := by
  induction file with
  | nil => simp [readline_scan]
  | cons c file ih =>
    simp only [readline_scan]
    split
    · simp
    · simp only [List.length_cons]
      omega

/-- Every successful call of `readline` takes at least one character of the file. -/
theorem readline_rest_lt (file line_buffer rest : Str)
    (h : readline file = some (line_buffer, rest)) : rest.length < file.length := by
  cases file with
  | nil => rw [readline_nil] at h; exact absurd h (by simp)
  | cons c file =>
    simp only [readline] at h
    split at h
    · exact absurd h (by simp)
    · simp only [Option.some.injEq] at h
      have hrest : rest = (readline_scan (c :: file)).2 := by rw [h]
      rw [hrest]
      simp only [readline_scan]
      split
      · simp
      · have := readline_scan_rest_le file
        simp only [List.length_cons]
        omega

/-- The reading loop of `parse_file` on a file whose line buffers all parse, started with an
ascending list `acc`: with pairwise distinct ids it ends in success with the commands in
ascending order of id; otherwise it stops with the duplicate-id error at the first command
whose id is present already. -/
theorem parse_file_loop_spec (fuel : Nat) :
    ∀ (file : Str) (cmds acc : List Command) (line_number : Int),
      file.length < fuel →
      (read_lines_loop fuel file).map parse_line = cmds.map Outcome.ok →
      ascending_by_id acc → (∀ c ∈ acc, c.id < 2 ^ 32) →
      (((acc ++ cmds).map (fun c => c.id)).Nodup →
        ∃ result, parse_file_loop fuel file acc line_number
            = some (FileOutcome.success result) ∧
          result.Perm (acc ++ cmds) ∧ ascending_by_id result) ∧
      (¬ ((acc ++ cmds).map (fun c => c.id)).Nodup →
        ∃ c ∈ cmds, 2 ≤ ((acc ++ cmds).map (fun c => c.id)).count c.id ∧
          parse_file_loop fuel file acc line_number
            = some (FileOutcome.failure ERR_DUPLICATE_ID
                (Printed.err_msg_duplicate_id (to_int c.id)))) := by
  induction fuel with
  | zero => intro file _ _ _ hf; exact absurd hf (Nat.not_lt_zero _)
  | succ f ih =>
    intro file cmds acc line_number hf hparse hs hlt
    cases hread : readline file with
    | none =>
      simp only [read_lines_loop, hread] at hparse
      have hnil : cmds = [] := by
        cases cmds with
        | nil => rfl
        | cons c cs => simp at hparse
      subst hnil
      simp only [parse_file_loop, hread, List.append_nil]
      refine ⟨fun _ => ⟨acc, rfl, List.Perm.refl _, hs⟩, fun hnd => ?_⟩
      exact absurd (ascending_by_id_nodup acc hs) hnd
    | some p =>
      obtain ⟨line_buffer, rest⟩ := p
      simp only [read_lines_loop, hread, List.map_cons] at hparse
      cases cmds with
      | nil => simp at hparse
      | cons c cs =>
        simp only [List.map_cons, List.cons.injEq] at hparse
        obtain ⟨hpl, hparse'⟩ := hparse
        have hf' : rest.length < f := by
          have := readline_rest_lt file line_buffer rest hread
          omega
        have hcid := parse_line_id_lt line_buffer c hpl
        obtain ⟨hs1, hs2⟩ := parse_file_search_spec c.id hcid acc 0 hs
        simp only [parse_file_loop, hread, hpl]
        by_cases hin : ∃ x ∈ acc, x.id = c.id
        · rw [hs1 hin]
          obtain ⟨x, hx, hxid⟩ := hin
          have hmem1 : c.id ∈ acc.map (fun c => c.id) :=
            List.mem_map.mpr ⟨x, hx, hxid⟩
          have hmem2 : c.id ∈ (c :: cs).map (fun c => c.id) :=
            List.mem_map.mpr ⟨c, List.mem_cons_self _ _, rfl⟩
          constructor
          · intro hnd
            rw [List.map_append, List.nodup_append] at hnd
            exact absurd hmem2 (fun h2 => hnd.2.2 hmem1 h2)
          · intro _
            refine ⟨c, List.mem_cons_self _ _, ?_, rfl⟩
            rw [List.map_append, List.count_append]
            have c1 := List.count_pos_iff.mpr hmem1
            have c2 := List.count_pos_iff.mpr hmem2
            omega
        · have hne : ∀ x ∈ acc, x.id ≠ c.id := fun x hx hxid => hin ⟨x, hx, hxid⟩
          obtain ⟨n, hn, hsearch, hlt1, hgt⟩ := hs2 hne
          rw [hsearch]
          simp only [zero_add]
          rw [linked_list_insert_eq acc n c hn]
          simp only [ne_eq, not_true_eq_false, if_false]
          obtain ⟨hasc, hperm⟩ := insert_at_place c acc n hs hlt1 hgt
          have hlt' : ∀ x ∈ acc.take n ++ c :: acc.drop n, x.id < 2 ^ 32 := by
            intro x hx
            rcases List.mem_cons.mp (hperm.mem_iff.mp hx) with rfl | hx
            · exact hcid
            · exact hlt x hx
          obtain ⟨ih1, ih2⟩ := ih rest cs (acc.take n ++ c :: acc.drop n) (line_number + 1)
            hf' hparse' hasc hlt'
          have hperm2 : ((acc.take n ++ c :: acc.drop n) ++ cs).Perm (acc ++ c :: cs) :=
            (hperm.append_right cs).trans List.perm_middle.symm
          have hpm := hperm2.map (fun c => c.id)
          constructor
          · intro hnd
            obtain ⟨res, hres, hp, ha⟩ := ih1 (hpm.nodup_iff.mpr hnd)
            exact ⟨res, hres, hp.trans hperm2, ha⟩
          · intro hnd
            obtain ⟨d, hd, hcount, hres⟩ := ih2 (fun h => hnd (hpm.nodup_iff.mp h))
            refine ⟨d, List.mem_cons_of_mem _ hd, ?_, hres⟩
            rw [← hpm.count_eq]
            exact hcount

/-- The lines of a file of text lines, each ended by a newline, are these lines with their
newline. -/
theorem read_lines_loop_scene_text (lines : List Str) (h : ∀ line ∈ lines, is_text_line line) :
    ∀ fuel, (scene_text lines).length < fuel →
      read_lines_loop fuel (scene_text lines) = lines.map (fun line => line ++ ['\n']) := by
  induction lines with
  | nil =>
    intro fuel hf
    cases fuel with
    | zero => exact absurd hf (Nat.not_lt_zero _)
    | succ f => simp [scene_text, read_lines_loop, readline_nil]
  | cons l ls ih =>
    intro fuel hf
    cases fuel with
    | zero => exact absurd hf (Nat.not_lt_zero _)
    | succ f =>
      have hread := readline_line l (scene_text ls) (h l (List.mem_cons_self _ _))
      have hf' : (scene_text ls).length < f := by
        simp only [scene_text, List.length_append, List.length_cons] at hf
        omega
      simp only [scene_text, read_lines_loop, hread, List.map_cons,
        ih (fun line hl => h line (List.mem_cons_of_mem _ hl)) f hf']

theorem read_lines_scene_text (lines : List Str) (h : ∀ line ∈ lines, is_text_line line) :
    read_lines (scene_text lines) = lines.map (fun line => line ++ ['\n']) :=
  read_lines_loop_scene_text lines h _ (Nat.lt_succ_self _)

/-! ## The scene parser: command assembly -/

theorem find_property_ok_or_invalid (list : List Property) (name : Str) :
    (∃ v, find_property list name = Outcome.ok v) ∨
    find_property list name = Outcome.error PARSE_ERR_INVALID_INPUT := by
  induction list with
  | nil => right; rfl
  | cons p rest ih =>
    simp only [find_property]
    split
    · left; exact ⟨_, rfl⟩
    · exact ih

theorem find_property_ok_iff (list : List Property) (name : Str) :
    (∃ v, find_property list name = Outcome.ok v) ↔ ∃ p ∈ list, p.name = name := by
  induction list with
  | nil => simp [find_property]
  | cons p rest ih =>
    simp only [find_property]
    split
    · rename_i h
      exact ⟨fun _ => ⟨p, List.mem_cons_self _ _, h⟩, fun _ => ⟨_, rfl⟩⟩
    · rename_i h
      rw [ih]
      constructor
      · rintro ⟨q, hq, hn⟩
        exact ⟨q, List.mem_cons_of_mem _ hq, hn⟩
      · rintro ⟨q, hq, hn⟩
        rcases List.mem_cons.mp hq with rfl | hq
        · exact absurd hn h
        · exact ⟨q, hq, hn⟩

/-- A property other than the keyword is found in the whole list exactly when one of the
groups has its name. -/
theorem find_property_groups (keyword : Property) (groups : List Property) (name : Str)
    (h : keyword.name ≠ name) :
    find_property (keyword :: groups) name = find_property groups name := by
  simp only [find_property, h, if_false]

theorem properties_to_command_ok_or_invalid (list : List Property) :
    (∃ c, properties_to_command list = Outcome.ok c) ∨
    properties_to_command list = Outcome.error PARSE_ERR_INVALID_INPUT := by
  cases list with
  | nil => right; rfl
  | cons p rest =>
    simp only [properties_to_command, list_get, List.length_cons, ge_iff_le, nonpos_iff_eq_zero,
      Nat.add_one_ne_zero, if_false, List.get?_cons_zero]
    split
    · obtain ⟨v1, h1⟩ | h1 := find_property_ok_or_invalid (p :: rest) "id".toList
      swap
      · right; rw [h1]; rfl
      obtain ⟨v2, h2⟩ | h2 := find_property_ok_or_invalid (p :: rest) "color".toList
      swap
      · right; rw [h1, h2]; rfl
      obtain ⟨v3, h3⟩ | h3 := find_property_ok_or_invalid (p :: rest) "x".toList
      swap
      · right; rw [h1, h2, h3]; rfl
      obtain ⟨v4, h4⟩ | h4 := find_property_ok_or_invalid (p :: rest) "y".toList
      swap
      · right; rw [h1, h2, h3, h4]; rfl
      obtain ⟨v5, h5⟩ | h5 := find_property_ok_or_invalid (p :: rest) "width".toList
      swap
      · right; rw [h1, h2, h3, h4, h5]; rfl
      obtain ⟨v6, h6⟩ | h6 := find_property_ok_or_invalid (p :: rest) "height".toList
      swap
      · right; rw [h1, h2, h3, h4, h5, h6]; rfl
      left; rw [h1, h2, h3, h4, h5, h6]; exact ⟨_, rfl⟩
    · split
      · obtain ⟨v1, h1⟩ | h1 := find_property_ok_or_invalid (p :: rest) "id".toList
        swap
        · right; rw [h1]; rfl
        obtain ⟨v2, h2⟩ | h2 := find_property_ok_or_invalid (p :: rest) "color".toList
        swap
        · right; rw [h1, h2]; rfl
        obtain ⟨v3, h3⟩ | h3 := find_property_ok_or_invalid (p :: rest) "ax".toList
        swap
        · right; rw [h1, h2, h3]; rfl
        obtain ⟨v4, h4⟩ | h4 := find_property_ok_or_invalid (p :: rest) "ay".toList
        swap
        · right; rw [h1, h2, h3, h4]; rfl
        obtain ⟨v5, h5⟩ | h5 := find_property_ok_or_invalid (p :: rest) "bx".toList
        swap
        · right; rw [h1, h2, h3, h4, h5]; rfl
        obtain ⟨v6, h6⟩ | h6 := find_property_ok_or_invalid (p :: rest) "by".toList
        swap
        · right; rw [h1, h2, h3, h4, h5, h6]; rfl
        obtain ⟨v7, h7⟩ | h7 := find_property_ok_or_invalid (p :: rest) "cx".toList
        swap
        · right; rw [h1, h2, h3, h4, h5, h6, h7]; rfl
        obtain ⟨v8, h8⟩ | h8 := find_property_ok_or_invalid (p :: rest) "cy".toList
        swap
        · right; rw [h1, h2, h3, h4, h5, h6, h7, h8]; rfl
        left; rw [h1, h2, h3, h4, h5, h6, h7, h8]; exact ⟨_, rfl⟩
      · split
        · obtain ⟨v1, h1⟩ | h1 := find_property_ok_or_invalid (p :: rest) "id".toList
          swap
          · right; rw [h1]; rfl
          obtain ⟨v2, h2⟩ | h2 := find_property_ok_or_invalid (p :: rest) "color".toList
          swap
          · right; rw [h1, h2]; rfl
          obtain ⟨v3, h3⟩ | h3 := find_property_ok_or_invalid (p :: rest) "x".toList
          swap
          · right; rw [h1, h2, h3]; rfl
          obtain ⟨v4, h4⟩ | h4 := find_property_ok_or_invalid (p :: rest) "y".toList
          swap
          · right; rw [h1, h2, h3, h4]; rfl
          obtain ⟨v5, h5⟩ | h5 := find_property_ok_or_invalid (p :: rest) "radius".toList
          swap
          · right; rw [h1, h2, h3, h4, h5]; rfl
          left; rw [h1, h2, h3, h4, h5]; exact ⟨_, rfl⟩
        · right; rfl

/-- C3. For every property list made of a shape keyword followed by groups,
`properties_to_command` succeeds if and only if the keyword is exactly `rectangle`, `circle`
or `triangle` and every required property of that shape is present among the groups
(rectangle: id, color, x, y, width, height; circle: id, color, x, y, radius; triangle: id,
color, ax, ay, bx, by, cx, cy); in every other case it returns `PARSE_ERR_INVALID_INPUT`. -/
theorem properties_to_command_succeeds_iff (keyword : Property) (groups : List Property) :
    ((∃ c, properties_to_command (keyword :: groups) = Outcome.ok c) ↔
      ((keyword.name = "rectangle".toList ∧
          ∀ name ∈ prop_rectangle, ∃ p ∈ groups, p.name = name) ∨
       (keyword.name = "circle".toList ∧
          ∀ name ∈ prop_circle, ∃ p ∈ groups, p.name = name) ∨
       (keyword.name = "triangle".toList ∧
          ∀ name ∈ prop_triangle, ∃ p ∈ groups, p.name = name))) ∧
    ((¬ ∃ c, properties_to_command (keyword :: groups) = Outcome.ok c) →
      properties_to_command (keyword :: groups) = Outcome.error PARSE_ERR_INVALID_INPUT) := by
  have hfound : ∀ name : Str, keyword.name ≠ name →
      ((∃ v, find_property (keyword :: groups) name = Outcome.ok v) ↔
        ∃ p ∈ groups, p.name = name) := by
    intro name hne
    rw [find_property_groups keyword groups name hne, find_property_ok_iff]
  refine ⟨⟨?_, ?_⟩, ?_⟩
  · rintro ⟨c, hc⟩
    obtain ⟨p, rest, hlist, hcase⟩ := properties_to_command_ok _ c hc
    obtain ⟨rfl, rfl⟩ := List.cons.inj hlist
    rcases hcase with ⟨hk, id, color, x, y, w, ht, h1, h2, h3, h4, h5, h6, _⟩ |
      ⟨hk, id, color, ax, ay, bx, b_y, cx, cy, h1, h2, h3, h4, h5, h6, h7, h8, _⟩ |
      ⟨hk, id, color, x, y, r, h1, h2, h3, h4, h5, _⟩
    · left
      refine ⟨hk, ?_⟩
      intro name hname
      simp only [prop_rectangle, List.mem_cons, List.mem_singleton, List.not_mem_nil,
        or_false] at hname
      rcases hname with rfl | rfl | rfl | rfl | rfl | rfl
      · exact (hfound _ (by rw [hk]; decide)).mp ⟨_, h1⟩
      · exact (hfound _ (by rw [hk]; decide)).mp ⟨_, h2⟩
      · exact (hfound _ (by rw [hk]; decide)).mp ⟨_, h3⟩
      · exact (hfound _ (by rw [hk]; decide)).mp ⟨_, h4⟩
      · exact (hfound _ (by rw [hk]; decide)).mp ⟨_, h5⟩
      · exact (hfound _ (by rw [hk]; decide)).mp ⟨_, h6⟩
    · right; right
      refine ⟨hk, ?_⟩
      intro name hname
      simp only [prop_triangle, List.mem_cons, List.mem_singleton, List.not_mem_nil,
        or_false] at hname
      rcases hname with rfl | rfl | rfl | rfl | rfl | rfl | rfl | rfl
      · exact (hfound _ (by rw [hk]; decide)).mp ⟨_, h1⟩
      · exact (hfound _ (by rw [hk]; decide)).mp ⟨_, h2⟩
      · exact (hfound _ (by rw [hk]; decide)).mp ⟨_, h3⟩
      · exact (hfound _ (by rw [hk]; decide)).mp ⟨_, h4⟩
      · exact (hfound _ (by rw [hk]; decide)).mp ⟨_, h5⟩
      · exact (hfound _ (by rw [hk]; decide)).mp ⟨_, h6⟩
      · exact (hfound _ (by rw [hk]; decide)).mp ⟨_, h7⟩
      · exact (hfound _ (by rw [hk]; decide)).mp ⟨_, h8⟩
    · right; left
      refine ⟨hk, ?_⟩
      intro name hname
      simp only [prop_circle, List.mem_cons, List.mem_singleton, List.not_mem_nil,
        or_false] at hname
      rcases hname with rfl | rfl | rfl | rfl | rfl
      · exact (hfound _ (by rw [hk]; decide)).mp ⟨_, h1⟩
      · exact (hfound _ (by rw [hk]; decide)).mp ⟨_, h2⟩
      · exact (hfound _ (by rw [hk]; decide)).mp ⟨_, h3⟩
      · exact (hfound _ (by rw [hk]; decide)).mp ⟨_, h4⟩
      · exact (hfound _ (by rw [hk]; decide)).mp ⟨_, h5⟩
  · rintro (⟨hk, hall⟩ | ⟨hk, hall⟩ | ⟨hk, hall⟩)
    · have hget : ∀ name ∈ prop_rectangle,
          ∃ v, find_property (keyword :: groups) name = Outcome.ok v := by
        intro name hname
        have hne : keyword.name ≠ name := by
          rw [hk]
          simp only [prop_rectangle, List.mem_cons, List.mem_singleton, List.not_mem_nil,
            or_false] at hname
          rcases hname with rfl | rfl | rfl | rfl | rfl | rfl <;> decide
        exact (hfound name hne).mpr (hall name hname)
      obtain ⟨v1, h1⟩ := hget "id".toList (by simp [prop_rectangle])
      obtain ⟨v2, h2⟩ := hget "color".toList (by simp [prop_rectangle])
      obtain ⟨v3, h3⟩ := hget "x".toList (by simp [prop_rectangle])
      obtain ⟨v4, h4⟩ := hget "y".toList (by simp [prop_rectangle])
      obtain ⟨v5, h5⟩ := hget "width".toList (by simp [prop_rectangle])
      obtain ⟨v6, h6⟩ := hget "height".toList (by simp [prop_rectangle])
      simp only [properties_to_command, list_get, List.length_cons, ge_iff_le,
        nonpos_iff_eq_zero, Nat.add_one_ne_zero, if_false, List.get?_cons_zero, hk, if_true,
        h1, h2, h3, h4, h5, h6, Outcome.bind]
      exact ⟨_, rfl⟩
    · have hget : ∀ name ∈ prop_circle,
          ∃ v, find_property (keyword :: groups) name = Outcome.ok v := by
        intro name hname
        have hne : keyword.name ≠ name := by
          rw [hk]
          simp only [prop_circle, List.mem_cons, List.mem_singleton, List.not_mem_nil,
            or_false] at hname
          rcases hname with rfl | rfl | rfl | rfl | rfl <;> decide
        exact (hfound name hne).mpr (hall name hname)
      obtain ⟨v1, h1⟩ := hget "id".toList (by simp [prop_circle])
      obtain ⟨v2, h2⟩ := hget "color".toList (by simp [prop_circle])
      obtain ⟨v3, h3⟩ := hget "x".toList (by simp [prop_circle])
      obtain ⟨v4, h4⟩ := hget "y".toList (by simp [prop_circle])
      obtain ⟨v5, h5⟩ := hget "radius".toList (by simp [prop_circle])
      have hr : ¬ ("circle".toList = "rectangle".toList) := by decide
      have ht : ¬ ("circle".toList = "triangle".toList) := by decide
      simp only [properties_to_command, list_get, List.length_cons, ge_iff_le,
        nonpos_iff_eq_zero, Nat.add_one_ne_zero, if_false, List.get?_cons_zero, hk, if_true,
        hr, ht, h1, h2, h3, h4, h5, Outcome.bind]
      exact ⟨_, rfl⟩
    · have hget : ∀ name ∈ prop_triangle,
          ∃ v, find_property (keyword :: groups) name = Outcome.ok v := by
        intro name hname
        have hne : keyword.name ≠ name := by
          rw [hk]
          simp only [prop_triangle, List.mem_cons, List.mem_singleton, List.not_mem_nil,
            or_false] at hname
          rcases hname with rfl | rfl | rfl | rfl | rfl | rfl | rfl | rfl <;> decide
        exact (hfound name hne).mpr (hall name hname)
      obtain ⟨v1, h1⟩ := hget "id".toList (by simp [prop_triangle])
      obtain ⟨v2, h2⟩ := hget "color".toList (by simp [prop_triangle])
      obtain ⟨v3, h3⟩ := hget "ax".toList (by simp [prop_triangle])
      obtain ⟨v4, h4⟩ := hget "ay".toList (by simp [prop_triangle])
      obtain ⟨v5, h5⟩ := hget "bx".toList (by simp [prop_triangle])
      obtain ⟨v6, h6⟩ := hget "by".toList (by simp [prop_triangle])
      obtain ⟨v7, h7⟩ := hget "cx".toList (by simp [prop_triangle])
      obtain ⟨v8, h8⟩ := hget "cy".toList (by simp [prop_triangle])
      have hr : ¬ ("triangle".toList = "rectangle".toList) := by decide
      simp only [properties_to_command, list_get, List.length_cons, ge_iff_le,
        nonpos_iff_eq_zero, Nat.add_one_ne_zero, if_false, List.get?_cons_zero, hk, if_true,
        hr, h1, h2, h3, h4, h5, h6, h7, h8, Outcome.bind]
      exact ⟨_, rfl⟩
  · intro hno
    rcases properties_to_command_ok_or_invalid (keyword :: groups) with h | h
    · exact absurd h hno
    · exact h

theorem properties_to_command_succeeds_iff_witness :
    (∀ name ∈ prop_circle,
      ∃ p ∈ [({ name := "radius".toList, value := 3 } : Property),
             { name := "y".toList, value := 5 }, { name := "x".toList, value := 4 },
             { name := "color".toList, value := 255 }, { name := "id".toList, value := 1 }],
        p.name = name) ∧
    ∃ c, properties_to_command
      ({ name := "circle".toList, value := 0 } ::
        [({ name := "radius".toList, value := 3 } : Property),
         { name := "y".toList, value := 5 }, { name := "x".toList, value := 4 },
         { name := "color".toList, value := 255 }, { name := "id".toList, value := 1 }])
      = Outcome.ok c :=
  ⟨by decide,
   (properties_to_command_succeeds_iff _ _).1.mpr (Or.inr (Or.inl ⟨rfl, by decide⟩))⟩

/-! ## Lemmas on `strtol` -/

theorem strtol_digits_eq (base : Nat) (s : Str) (acc : Nat) (any : Bool) :
    strtol_digits base s acc any =
      (acc * base ^ (s.takeWhile (is_digit base)).length
          + numeral_value base (s.takeWhile (is_digit base)),
       any || !(s.takeWhile (is_digit base)).isEmpty,
       s.dropWhile (is_digit base)) := by
  induction s generalizing acc any with
  | nil => simp [strtol_digits, numeral_value]
  | cons c s ih =>
    simp only [strtol_digits]
    cases hd : digit_value c with
    | none =>
      have hc : is_digit base c = false := by simp [is_digit, hd]
      simp [List.takeWhile, List.dropWhile, hc, numeral_value]
    | some d =>
      by_cases hlt : d < base
      · have hc : is_digit base c = true := by simp [is_digit, hd, hlt]
        simp only [hlt, if_true, ih, List.takeWhile, hc, List.dropWhile, List.length_cons,
          numeral_value, hd, Option.getD_some, List.isEmpty_cons, Bool.not_false, Bool.or_true,
          Bool.true_or]
        congr 1
        ring
      · have hc : is_digit base c = false := by simp [is_digit, hd, hlt]
        simp [hlt, List.takeWhile, List.dropWhile, hc, numeral_value]

theorem is_numeral_iff (base : Nat) (s : Str) :
    is_numeral base s = true ↔ s ≠ [] ∧ ∀ c ∈ s, is_digit base c = true := by
  cases s with
  | nil => simp [is_numeral]
  | cons c s => simp [is_numeral]

/-- On a numeral the digit loop of `strtol` reads the whole text and its value. -/
theorem strtol_digits_numeral (base : Nat) (s : Str) (h : is_numeral base s = true) :
    strtol_digits base s 0 false = (numeral_value base s, true, []) := by
  obtain ⟨hne, hall⟩ := (is_numeral_iff base s).mp h
  have htw : s.takeWhile (is_digit base) = s := List.takeWhile_eq_self_iff.mpr hall
  have hdw : s.dropWhile (is_digit base) = [] := List.dropWhile_eq_nil_iff.mpr hall
  rw [strtol_digits_eq, htw, hdw]
  cases s with
  | nil => exact absurd rfl hne
  | cons c s => simp

/-- When the digit loop of `strtol` reads a digit and stops at the end, the text is a
numeral. -/
theorem strtol_digits_complete (base : Nat) (s : Str)
    (h1 : (strtol_digits base s 0 false).2.1 = true)
    (h2 : (strtol_digits base s 0 false).2.2 = []) :
    is_numeral base s = true := by
  rw [strtol_digits_eq] at h1 h2
  simp only at h1 h2
  have hall : ∀ c ∈ s, is_digit base c = true := List.dropWhile_eq_nil_iff.mp h2
  rw [is_numeral_iff]
  refine ⟨?_, hall⟩
  rintro rfl
  simp at h1

theorem not_is_digit_x : is_digit 16 'x' = false ∧ is_digit 16 'X' = false := by
  constructor <;> decide

theorem hex_start_not_numeral (s : Str)
    (h : s.take 2 = ['0', 'x'] ∨ s.take 2 = ['0', 'X']) : is_numeral 16 s = false := by
  have hs : s = s.take 2 ++ s.drop 2 := (List.take_append_drop 2 s).symm
  rw [Bool.eq_false_iff]
  intro hnum
  obtain ⟨_, hall⟩ := (is_numeral_iff 16 s).mp hnum
  rcases h with h | h
  · have hx : 'x' ∈ s := by rw [hs, h]; simp
    have := hall 'x' hx
    rw [not_is_digit_x.1] at this
    exact absurd this (by simp)
  · have hx : 'X' ∈ s := by rw [hs, h]; simp
    have := hall 'X' hx
    rw [not_is_digit_x.2] at this
    exact absurd this (by simp)

theorem strtol_hex_start_eq (base : Nat) (s : Str) :
    strtol_hex_start base s =
      if base = 16 ∧ (s.take 2 = ['0', 'x'] ∨ s.take 2 = ['0', 'X'])
          ∧ ((s.drop 2).head?.map (is_digit base)) = some true then s.drop 2 else s := by
  unfold strtol_hex_start
  split
  · rename_i x d t
    by_cases hb : base = 16
    · by_cases hx : x = 'x' ∨ x = 'X'
      · by_cases hd : is_digit base d = true
        · simp [hb, hx, hd]
        · simp [hb, hx, hd]
      · have hx' : ¬ ((['0', x] : Str) = ['0', 'x'] ∨ (['0', x] : Str) = ['0', 'X']) := by
          simpa using hx
        simp [hb, hx, hx']
    · simp [hb]
  · rename_i hno
    split
    · rename_i hc
      exfalso
      obtain ⟨_, htake, hhead⟩ := hc
      have hs : s = s.take 2 ++ s.drop 2 := (List.take_append_drop 2 s).symm
      cases hdrop : s.drop 2 with
      | nil => simp [hdrop] at hhead
      | cons d t =>
        rcases htake with h | h
        · exact hno 'x' d t (by rw [hs, h, hdrop]; rfl)
        · exact hno 'X' d t (by rw [hs, h, hdrop]; rfl)
    · rfl

theorem numeral_head_is_digit (base : Nat) (s : Str) (h : is_numeral base s = true) :
    (s.head?.map (is_digit base)) = some true := by
  obtain ⟨hne, hall⟩ := (is_numeral_iff base s).mp h
  cases s with
  | nil => exact absurd rfl hne
  | cons c s => simp [hall c (List.mem_cons_self _ _)]

/-- On an unsigned literal `strtol` reads, after the optional `0x`, the whole text and the
number it denotes. -/
theorem strtol_digits_of_literal_unsigned (base : Nat) (u : Str) (n : Nat)
    (h : literal_unsigned base u = some n) :
    strtol_digits base (strtol_hex_start base u) 0 false = (n, true, []) := by
  unfold literal_unsigned at h
  rw [strtol_hex_start_eq]
  split at h
  · rename_i hc
    obtain ⟨hb, htake, hnum⟩ := hc
    have hhead := numeral_head_is_digit base (u.drop 2) hnum
    rw [if_pos ⟨hb, htake, hhead⟩]
    simp only [Option.some.injEq] at h
    rw [← h]
    exact strtol_digits_numeral base _ hnum
  · rename_i hc
    split at h
    · rename_i hnum
      simp only [Option.some.injEq] at h
      have hm : ¬ (base = 16 ∧ (u.take 2 = ['0', 'x'] ∨ u.take 2 = ['0', 'X'])
          ∧ ((u.drop 2).head?.map (is_digit base)) = some true) := by
        rintro ⟨hb, htake, _⟩
        subst hb
        rw [hex_start_not_numeral u htake] at hnum
        exact absurd hnum (by simp)
      simp only [hm, if_false]
      rw [← h]
      exact strtol_digits_numeral base _ hnum
    · exact absurd h (by simp)

/-- When `strtol` reads a digit and stops at the end of the text, the text is an unsigned
literal and denotes the number read. -/
theorem literal_unsigned_of_strtol_digits (base : Nat) (u : Str)
    (h1 : (strtol_digits base (strtol_hex_start base u) 0 false).2.1 = true)
    (h2 : (strtol_digits base (strtol_hex_start base u) 0 false).2.2 = []) :
    literal_unsigned base u = some (strtol_digits base (strtol_hex_start base u) 0 false).1 := by
  have hnum := strtol_digits_complete base _ h1 h2
  rw [strtol_digits_numeral base _ hnum]
  rw [strtol_hex_start_eq] at hnum ⊢
  unfold literal_unsigned
  split at hnum
  · rename_i hc
    obtain ⟨hb, htake, _⟩ := hc
    simp only [hb, htake, hnum, and_self, if_true] at *
    simp_all
  · rename_i hc
    have hs : ¬ (base = 16 ∧ (u.take 2 = ['0', 'x'] ∨ u.take 2 = ['0', 'X'])
        ∧ is_numeral base (u.drop 2) = true) := by
      rintro ⟨hb, htake, _⟩
      subst hb
      rw [hex_start_not_numeral u htake] at hnum
      exact absurd hnum (by simp)
    simp only [hs, if_false, hnum, if_true, hc]

theorem strtol_sign_eq (t : Str) :
    strtol_sign t =
      (decide (t.head? = some '-'),
       if t.head? = some '-' ∨ t.head? = some '+' then t.drop 1 else t) := by
  unfold strtol_sign
  split
  · simp
  · simp
  · rename_i h1 h2
    cases t with
    | nil => simp
    | cons c t =>
      have hm : c ≠ '-' := fun hc => h1 t (by rw [hc])
      have hp : c ≠ '+' := fun hc => h2 t (by rw [hc])
      simp [hm, hp]

theorem strtol_eq (base : Nat) (text : Str) :
    strtol text base =
      if (strtol_digits base
            (strtol_hex_start base (strtol_sign (text.dropWhile isspace)).2) 0 false).2.1 = true
      then
        (max LONG_MIN (min LONG_MAX
          (if (strtol_sign (text.dropWhile isspace)).1 = true then
            -((strtol_digits base
                (strtol_hex_start base (strtol_sign (text.dropWhile isspace)).2) 0 false).1 : Int)
           else
            ((strtol_digits base
                (strtol_hex_start base (strtol_sign (text.dropWhile isspace)).2) 0 false).1 : Int))),
         (strtol_digits base
            (strtol_hex_start base (strtol_sign (text.dropWhile isspace)).2) 0 false).2.2)
      else (0, text) := rfl

/-- On a text that is entirely an integer literal, `strtol` returns the integer it denotes,
cut to the range of `long`, and stops at the end of the text. -/
theorem strtol_of_literal (base : Nat) (text : Str) (v : Int)
    (h : literal_value base text = some v) :
    strtol text base = (max LONG_MIN (min LONG_MAX v), []) := by
  unfold literal_value at h
  simp only at h
  cases hlu : literal_unsigned base
      (if (text.dropWhile isspace).head? = some '-' ∨ (text.dropWhile isspace).head? = some '+'
        then (text.dropWhile isspace).drop 1 else text.dropWhile isspace) with
  | none => rw [hlu] at h; exact absurd h (by simp)
  | some n =>
    rw [hlu] at h
    simp only [Option.map_some', Option.some.injEq] at h
    have hd := strtol_digits_of_literal_unsigned base _ n hlu
    rw [strtol_eq]
    simp only [strtol_sign_eq, hd, if_true, decide_eq_true_eq, h]

/-- When `strtol` stops at the end of a non-empty text, the text is entirely an integer
literal and the value returned is the integer it denotes, cut to the range of `long`. -/
theorem literal_of_strtol (base : Nat) (text : Str) (hne : text ≠ [])
    (h : (strtol text base).2 = []) :
    ∃ v, literal_value base text = some v ∧
      (strtol text base).1 = max LONG_MIN (min LONG_MAX v) := by
  rw [strtol_eq] at h ⊢
  by_cases hany : (strtol_digits base
      (strtol_hex_start base (strtol_sign (text.dropWhile isspace)).2) 0 false).2.1 = true
  · rw [if_pos hany] at h ⊢
    have hlit := literal_unsigned_of_strtol_digits base _ hany h
    simp only [strtol_sign_eq] at hlit ⊢
    unfold literal_value
    simp only [hlit, Option.map_some', decide_eq_true_eq]
    exact ⟨_, rfl, rfl⟩
  · rw [if_neg hany] at h
    exact absurd h hne

/-! ## Lemmas on `convert_to_value` and on the property loop -/

theorem convert_to_value_scan_eq (s : Str) (index : Nat) (secure_counter : Int) :
    convert_to_value_scan s index secure_counter =
      if secure_counter - (s.length : Int) < 0 then none else some (index + s.length) := by
  induction s generalizing index secure_counter with
  | nil => simp [convert_to_value_scan]
  | cons c s ih =>
    simp only [convert_to_value_scan, ih, List.length_cons]
    have h1 : (secure_counter - 1 - (s.length : Int) < 0)
        ↔ (secure_counter - ((s.length + 1 : Nat) : Int) < 0) := by omega
    by_cases h : secure_counter - ((s.length + 1 : Nat) : Int) < 0
    · rw [if_pos (h1.mpr h), if_pos h]
    · rw [if_neg (fun h' => h (h1.mp h')), if_neg h]
      congr 1
      omega

theorem quoted_text_eq (value_string : Str) :
    (value_string.take (value_string.length - 1)).drop 1 = quoted_text value_string := by
  simp only [quoted_text, List.dropLast_eq_take, List.length_drop, List.drop_take]

theorem stored_int_of_range (v : Int) (h1 : -(2 ^ 31) ≤ v) (h2 : v < 2 ^ 31) :
    stored_int v = v := by
  simp only [stored_int, LONG_MIN, LONG_MAX, to_int]
  omega

/-- A value string longer than `PARSE_MAX_VALUE_STRING_LENGTH` that starts with a double
quote makes the length loop of `convert_to_value` read past the end of the string. -/
theorem convert_to_value_undefined (value_string : Str) (base : Nat)
    (hq : value_string.head? = some '"')
    (hlen : PARSE_MAX_VALUE_STRING_LENGTH < value_string.length) :
    convert_to_value value_string base = Outcome.undefined := by
  simp only [convert_to_value, hq, ne_eq, not_true_eq_false, if_false, convert_to_value_scan_eq]
  have h : ((PARSE_MAX_VALUE_STRING_LENGTH : Nat) : Int) - (value_string.length : Int) < 0 := by
    omega
  rw [if_pos h]

/-- A value string that `convert_to_value` accepts has at most 400 characters, is a
non-empty text between double quotes, the text is entirely an integer literal of the base,
and the value is the integer it denotes as the code keeps it in an `int`. -/
theorem convert_to_value_ok (value_string : Str) (base : Nat) (value : Int)
    (h : convert_to_value value_string base = Outcome.ok value) :
    value_string.length ≤ PARSE_MAX_VALUE_STRING_LENGTH ∧ 3 ≤ value_string.length ∧
    value_string.head? = some '"' ∧ value_string.get? (value_string.length - 1) = some '"' ∧
    ∃ v, literal_value base (quoted_text value_string) = some v ∧ value = stored_int v := by
  simp only [convert_to_value, convert_to_value_scan_eq] at h
  split at h
  · exact absurd h (by simp)
  · rename_i hq
    split at h
    · rename_i hscan
      split at hscan <;> exact absurd h (by simp)
    · rename_i index hscan
      split at hscan
      · exact absurd hscan (by simp)
      · rename_i hlen
        simp only [Nat.zero_add, Option.some.injEq] at hscan
        subst hscan
        split at h
        · exact absurd h (by simp)
        · rename_i h3
          split at h
          · exact absurd h (by simp)
          · rename_i hlast
            split at h
            · exact absurd h (by simp)
            · rename_i hend
              simp only [Outcome.ok.injEq] at h
              rw [quoted_text_eq] at h hend
              have hne : quoted_text value_string ≠ [] := by
                intro hnil
                have := congrArg List.length hnil
                simp only [quoted_text, List.length_dropLast, List.length_drop,
                  List.length_nil] at this
                omega
              obtain ⟨v, hv, hval⟩ := literal_of_strtol base _ hne (by simpa using hend)
              refine ⟨by omega, by omega, by simpa using hq, by simpa using hlast, v, hv, ?_⟩
              rw [← h, hval, stored_int]

theorem literal_value_ne_nil (base : Nat) (text : Str) (v : Int)
    (h : literal_value base text = some v) : text ≠ [] := by
  rintro rfl
  simp [literal_value, literal_unsigned, is_numeral] at h

/-- A text that is entirely an integer literal, put between double quotes in a value string
of at most 400 characters, is converted to the integer it denotes as the code keeps it in an
`int`. -/
theorem convert_to_value_of_literal (text : Str) (base : Nat) (v : Int)
    (hlen : text.length + 2 ≤ PARSE_MAX_VALUE_STRING_LENGTH)
    (h : literal_value base text = some v) :
    convert_to_value ('"' :: (text ++ ['"'])) base = Outcome.ok (stored_int v) := by
  have hne := literal_value_ne_nil base text v h
  have hpos : 0 < text.length := List.length_pos.mpr hne
  have hq : quoted_text ('"' :: (text ++ ['"'])) = text := by
    simp [quoted_text]
  simp only [convert_to_value, convert_to_value_scan_eq, List.head?_cons, ne_eq,
    not_true_eq_false, if_false, List.length_cons, List.length_append, List.length_singleton,
    List.length_nil, Nat.zero_add]
  have h1 : ¬ (((PARSE_MAX_VALUE_STRING_LENGTH : Nat) : Int)
      - ((text.length + 1 + 1 : Nat) : Int) < 0) := by omega
  rw [if_neg h1]
  simp only
  have h2 : ¬ (text.length + 1 + 1 ≤ 2) := by omega
  rw [if_neg h2]
  have h3 : ('"' :: (text ++ ['"'])).get? (text.length + 1 + 1 - 1) = some '"' := by
    simp [List.getElem?_append_right]
  rw [if_neg (by rw [h3]; simp)]
  have h4 : (('"' :: (text ++ ['"'])).take (text.length + 1 + 1 - 1)).drop 1 = text := by
    have := quoted_text_eq ('"' :: (text ++ ['"']))
    simp only [List.length_cons, List.length_append, List.length_singleton, List.length_nil,
      Nat.zero_add] at this
    rw [this, hq]
  rw [h4, strtol_of_literal base text v h]
  simp [stored_int]

theorem list_append_eq {α : Type} (list : List α) (element : α) :
    list_append list element = (LIST_SUCCESS, list ++ [element]) := by
  simp [list_append, list_insert]

/-- One well-formed group in the property loop: the property with the name of the group and
the integer its text denotes is appended, and the loop goes on with the next group. -/
theorem split_to_properties_loop_group (name text : Str) (v : Int) (rest : List Str)
    (list : List Property)
    (hname : name.length + 1 < PARSE_MAX_PROPERTY_NAME_LENGTH)
    (hlen : text.length + 2 ≤ PARSE_MAX_VALUE_STRING_LENGTH)
    (hlit : literal_value (property_base name) text = some v) :
    split_to_properties_loop (name :: ['='] :: ('"' :: (text ++ ['"'])) :: rest) list
      = split_to_properties_loop rest (list ++ [{ name := name, value := stored_int v }]) := by
  have hconv := convert_to_value_of_literal text (property_base name) v hlen hlit
  simp only [property_base] at hconv
  have h1 : ¬ (name.length + 1 ≥ PARSE_MAX_PROPERTY_NAME_LENGTH) := by omega
  simp only [split_to_properties_loop, h1, if_false, ne_eq, not_true_eq_false, hconv,
    list_append_eq]

/-- The property loop on success: the properties appended are those of the groups, and
looking one up by name finds the integer given on the line for that name, as the code keeps
it in an `int`. -/
theorem split_to_properties_loop_ok_aux (n : Nat) :
    ∀ (groups : List Str), groups.length ≤ n → ∀ (list props : List Property),
      split_to_properties_loop groups list = Outcome.ok props →
      ∃ ps, props = list ++ ps ∧
        ∀ name value, find_property ps name = Outcome.ok value →
          ∃ v, given_value groups name = some v ∧ value = stored_int v := by
  induction n with
  | zero =>
    intro groups hlen list props h
    have hnil : groups = [] := List.length_eq_zero.mp (Nat.le_zero.mp hlen)
    subst hnil
    simp only [split_to_properties_loop, Outcome.ok.injEq] at h
    exact ⟨[], by simp [h], fun name value hf => absurd hf (by simp [find_property])⟩
  | succ n ih =>
    intro groups hlen list props h
    match groups, hlen with
    | [], _ =>
      simp only [split_to_properties_loop, Outcome.ok.injEq] at h
      exact ⟨[], by simp [h], fun name value hf => absurd hf (by simp [find_property])⟩
    | [a], _ =>
      simp only [split_to_properties_loop] at h
      split at h <;> exact absurd h (by simp)
    | [a, b], _ =>
      simp only [split_to_properties_loop] at h
      split at h
      · exact absurd h (by simp)
      · split at h <;> exact absurd h (by simp)
    | a :: b :: c :: rest, hlen =>
      simp only [split_to_properties_loop] at h
      split at h
      · exact absurd h (by simp)
      · split at h
        · exact absurd h (by simp)
        · cases hcv : convert_to_value c (if a = "color".toList then 16 else 10) with
          | error code => rw [hcv] at h; exact absurd h (by simp)
          | undefined => rw [hcv] at h; exact absurd h (by simp)
          | ok value =>
            rw [hcv] at h
            simp only [list_append_eq, ne_eq, not_true_eq_false, if_false] at h
            obtain ⟨_, _, _, _, v, hv, hval⟩ := convert_to_value_ok c _ value hcv
            have hlt : rest.length ≤ n := by
              simp only [List.length_cons] at hlen; omega
            obtain ⟨ps, hps, hfind⟩ := ih rest hlt _ props h
            refine ⟨{ name := a, value := value } :: ps, by simp [hps], ?_⟩
            intro name val hf
            simp only [find_property] at hf
            simp only [given_value]
            by_cases hname : a = name
            · rw [if_pos hname] at hf ⊢
              simp only [Outcome.ok.injEq] at hf
              refine ⟨v, ?_, ?_⟩
              · rw [← hname, property_base]; exact hv
              · rw [← hf, hval, stored_int, to_int_to_int]
            · rw [if_neg hname] at hf ⊢
              exact hfind name val hf

/-- The property loop on success: the properties appended are those of the groups, and
looking one up by name finds the integer given on the line for that name, as the code keeps
it in an `int`. -/
theorem split_to_properties_loop_ok (groups : List Str) (list props : List Property)
    (h : split_to_properties_loop groups list = Outcome.ok props) :
    ∃ ps, props = list ++ ps ∧
      ∀ name value, find_property ps name = Outcome.ok value →
        ∃ v, given_value groups name = some v ∧ value = stored_int v :=
  split_to_properties_loop_ok_aux groups.length groups (le_refl _) list props h

/-- A successful `split_to_properties`: the split list starts with a keyword, the first
property is the keyword, and the others are those of the groups. -/
theorem split_to_properties_ok (split_list : List Str) (props : List Property)
    (h : split_to_properties split_list = Outcome.ok props) :
    ∃ keyword groups ps, split_list = keyword :: groups ∧
      props = { name := keyword, value := 0 } :: ps ∧
      ∀ name value, find_property ps name = Outcome.ok value →
        ∃ v, given_value groups name = some v ∧ value = stored_int v := by
  cases split_list with
  | nil => simp [split_to_properties, linked_list_get, linked_list_find_item] at h
  | cons keyword groups =>
    have hget : linked_list_get (keyword :: groups) 0 = some keyword := by
      have := linked_list_get_eq (keyword :: groups) 0
      simpa using this
    simp only [split_to_properties, hget, list_append_eq, list_new, List.nil_append, ne_eq,
      not_true_eq_false, if_false, List.drop_succ_cons, List.drop_zero] at h
    split at h
    · exact absurd h (by simp)
    · obtain ⟨ps, hps, hfind⟩ := split_to_properties_loop_ok groups _ props h
      exact ⟨keyword, groups, ps, rfl, by simpa using hps, hfind⟩

/-! ## The scene parser: property values and command fields -/

/-- C4, a line on which the claim as stated fails: the line parses, the integer given for
`id` is -1, and the id of the command is 4294967295. -/
theorem parse_line_negative_id :
    parse_line
        "rectangle id=\"-1\" color=\"ff0000\" x=\"0\" y=\"0\" width=\"2\" height=\"2\"".toList
      = Outcome.ok
          { shape := SH_RECTANGLE, id := 4294967295,
            obj := some (Obj.rectangle
              { id := 4294967295, color := 0xff0000, x := 0, y := 0, width := 2, height := 2 }) } ∧
    (split_line
        "rectangle id=\"-1\" color=\"ff0000\" x=\"0\" y=\"0\" width=\"2\" height=\"2\"".toList).map
        (fun split => given_value (split.drop 1) "id".toList)
      = some (some (-1)) := by
  constructor <;> decide

/-- C4, as amended. For every line that parses successfully, the command has the shape tag
of the line's keyword, and each of its fields holds the integer given on the line for the
(first) property of the same name as the code keeps it in an `int` (`stored_int`), the id
being converted to the unsigned `id_t`; the command-level id equals the shape's id. An
integer in the range of a 32-bit `int` is kept as it is, and as an id it is kept modulo
`2^32`, which is the integer itself when it is not negative. -/
theorem parse_line_fields (line : Str) (c : Command) (h : parse_line line = Outcome.ok c) :
    (∃ keyword groups, split_line line = some (keyword :: groups) ∧
      ((keyword = "rectangle".toList ∧ ∃ id color x y width height : Int,
          given_value groups "id".toList = some id ∧
          given_value groups "color".toList = some color ∧
          given_value groups "x".toList = some x ∧
          given_value groups "y".toList = some y ∧
          given_value groups "width".toList = some width ∧
          given_value groups "height".toList = some height ∧
          c = { shape := SH_RECTANGLE, id := to_u32 (stored_int id),
                obj := some (Obj.rectangle
                  { id := to_u32 (stored_int id), color := stored_int color,
                    x := stored_int x, y := stored_int y,
                    width := stored_int width, height := stored_int height }) }) ∨
       (keyword = "triangle".toList ∧ ∃ id color ax ay bx b_y cx cy : Int,
          given_value groups "id".toList = some id ∧
          given_value groups "color".toList = some color ∧
          given_value groups "ax".toList = some ax ∧
          given_value groups "ay".toList = some ay ∧
          given_value groups "bx".toList = some bx ∧
          given_value groups "by".toList = some b_y ∧
          given_value groups "cx".toList = some cx ∧
          given_value groups "cy".toList = some cy ∧
          c = { shape := SH_TRIANGLE, id := to_u32 (stored_int id),
                obj := some (Obj.triangle
                  { id := to_u32 (stored_int id), color := stored_int color,
                    ax := stored_int ax, ay := stored_int ay, bx := stored_int bx,
                    «by» := stored_int b_y, cx := stored_int cx, cy := stored_int cy }) }) ∨
       (keyword = "circle".toList ∧ ∃ id color x y radius : Int,
          given_value groups "id".toList = some id ∧
          given_value groups "color".toList = some color ∧
          given_value groups "x".toList = some x ∧
          given_value groups "y".toList = some y ∧
          given_value groups "radius".toList = some radius ∧
          c = { shape := SH_CIRCLE, id := to_u32 (stored_int id),
                obj := some (Obj.circle
                  { id := to_u32 (stored_int id), color := stored_int color,
                    x := stored_int x, y := stored_int y,
                    radius := stored_int radius }) }))) ∧
    (∀ v : Int, -(2 ^ 31) ≤ v → v < 2 ^ 31 → stored_int v = v) ∧
    (∀ v : Int, -(2 ^ 31) ≤ v → v < 2 ^ 31 → ((to_u32 (stored_int v) : Nat) : Int) = v % 2 ^ 32) ∧
    (∀ v : Int, 0 ≤ v → v < 2 ^ 31 → ((to_u32 (stored_int v) : Nat) : Int) = v) := by
  refine ⟨?_, stored_int_of_range, ?_, ?_⟩
  · simp only [parse_line] at h
    cases hsplit : split_line line with
    | none => rw [hsplit] at h; exact absurd h (by simp)
    | some split =>
      rw [hsplit] at h
      simp only [Outcome.bind_eq_ok] at h
      obtain ⟨props, hprops, hcmd⟩ := h
      obtain ⟨keyword, groups, ps, rfl, rfl, hfind⟩ := split_to_properties_ok split props hprops
      refine ⟨keyword, groups, rfl, ?_⟩
      obtain ⟨p, rest, hlist, hcase⟩ := properties_to_command_ok _ c hcmd
      obtain ⟨rfl, rfl⟩ := List.cons.inj hlist
      have hgiven : ∀ name value, keyword ≠ name →
          find_property ({ name := keyword, value := 0 } :: ps) name = Outcome.ok value →
          ∃ v, given_value groups name = some v ∧ value = stored_int v := by
        intro name value hne hf
        rw [find_property_groups _ _ _ hne] at hf
        exact hfind name value hf
      rcases hcase with ⟨hk, id, color, x, y, w, ht, h1, h2, h3, h4, h5, h6, hc⟩ |
        ⟨hk, id, color, ax, ay, bx, b_y, cx, cy, h1, h2, h3, h4, h5, h6, h7, h8, hc⟩ |
        ⟨hk, id, color, x, y, r, h1, h2, h3, h4, h5, hc⟩
      · simp only at hk
        left
        obtain ⟨v1, g1, rfl⟩ := hgiven "id".toList _ (by rw [hk]; decide) h1
        obtain ⟨v2, g2, rfl⟩ := hgiven "color".toList _ (by rw [hk]; decide) h2
        obtain ⟨v3, g3, rfl⟩ := hgiven "x".toList _ (by rw [hk]; decide) h3
        obtain ⟨v4, g4, rfl⟩ := hgiven "y".toList _ (by rw [hk]; decide) h4
        obtain ⟨v5, g5, rfl⟩ := hgiven "width".toList _ (by rw [hk]; decide) h5
        obtain ⟨v6, g6, rfl⟩ := hgiven "height".toList _ (by rw [hk]; decide) h6
        exact ⟨hk, v1, v2, v3, v4, v5, v6, g1, g2, g3, g4, g5, g6, hc⟩
      · simp only at hk
        right; left
        obtain ⟨v1, g1, rfl⟩ := hgiven "id".toList _ (by rw [hk]; decide) h1
        obtain ⟨v2, g2, rfl⟩ := hgiven "color".toList _ (by rw [hk]; decide) h2
        obtain ⟨v3, g3, rfl⟩ := hgiven "ax".toList _ (by rw [hk]; decide) h3
        obtain ⟨v4, g4, rfl⟩ := hgiven "ay".toList _ (by rw [hk]; decide) h4
        obtain ⟨v5, g5, rfl⟩ := hgiven "bx".toList _ (by rw [hk]; decide) h5
        obtain ⟨v6, g6, rfl⟩ := hgiven "by".toList _ (by rw [hk]; decide) h6
        obtain ⟨v7, g7, rfl⟩ := hgiven "cx".toList _ (by rw [hk]; decide) h7
        obtain ⟨v8, g8, rfl⟩ := hgiven "cy".toList _ (by rw [hk]; decide) h8
        exact ⟨hk, v1, v2, v3, v4, v5, v6, v7, v8, g1, g2, g3, g4, g5, g6, g7, g8, hc⟩
      · simp only at hk
        right; right
        obtain ⟨v1, g1, rfl⟩ := hgiven "id".toList _ (by rw [hk]; decide) h1
        obtain ⟨v2, g2, rfl⟩ := hgiven "color".toList _ (by rw [hk]; decide) h2
        obtain ⟨v3, g3, rfl⟩ := hgiven "x".toList _ (by rw [hk]; decide) h3
        obtain ⟨v4, g4, rfl⟩ := hgiven "y".toList _ (by rw [hk]; decide) h4
        obtain ⟨v5, g5, rfl⟩ := hgiven "radius".toList _ (by rw [hk]; decide) h5
        exact ⟨hk, v1, v2, v3, v4, v5, g1, g2, g3, g4, g5, hc⟩
  · intro v h1 h2
    rw [stored_int_of_range v h1 h2]
    simp only [to_u32]
    omega
  · intro v h1 h2
    rw [stored_int_of_range v (by omega) h2]
    simp only [to_u32]
    omega

theorem parse_line_fields_witness :
    parse_line "circle id=\"7\" color=\"00ff00\" x=\"5\" y=\"-5\" radius=\"1\"".toList
      = Outcome.ok
          { shape := SH_CIRCLE, id := 7,
            obj := some (Obj.circle { id := 7, color := 0x00ff00, x := 5, y := -5, radius := 1 }) } ∧
    ∀ v : Int, -(2 ^ 31) ≤ v → v < 2 ^ 31 → stored_int v = v :=
  ⟨by decide,
   (parse_line_fields "circle id=\"7\" color=\"00ff00\" x=\"5\" y=\"-5\" radius=\"1\"".toList
      { shape := SH_CIRCLE, id := 7,
        obj := some (Obj.circle { id := 7, color := 0x00ff00, x := 5, y := -5, radius := 1 }) }
      (by decide)).2.1⟩

/-- C5, a group on which the claim as stated fails: the text `4294967296` denotes
4294967296 in base 10, and the property value is 0. -/
theorem property_value_out_of_int_range :
    literal_value 10 "4294967296".toList = some 4294967296 ∧
    split_to_properties_loop ["x".toList, ['='], "\"4294967296\"".toList] []
      = Outcome.ok [{ name := "x".toList, value := 0 }] := by
  constructor <;> decide

/-- C5, as amended. For every well-formed group `name = "text"` whose name is shorter than
19 characters, whose value string has at most 400 characters and whose text denotes an
integer in the range of a 32-bit `int`, the property value is the integer denoted by the
text in base 16 when the name is exactly `color` and in base 10 otherwise; `color="10"`
yields 16, `x="10"` yields 10, and `x="ff"` is rejected. -/
theorem property_value_of_literal (name text : Str) (v : Int) (rest : List Str)
    (list : List Property)
    (hname : name.length < 19)
    (hlen : text.length + 2 ≤ 400)
    (hlit : literal_value (if name = "color".toList then 16 else 10) text = some v)
    (hmin : -(2 ^ 31) ≤ v) (hmax : v < 2 ^ 31) :
    split_to_properties_loop (name :: ['='] :: ('"' :: (text ++ ['"'])) :: rest) list
      = split_to_properties_loop rest (list ++ [{ name := name, value := v }]) ∧
    split_to_properties ["rectangle".toList, "color".toList, ['='], "\"10\"".toList]
      = Outcome.ok [{ name := "rectangle".toList, value := 0 },
                    { name := "color".toList, value := 16 }] ∧
    split_to_properties ["rectangle".toList, "x".toList, ['='], "\"10\"".toList]
      = Outcome.ok [{ name := "rectangle".toList, value := 0 },
                    { name := "x".toList, value := 10 }] ∧
    split_to_properties ["rectangle".toList, "x".toList, ['='], "\"ff\"".toList]
      = Outcome.error PARSE_ERR_INVALID_INPUT := by
  refine ⟨?_, by decide, by decide, by decide⟩
  have h := split_to_properties_loop_group name text v rest list
    (by simp only [PARSE_MAX_PROPERTY_NAME_LENGTH]; omega)
    (by simp only [PARSE_MAX_VALUE_STRING_LENGTH]; omega) hlit
  rw [stored_int_of_range v hmin hmax] at h
  exact h

theorem property_value_of_literal_witness :
    literal_value (if "color".toList = "color".toList then 16 else 10) "-1f".toList
      = some (-31) ∧
    split_to_properties_loop ["color".toList, ['='], '"' :: ("-1f".toList ++ ['"'])] []
      = split_to_properties_loop [] ([] ++ [{ name := "color".toList, value := -31 }]) :=
  ⟨by decide,
   (property_value_of_literal "color".toList "-1f".toList (-31) [] [] (by decide) (by decide)
      (by decide) (by decide) (by decide)).1⟩

/-! ## The scene parser: malformed groups -/

/-- A value string of at most 400 characters, or one that does not start with a double
quote, is either converted or rejected as invalid input. -/
theorem convert_to_value_ok_or_invalid (value_string : Str) (base : Nat)
    (hlen : value_string.head? = some '"' →
      value_string.length ≤ PARSE_MAX_VALUE_STRING_LENGTH) :
    (∃ value, convert_to_value value_string base = Outcome.ok value) ∨
    convert_to_value value_string base = Outcome.error PARSE_ERR_INVALID_INPUT := by
  simp only [convert_to_value, convert_to_value_scan_eq]
  split
  · right; rfl
  · rename_i hq
    have hq' : value_string.head? = some '"' := by simpa using hq
    have hl := hlen hq'
    have h1 : ¬ (((PARSE_MAX_VALUE_STRING_LENGTH : Nat) : Int)
        - (value_string.length : Int) < 0) := by omega
    rw [if_neg h1]
    simp only
    split
    · right; rfl
    · split
      · right; rfl
      · split
        · right; rfl
        · left; exact ⟨_, rfl⟩

theorem is_value_string_of_ok (value_string : Str) (base : Nat) (value : Int)
    (h : convert_to_value value_string base = Outcome.ok value) :
    is_value_string base value_string := by
  obtain ⟨_, h3, hq, hlast, v, hv, _⟩ := convert_to_value_ok value_string base value h
  exact ⟨h3, hq, hlast, v, hv⟩

theorem split_to_properties_loop_invalid_aux (n : Nat) :
    ∀ (groups : List Str), groups.length ≤ n → ∀ (list : List Property),
      group_names_short groups → value_strings_bounded groups → ¬ groups_well_formed groups →
      split_to_properties_loop groups list = Outcome.error PARSE_ERR_INVALID_INPUT := by
  induction n with
  | zero =>
    intro groups hlen list _ _ hbad
    have hnil : groups = [] := List.length_eq_zero.mp (Nat.le_zero.mp hlen)
    subst hnil
    exact absurd trivial hbad
  | succ n ih =>
    intro groups hlen list hshort hbound hbad
    match groups, hlen, hshort, hbound, hbad with
    | [], _, _, _, hbad => exact absurd trivial hbad
    | [a], _, hshort, _, _ =>
      have h1 : ¬ (a.length + 1 ≥ PARSE_MAX_PROPERTY_NAME_LENGTH) := by
        simp only [group_names_short] at hshort
        simp only [PARSE_MAX_PROPERTY_NAME_LENGTH]; omega
      simp only [split_to_properties_loop, h1, if_false]
    | [a, b], _, hshort, _, _ =>
      have h1 : ¬ (a.length + 1 ≥ PARSE_MAX_PROPERTY_NAME_LENGTH) := by
        simp only [group_names_short] at hshort
        simp only [PARSE_MAX_PROPERTY_NAME_LENGTH]; omega
      simp only [split_to_properties_loop, h1, if_false]
      split <;> rfl
    | a :: b :: c :: rest, hlen, hshort, hbound, hbad =>
      simp only [group_names_short] at hshort
      simp only [value_strings_bounded] at hbound
      simp only [groups_well_formed] at hbad
      have h1 : ¬ (a.length + 1 ≥ PARSE_MAX_PROPERTY_NAME_LENGTH) := by
        simp only [PARSE_MAX_PROPERTY_NAME_LENGTH]; omega
      simp only [split_to_properties_loop, h1, if_false]
      split
      · rfl
      · rename_i heq
        have heq' : b = ['='] := by simpa using heq
        rcases convert_to_value_ok_or_invalid c (if a = "color".toList then 16 else 10)
          hbound.1 with ⟨value, hcv⟩ | hcv
        · rw [hcv]
          simp only [list_append_eq, ne_eq, not_true_eq_false, if_false]
          have hwf := is_value_string_of_ok c _ value hcv
          have hlt : rest.length ≤ n := by
            simp only [List.length_cons] at hlen; omega
          apply ih rest hlt _ hshort.2 hbound.2
          intro hrest
          exact hbad ⟨heq', by rw [property_base]; exact hwf, hrest⟩
        · rw [hcv]

/-- Value strings of at most 400 characters: when the parts of a line are a keyword
followed by groups with names shorter than the limit, and some group is malformed (its
second part is not `=` or is missing, or its value string is missing or not well formed),
`parse_line` returns `PARSE_ERR_INVALID_INPUT`. -/
theorem parse_line_invalid_group (line keyword : Str) (groups : List Str)
    (hsplit : split_line line = some (keyword :: groups))
    (hkeyword : keyword.length < 19)
    (hshort : group_names_short groups) (hbound : value_strings_bounded groups)
    (hbad : ¬ groups_well_formed groups) :
    parse_line line = Outcome.error PARSE_ERR_INVALID_INPUT := by
  have hget : linked_list_get (keyword :: groups) 0 = some keyword := by
    have := linked_list_get_eq (keyword :: groups) 0
    simpa using this
  have h1 : ¬ (keyword.length + 1 ≥ PARSE_MAX_PROPERTY_NAME_LENGTH) := by
    simp only [PARSE_MAX_PROPERTY_NAME_LENGTH]; omega
  simp only [parse_line, hsplit, split_to_properties, hget, h1, if_false, list_append_eq,
    list_new, List.nil_append, ne_eq, not_true_eq_false, List.drop_succ_cons, List.drop_zero,
    split_to_properties_loop_invalid_aux groups.length groups (le_refl _) _ hshort hbound hbad,
    Outcome.bind]

set_option maxRecDepth 100000 in
/-- C6, the code at the failing input. The line `rectangle id="aaa...` whose value token is
a double quote followed by 400 letters `a` (401 characters, no closing quote) is a shape
keyword followed by a group with a short name and a malformed value token, yet `parse_line`
does not return `PARSE_ERR_INVALID_INPUT`: the length loop of `convert_to_value` runs past
the end of the token, which is undefined behaviour. The same happens for every value token
of more than 400 characters that starts with a double quote. -/
theorem parse_line_long_value_token :
    split_line ("rectangle id=\"".toList ++ List.replicate 400 'a')
      = some ["rectangle".toList, "id".toList, ['='], '"' :: List.replicate 400 'a'] ∧
    parse_line ("rectangle id=\"".toList ++ List.replicate 400 'a') = Outcome.undefined ∧
    parse_line ("rectangle id=\"".toList ++ List.replicate 400 'a')
      ≠ Outcome.error PARSE_ERR_INVALID_INPUT ∧
    parse_line "rectangle id=1".toList = Outcome.error PARSE_ERR_INVALID_INPUT := by
  refine ⟨by decide, by decide, by decide, by decide⟩

/-! ## The write primitive -/

theorem is_pixel_buffer_new (W H : Nat) (h : rowStride W * H < 2 ^ 31) :
    ∃ pix_buffer, bitmap_pixel_buffer_new W H = some pix_buffer ∧
      is_pixel_buffer W H pix_buffer := by
  have hrow : bitmap_pixel_array_size W H = rowStride W * H := by
    simp only [bitmap_pixel_array_size, row_size_eq_rowStride_mod, u32]
    rw [Nat.mod_mul_mod]
    exact Nat.mod_eq_of_lt (by omega)
  have hint : to_int ((rowStride W * H : Nat) : Int) = ((rowStride W * H : Nat) : Int) :=
    to_int_of_range _ (by omega) (by omega)
  simp only [bitmap_pixel_buffer_new, hrow, hint]
  rw [if_neg (by omega)]
  exact ⟨_, rfl, rfl, rfl, rfl, by simp only [List.length_replicate, Int.toNat_ofNat]⟩

/-- C12. For every pixel buffer (with a data array), every color and all coordinates with
`row ≥ height` or `column ≥ width`, `bitmap_write_pixel` leaves the buffer as it is: the
bytes of the data array, the width, the height and the size. -/
theorem bitmap_write_pixel_outside_unchanged (pix_buffer : PixelBuffer)
    (column row color : Nat) (h : row ≥ pix_buffer.height ∨ column ≥ pix_buffer.width) :
    (bitmap_write_pixel pix_buffer column row color).2 = pix_buffer := by
  simp only [bitmap_write_pixel, if_pos h]

theorem bitmap_write_pixel_outside_unchanged_witness :
    (bitmap_write_pixel { data := [1, 2, 3, 0], data_size := 4, width := 1, height := 1 }
      0 1 0xffffff).2 = { data := [1, 2, 3, 0], data_size := 4, width := 1, height := 1 } :=
  bitmap_write_pixel_outside_unchanged _ 0 1 0xffffff (Or.inl (by decide))

/-- An out-of-canvas write is reported as success by the claim C13, but not by the code: for
a buffer of one pixel, the write to row 1 returns `BITMAP_ERR_WIDTH_HEIGHT_OUT_OF_BOUND`. -/
theorem bitmap_write_pixel_outside_not_success :
    (bitmap_write_pixel { data := [0, 0, 0, 0], data_size := 4, width := 1, height := 1 }
      0 1 0xffffff).1 ≠ BITMAP_SUCCESS := by
  decide

/-- C13, amended. For every pixel buffer (with a data array), every color and all
coordinates with `row ≥ height` or `column ≥ width`, `bitmap_write_pixel` returns
`BITMAP_ERR_WIDTH_HEIGHT_OUT_OF_BOUND`, which is not `BITMAP_SUCCESS`. -/
theorem bitmap_write_pixel_outside_error (pix_buffer : PixelBuffer)
    (column row color : Nat) (h : row ≥ pix_buffer.height ∨ column ≥ pix_buffer.width) :
    (bitmap_write_pixel pix_buffer column row color).1 = BITMAP_ERR_WIDTH_HEIGHT_OUT_OF_BOUND ∧
      BITMAP_ERR_WIDTH_HEIGHT_OUT_OF_BOUND ≠ BITMAP_SUCCESS := by
  simp only [bitmap_write_pixel, if_pos h]
  exact ⟨trivial, by decide⟩

theorem bitmap_write_pixel_outside_error_witness :
    (bitmap_write_pixel { data := [0, 0, 0, 0], data_size := 4, width := 1, height := 1 }
      3 0 0xffffff).1 = BITMAP_ERR_WIDTH_HEIGHT_OUT_OF_BOUND ∧
      BITMAP_ERR_WIDTH_HEIGHT_OUT_OF_BOUND ≠ BITMAP_SUCCESS :=
  bitmap_write_pixel_outside_error _ 3 0 0xffffff (Or.inr (by decide))

/-- The header of a picture of 4 by 4 pixels, as the claim C18 gives it, is not what the
code returns: the file size is 102 (`0x66`), the header of 54 bytes and four rows of twelve
bytes. -/
theorem bitmap_file_header_new_4_4_not_claimed :
    bitmap_file_header_new 4 4 ≠
      [0x42, 0x4D, 0x4E, 0x00, 0x00, 0x00, 0, 0, 0, 0, 0x36, 0x00, 0x00, 0x00,
       0x28, 0x00, 0x00, 0x00, 0x04, 0, 0, 0, 0x04, 0, 0, 0, 0x01, 0, 0x18, 0,
       0, 0, 0, 0, 0, 0, 0, 0, 0, 0, 0, 0, 0, 0, 0, 0, 0, 0, 0, 0, 0, 0, 0, 0] := by
  decide

/-- C18, amended. `bitmap_file_header_new(4, 4)` returns the 54 bytes of the claim, but for
the file size, which is `0x66` (102 bytes: the header and a pixel array of 48 bytes). -/
theorem bitmap_file_header_new_4_4 :
    bitmap_file_header_new 4 4 =
      [0x42, 0x4D, 0x66, 0x00, 0x00, 0x00, 0, 0, 0, 0, 0x36, 0x00, 0x00, 0x00,
       0x28, 0x00, 0x00, 0x00, 0x04, 0, 0, 0, 0x04, 0, 0, 0, 0x01, 0, 0x18, 0,
       0, 0, 0, 0, 0, 0, 0, 0, 0, 0, 0, 0, 0, 0, 0, 0, 0, 0, 0, 0, 0, 0, 0, 0] := by
  decide

/-- The write of a pixel inside the image at a row other than row 0, for a pixel buffer of
`W` by `H` pixels of less than `2^31` bytes: the return code and the buffer afterwards. -/
theorem bitmap_write_pixel_eq (W H : Nat) (pix_buffer : PixelBuffer) (column row color : Nat)
    (hbuf : is_pixel_buffer W H pix_buffer) (hsize : rowStride W * H < 2 ^ 31)
    (hcol : column < W) (hrow1 : 1 ≤ row) (hrow : row < H) :
    (H - row) * rowStride W + 3 * column + 2 < rowStride W * H ∧
    bitmap_write_pixel pix_buffer column row color =
      (BITMAP_SUCCESS,
        { pix_buffer with
          data := ((pix_buffer.data.set ((H - row) * rowStride W + 3 * column) (color % 256)).set
            ((H - row) * rowStride W + 3 * column + 1) (color / 256 % 256)).set
            ((H - row) * rowStride W + 3 * column + 2) (color / 65536 % 256) }) := by
  obtain ⟨hw, hh, hds, hlen⟩ := hbuf
  have hS : W * 3 ≤ rowStride W := by rw [rowStride_eq]; omega
  have h1 : (H - row + 1) * rowStride W ≤ H * rowStride W :=
    Nat.mul_le_mul_right _ (by omega)
  have h2 : (H - row + 1) * rowStride W = (H - row) * rowStride W + rowStride W := by ring
  have h3 : 1 * rowStride W ≤ H * rowStride W := Nat.mul_le_mul_right _ (by omega)
  have h4 : rowStride W * H = H * rowStride W := Nat.mul_comm _ _
  have h5 : H ≤ H * rowStride W := Nat.le_mul_of_pos_right _ (by omega)
  have hlt : (H - row) * rowStride W + 3 * column + 2 < rowStride W * H := by omega
  refine ⟨hlt, ?_⟩
  have hrs : bitmap_pixel_array_row_size W = rowStride W := by
    rw [row_size_eq_rowStride_mod]; exact Nat.mod_eq_of_lt (by omega)
  have hb0 : color &&& 0xff = color % 256 := byte0_eq color
  have hoff : u32 (u32 (H - row) * rowStride W) + u32 (column * BITMAP_RGB_COLOR_SIZE) =
      (H - row) * rowStride W + 3 * column := by
    simp only [u32, BITMAP_RGB_COLOR_SIZE]
    rw [Nat.mod_eq_of_lt (show H - row < 2 ^ 32 by omega),
      Nat.mod_eq_of_lt (show (H - row) * rowStride W < 2 ^ 32 by omega),
      Nat.mod_eq_of_lt (show column * 3 < 2 ^ 32 by omega)]
    omega
  have hcond : ¬ (row ≥ pix_buffer.height ∨ column ≥ pix_buffer.width) := by
    rw [hw, hh]; omega
  unfold bitmap_write_pixel
  rw [if_neg hcond]
  simp only [hw, hh, hrs, hoff, hds, hb0, byte1_eq, byte2_eq]
  rw [if_pos (by exact_mod_cast hlt)]

/-- C14. For every pixel buffer of `W` by `H` pixels, as `bitmap_pixel_buffer_new` creates
it, of less than `2^31` bytes, and all coordinates with `column < W` and `1 ≤ row < H`,
`bitmap_write_pixel` returns `BITMAP_SUCCESS` and sets the three bytes at the offsets
`(H - row) * rowStride W + 3 * column + 0`, `+ 1` and `+ 2` to the bits 0-7 (blue), 8-15
(green) and 16-23 (red) of the color; the three offsets lie inside the pixel array, no other
byte changes, and the buffer keeps its length, width, height and size. -/
theorem bitmap_write_pixel_inside (W H : Nat) (pix_buffer : PixelBuffer)
    (column row color : Nat)
    (hbuf : is_pixel_buffer W H pix_buffer) (hsize : rowStride W * H < 2 ^ 31)
    (hcol : column < W) (hrow1 : 1 ≤ row) (hrow : row < H) :
    (bitmap_write_pixel pix_buffer column row color).1 = BITMAP_SUCCESS ∧
    (H - row) * rowStride W + 3 * column + 2 < pix_buffer.data.length ∧
    (bitmap_write_pixel pix_buffer column row color).2.data[(H - row) * rowStride W + 3 * column]?
      = some (color % 256) ∧
    (bitmap_write_pixel pix_buffer column row color).2.data[(H - row) * rowStride W + 3 * column + 1]?
      = some (color / 256 % 256) ∧
    (bitmap_write_pixel pix_buffer column row color).2.data[(H - row) * rowStride W + 3 * column + 2]?
      = some (color / 65536 % 256) ∧
    (∀ i, i ≠ (H - row) * rowStride W + 3 * column →
      i ≠ (H - row) * rowStride W + 3 * column + 1 →
      i ≠ (H - row) * rowStride W + 3 * column + 2 →
      (bitmap_write_pixel pix_buffer column row color).2.data[i]? = pix_buffer.data[i]?) ∧
    is_pixel_buffer W H (bitmap_write_pixel pix_buffer column row color).2 := by
  obtain ⟨hlt, heq⟩ := bitmap_write_pixel_eq W H pix_buffer column row color hbuf hsize hcol
    hrow1 hrow
  obtain ⟨hw, hh, hds, hlen⟩ := hbuf
  rw [heq]
  refine ⟨rfl, by omega, ?_, ?_, ?_, ?_, ?_⟩
  · simp only [List.getElem?_set, List.length_set]
    simp; omega
  · simp only [List.getElem?_set, List.length_set]
    simp; omega
  · simp only [List.getElem?_set, List.length_set]
    simp; omega
  · intro i h0 h1 h2
    simp only [List.getElem?_set, List.length_set]
    rw [if_neg (Ne.symm h2), if_neg (Ne.symm h1), if_neg (Ne.symm h0)]
  · exact ⟨hw, hh, hds, by simp only [List.length_set]; exact hlen⟩

theorem bitmap_write_pixel_inside_witness :
    (bitmap_write_pixel
        { data := List.replicate 16 0, data_size := 16, width := 2, height := 2 }
        1 1 0x112233).1 = BITMAP_SUCCESS ∧
    (2 - 1) * rowStride 2 + 3 * 1 + 2 < (List.replicate 16 0).length ∧
    (bitmap_write_pixel
        { data := List.replicate 16 0, data_size := 16, width := 2, height := 2 }
        1 1 0x112233).2.data[(2 - 1) * rowStride 2 + 3 * 1]? = some (0x112233 % 256) ∧
    (bitmap_write_pixel
        { data := List.replicate 16 0, data_size := 16, width := 2, height := 2 }
        1 1 0x112233).2.data[(2 - 1) * rowStride 2 + 3 * 1 + 1]?
      = some (0x112233 / 256 % 256) ∧
    (bitmap_write_pixel
        { data := List.replicate 16 0, data_size := 16, width := 2, height := 2 }
        1 1 0x112233).2.data[(2 - 1) * rowStride 2 + 3 * 1 + 2]?
      = some (0x112233 / 65536 % 256) ∧
    (∀ i, i ≠ (2 - 1) * rowStride 2 + 3 * 1 →
      i ≠ (2 - 1) * rowStride 2 + 3 * 1 + 1 →
      i ≠ (2 - 1) * rowStride 2 + 3 * 1 + 2 →
      (bitmap_write_pixel
        { data := List.replicate 16 0, data_size := 16, width := 2, height := 2 }
        1 1 0x112233).2.data[i]? = (List.replicate 16 0)[i]?) ∧
    is_pixel_buffer 2 2 (bitmap_write_pixel
        { data := List.replicate 16 0, data_size := 16, width := 2, height := 2 }
        1 1 0x112233).2 :=
  bitmap_write_pixel_inside 2 2
    { data := List.replicate 16 0, data_size := 16, width := 2, height := 2 } 1 1 0x112233
    ⟨rfl, rfl, by rw [rowStride_eq]; rfl, by rw [rowStride_eq]; rfl⟩
    (by rw [rowStride_eq]; decide) (by decide) (by decide) (by decide)

/-! ## The rasterizer: the white canvas and the example scene -/

set_option maxRecDepth 100000 in
/-- C15 fails in the code. For a canvas of 2 by 2 pixels and no command, the pixel buffer
that `main` writes to the file after the white rectangle has the 16 bytes of two rows of
stride 8, but the two pixels of its first row are black: `bitmap_write_pixel` maps row
`row` to the row `height - row` of the array, so the writes to row 0 fall behind the array
and are dropped, and no write reaches the first row of the array. -/
theorem main_pixel_buffer_white_2_2 :
    main_pixel_buffer 2 2 [] =
      Outcome.ok { data := [0, 0, 0, 0, 0, 0, 0, 0, 255, 255, 255, 255, 255, 255, 0, 0],
                   data_size := 16, width := 2, height := 2 } ∧
    draw_rectangle_calls { id := 0, color := 0xffffff, x := 0, y := 0, width := 2, height := 2 }
      = [⟨0, 0, 0xffffff⟩, ⟨0, 1, 0xffffff⟩, ⟨1, 0, 0xffffff⟩, ⟨1, 1, 0xffffff⟩] := by
  decide

set_option maxRecDepth 100000 in
/-- C16 fails in the code. The example scene parses to its two commands and is drawn on the
white canvas of 10 by 10 pixels without error, but of the four pixels of the rectangle only
`(0,1)` and `(1,1)` are red afterwards: the writes to `(0,0)` and `(1,0)` are dropped, as
row 0 is mapped behind the pixel array (there are no bytes for these pixels), and the pixel
array holds exactly two red pixels. -/
theorem main_pixel_buffer_example_rectangle :
    parse_file (some example_scene) = some (FileOutcome.success example_commands) ∧
    ∃ pix_buffer, main_pixel_buffer 10 10 example_commands = Outcome.ok pix_buffer ∧
      pixel_at pix_buffer 0 1 = some 0xff0000 ∧ pixel_at pix_buffer 1 1 = some 0xff0000 ∧
      pixel_at pix_buffer 0 0 = none ∧ pixel_at pix_buffer 1 0 = none ∧
      (pixels_of pix_buffer).count (some 0xff0000) = 2 ∧
      (pixels_of pix_buffer).length = 100 := by
  refine ⟨by decide, _, rfl, ?_⟩
  simp only [pixel_at, pixels_of, rowStride_eq]
  decide

/-! ## Lemmas on the calls of the write primitive -/

theorem foldl_flatMap {α β γ : Type} (f : γ → β → γ) (g : α → List β) (l : List α) (s : γ) :
    (l.flatMap g).foldl f s = l.foldl (fun s i => (g i).foldl f s) s := by
  induction l generalizing s with
  | nil => rfl
  | cons a l ih => simp only [List.flatMap_cons, List.foldl_append, List.foldl_cons, ih]

theorem foldl_congr_fun {α γ : Type} (f g : γ → α → γ) (h : ∀ s i, f s i = g s i)
    (l : List α) (s : γ) : l.foldl f s = l.foldl g s := by
  induction l generalizing s with
  | nil => rfl
  | cons a l ih => simp only [List.foldl_cons, h, ih]

theorem foldl_append_singleton {α : Type} (l init : List α) :
    l.foldl (fun t w => t ++ [w]) init = init ++ l := by
  induction l generalizing init with
  | nil => simp
  | cons a l ih => simp only [List.foldl_cons, ih, List.append_assoc, List.singleton_append]

theorem draw_circle_pair_eq {σ : Type} (write : σ → Nat → Nat → Nat → σ) (height : Nat)
    (column y color : Int) (s : σ) (index_y : Nat) :
    draw_circle_pair write height column y color s index_y =
      (circle_pair_calls height column y color index_y).foldl
        (fun s w => write s w.column w.row w.color) s := by
  unfold draw_circle_pair circle_pair_calls
  by_cases h1 : y + (index_y : Int) ≥ 0 ∧ y + (index_y : Int) < height <;>
    by_cases h2 : y - (index_y : Int) ≥ 0 ∧ y - (index_y : Int) < height <;>
    simp only [h1, h2, and_self, if_true, if_false, List.foldl_append, List.foldl_cons,
      List.foldl_nil]

/-- The loops of `draw_circle` make the calls of `circle_calls`, in order. -/
theorem draw_circle_with_eq {σ : Type} (write : σ → Nat → Nat → Nat → σ) (width height : Nat)
    (s : σ) (circle : Circle) :
    draw_circle_with write width height s circle =
      (circle_calls width height circle).foldl (fun s w => write s w.column w.row w.color) s := by
  dsimp only [draw_circle_with, circle_calls]
  rw [foldl_flatMap]
  apply foldl_congr_fun
  intro s index_x
  simp only [List.foldl_append]
  have hbar : ∀ (cond : Prop) [Decidable cond] (column : Int) (n : Nat) (s : σ),
      (if cond then (List.range n).foldl
          (draw_circle_pair write height column circle.y circle.color) s else s) =
        (if cond then (List.range n).flatMap
          (circle_pair_calls height column circle.y circle.color) else []).foldl
          (fun s w => write s w.column w.row w.color) s := by
    intro cond _ column n s
    by_cases h : cond
    · simp only [h, if_true, foldl_flatMap]
      apply foldl_congr_fun
      intro s index_y
      exact draw_circle_pair_eq write height column circle.y circle.color s index_y
    · simp only [h, if_false, List.foldl_nil]
  rw [← hbar, ← hbar]

theorem draw_circle_calls_eq (width height : Nat) (circle : Circle) :
    draw_circle_calls width height circle = circle_calls width height circle := by
  unfold draw_circle_calls
  rw [draw_circle_with_eq]
  exact (foldl_append_singleton _ []).trans (List.nil_append _)

theorem draw_circle_eq (pix_buffer : PixelBuffer) (circle : Circle) :
    draw_circle pix_buffer circle =
      apply_writes pix_buffer (draw_circle_calls pix_buffer.width pix_buffer.height circle) := by
  rw [draw_circle_calls_eq]
  unfold draw_circle apply_writes
  exact draw_circle_with_eq _ _ _ _ _

/-- A call of the write primitive on a pixel buffer of `W` by `H` pixels of less than `2^31`
bytes either leaves the buffer as it is, or is a call for a pixel inside the image at a row
other than row 0 and sets the three bytes of that pixel. -/
theorem bitmap_write_pixel_cases (W H : Nat) (pix_buffer : PixelBuffer) (x y color : Nat)
    (hbuf : is_pixel_buffer W H pix_buffer) (hsize : rowStride W * H < 2 ^ 31) :
    (bitmap_write_pixel pix_buffer x y color).2 = pix_buffer ∨
    (x < W ∧ 1 ≤ y ∧ y < H ∧
      (bitmap_write_pixel pix_buffer x y color).2 =
        { pix_buffer with
          data := ((pix_buffer.data.set ((H - y) * rowStride W + 3 * x) (color % 256)).set
            ((H - y) * rowStride W + 3 * x + 1) (color / 256 % 256)).set
            ((H - y) * rowStride W + 3 * x + 2) (color / 65536 % 256) }) := by
  by_cases hout : y ≥ pix_buffer.height ∨ x ≥ pix_buffer.width
  · exact Or.inl (by simp only [bitmap_write_pixel, if_pos hout])
  · have hw := hbuf.1
    have hh := hbuf.2.1
    rw [hw, hh] at hout
    by_cases hy : y = 0
    · left
      subst hy
      have hds := hbuf.2.2.1
      have hS : W * 3 ≤ rowStride W := by rw [rowStride_eq]; omega
      have h5 : H ≤ H * rowStride W := Nat.le_mul_of_pos_right _ (by omega)
      have h4 : rowStride W * H = H * rowStride W := Nat.mul_comm _ _
      have h3 : 1 * rowStride W ≤ H * rowStride W := Nat.mul_le_mul_right _ (by omega)
      have hrs : bitmap_pixel_array_row_size W = rowStride W := by
        rw [row_size_eq_rowStride_mod]
        exact Nat.mod_eq_of_lt (by omega)
      have hoff : u32 (u32 (H - 0) * rowStride W) + u32 (x * BITMAP_RGB_COLOR_SIZE) =
          H * rowStride W + 3 * x := by
        simp only [u32, BITMAP_RGB_COLOR_SIZE, Nat.sub_zero]
        rw [Nat.mod_eq_of_lt (show H < 2 ^ 32 by omega),
          Nat.mod_eq_of_lt (show H * rowStride W < 2 ^ 32 by omega),
          Nat.mod_eq_of_lt (show x * 3 < 2 ^ 32 by omega)]
        omega
      unfold bitmap_write_pixel
      rw [if_neg (by rw [hw, hh]; exact hout)]
      simp only [hw, hh, hrs, hoff, hds]
      rw [if_neg (by push_cast; omega)]
    · right
      have h := bitmap_write_pixel_eq W H pix_buffer x y color hbuf hsize (by omega) (by omega)
        (by omega)
      exact ⟨by omega, by omega, by omega, by rw [h.2]⟩

theorem bitmap_write_pixel_is_pixel_buffer (W H : Nat) (pix_buffer : PixelBuffer)
    (x y color : Nat) (hbuf : is_pixel_buffer W H pix_buffer) (hsize : rowStride W * H < 2 ^ 31) :
    is_pixel_buffer W H (bitmap_write_pixel pix_buffer x y color).2 := by
  rcases bitmap_write_pixel_cases W H pix_buffer x y color hbuf hsize with h | ⟨_, _, _, h⟩
  · rw [h]; exact hbuf
  · rw [h]
    exact ⟨hbuf.1, hbuf.2.1, hbuf.2.2.1, by simp only [List.length_set]; exact hbuf.2.2.2⟩

theorem apply_writes_is_pixel_buffer (W H : Nat) (calls : List PixelWrite)
    (pix_buffer : PixelBuffer) (hbuf : is_pixel_buffer W H pix_buffer)
    (hsize : rowStride W * H < 2 ^ 31) :
    is_pixel_buffer W H (apply_writes pix_buffer calls) := by
  induction calls generalizing pix_buffer with
  | nil => exact hbuf
  | cons w calls ih =>
    exact ih _ (bitmap_write_pixel_is_pixel_buffer W H pix_buffer _ _ _ hbuf hsize)

/-- The color that the three bytes of a color hold, blue first. -/
theorem color_bytes_eq (color : Nat) :
    color % 256 + 256 * (color / 256 % 256) + 65536 * (color / 65536 % 256) =
      color % 2 ^ 24 := by
  omega

/-- After a write inside the image at a row other than row 0, the pixel holds the 24 bits
of the color. -/
theorem pixel_at_write_same (W H : Nat) (pix_buffer : PixelBuffer) (column row color : Nat)
    (hbuf : is_pixel_buffer W H pix_buffer) (hsize : rowStride W * H < 2 ^ 31)
    (hcol : column < W) (hrow1 : 1 ≤ row) (hrow : row < H) :
    pixel_at (bitmap_write_pixel pix_buffer column row color).2 column row =
      some (color % 2 ^ 24) := by
  obtain ⟨hlt, heq⟩ := bitmap_write_pixel_eq W H pix_buffer column row color hbuf hsize hcol
    hrow1 hrow
  obtain ⟨hw, hh, hds, hlen⟩ := hbuf
  rw [heq]
  simp only [pixel_at, color_at, hw, hh, List.getElem?_set, List.length_set]
  have e0 : ∀ n : Nat, ¬ (n + 2 = n) := by omega
  have e1 : ∀ n : Nat, ¬ (n + 1 = n) := by omega
  have e2 : ∀ n : Nat, ¬ (n + 2 = n + 1) := by omega
  simp only [e0, e1, e2, if_false, if_true]
  rw [if_pos (by omega), if_pos (by omega), if_pos (by omega)]
  simp only [color_bytes_eq]

/-- A write to another pixel leaves the pixel as it is. -/
theorem pixel_at_write_other (W H : Nat) (pix_buffer : PixelBuffer)
    (x y color column row : Nat)
    (hbuf : is_pixel_buffer W H pix_buffer) (hsize : rowStride W * H < 2 ^ 31)
    (hcol : column < W) (hrow1 : 1 ≤ row) (hrow : row < H)
    (hne : ¬ (x = column ∧ y = row)) :
    pixel_at (bitmap_write_pixel pix_buffer x y color).2 column row =
      pixel_at pix_buffer column row := by
  rcases bitmap_write_pixel_cases W H pix_buffer x y color hbuf hsize with h | ⟨hx, hy1, hy, h⟩
  · rw [h]
  · obtain ⟨hw, hh, hds, hlen⟩ := hbuf
    rw [h]
    simp only [pixel_at, color_at, hw, hh, List.getElem?_set, List.length_set]
    have hS : W * 3 ≤ rowStride W := by rw [rowStride_eq]; omega
    have hdis : (H - y) * rowStride W + 3 * x + 3 ≤ (H - row) * rowStride W + 3 * column ∨
        (H - row) * rowStride W + 3 * column + 3 ≤ (H - y) * rowStride W + 3 * x := by
      rcases Nat.lt_trichotomy y row with hlt | heq | hgt
      · right
        have h1 : (H - row + 1) * rowStride W ≤ (H - y) * rowStride W :=
          Nat.mul_le_mul_right _ (by omega)
        have h2 : (H - row + 1) * rowStride W = (H - row) * rowStride W + rowStride W := by
          ring
        omega
      · subst heq
        have : x ≠ column := fun hxc => hne ⟨hxc, rfl⟩
        omega
      · left
        have h1 : (H - y + 1) * rowStride W ≤ (H - row) * rowStride W :=
          Nat.mul_le_mul_right _ (by omega)
        have h2 : (H - y + 1) * rowStride W = (H - y) * rowStride W + rowStride W := by
          ring
        omega
    repeat rw [if_neg (by omega)]

/-- After calls of the write primitive that all pass the same color, a pixel inside the
image at a row other than row 0 holds that color if one of the calls is for it, or if it
held the color before. -/
theorem pixel_at_apply_writes (W H : Nat) (column row color : Nat)
    (hsize : rowStride W * H < 2 ^ 31) (hcol : column < W) (hrow1 : 1 ≤ row) (hrow : row < H)
    (calls : List PixelWrite) (pix_buffer : PixelBuffer)
    (hbuf : is_pixel_buffer W H pix_buffer)
    (hcolor : ∀ w ∈ calls, w.color = color)
    (h : (⟨column, row, color⟩ : PixelWrite) ∈ calls ∨
      pixel_at pix_buffer column row = some (color % 2 ^ 24)) :
    pixel_at (apply_writes pix_buffer calls) column row = some (color % 2 ^ 24) := by
  induction calls generalizing pix_buffer with
  | nil =>
    rcases h with h | h
    · exact absurd h (List.not_mem_nil _)
    · exact h
  | cons w calls ih =>
    have hbuf2 := bitmap_write_pixel_is_pixel_buffer W H pix_buffer w.column w.row w.color
      hbuf hsize
    have hwc : w.color = color := hcolor w (List.mem_cons_self _ _)
    have hrest : ∀ w ∈ calls, w.color = color :=
      fun w2 h2 => hcolor w2 (List.mem_cons_of_mem _ h2)
    have hkeep : (w.column = column ∧ w.row = row) ∨
        pixel_at pix_buffer column row = some (color % 2 ^ 24) →
        pixel_at (bitmap_write_pixel pix_buffer w.column w.row w.color).2 column row =
          some (color % 2 ^ 24) := by
      intro hc
      by_cases hsame : w.column = column ∧ w.row = row
      · rw [hsame.1, hsame.2, hwc]
        exact pixel_at_write_same W H pix_buffer column row color hbuf hsize hcol hrow1 hrow
      · rw [pixel_at_write_other W H pix_buffer _ _ _ column row hbuf hsize hcol hrow1 hrow
          hsame]
        exact hc.resolve_left hsame
    show pixel_at (apply_writes _ calls) column row = _
    apply ih _ hbuf2 hrest
    rcases h with h | h
    · rcases List.mem_cons.mp h with h | h
      · right
        apply hkeep
        left
        rw [← h]
        exact ⟨rfl, rfl⟩
      · exact Or.inl h
    · exact Or.inr (hkeep (Or.inr h))

/-! ## The circle -/

theorem floor_sqrt_search_spec (n k : Nat) :
    floor_sqrt_search n k ≤ k ∧ floor_sqrt_search n k * floor_sqrt_search n k ≤ n ∧
      ∀ j, floor_sqrt_search n k < j → j ≤ k → n < j * j := by
  induction k with
  | zero =>
    refine ⟨Nat.le_refl _, Nat.zero_le _, ?_⟩
    intro j h1 h2
    simp only [floor_sqrt_search] at h1
    omega
  | succ k ih =>
    unfold floor_sqrt_search
    by_cases h : (k + 1) * (k + 1) ≤ n
    · rw [if_pos h]
      exact ⟨Nat.le_refl _, h, fun j h1 h2 => by omega⟩
    · rw [if_neg h]
      refine ⟨by omega, ih.2.1, ?_⟩
      intro j h1 h2
      by_cases hj : j = k + 1
      · subst hj; omega
      · exact ih.2.2 j h1 (by omega)

/-- The structural integer square root of the model is the integer square root. -/
theorem floor_sqrt_eq (n : Nat) : floor_sqrt n = Nat.sqrt n := by
  obtain ⟨h1, h2, h3⟩ := floor_sqrt_search_spec n n
  apply Nat.eq_sqrt.mpr
  refine ⟨h2, ?_⟩
  by_cases h : floor_sqrt n + 1 ≤ n
  · exact h3 _ (Nat.lt_succ_self _) h
  · have : floor_sqrt n = n := by unfold floor_sqrt at h ⊢; omega
    rw [this]
    nlinarith

theorem mem_circle_pair_calls (height : Nat) (column y color : Int) (index_y : Nat)
    (w : PixelWrite) :
    w ∈ circle_pair_calls height column y color index_y ↔
      ((y + (index_y : Int) ≥ 0 ∧ y + (index_y : Int) < height) ∧
        w = ⟨to_u32 column, to_u32 (y + (index_y : Int)), to_u32 color⟩) ∨
      ((y - (index_y : Int) ≥ 0 ∧ y - (index_y : Int) < height) ∧
        w = ⟨to_u32 column, to_u32 (y - (index_y : Int)), to_u32 color⟩) := by
  unfold circle_pair_calls
  by_cases h1 : y + (index_y : Int) ≥ 0 ∧ y + (index_y : Int) < height <;>
    by_cases h2 : y - (index_y : Int) ≥ 0 ∧ y - (index_y : Int) < height <;>
    simp only [h1, h2, and_self, if_true, if_false, List.mem_append, List.mem_singleton,
      List.not_mem_nil, true_and, false_and, or_false, false_or]

theorem mem_circle_calls (width height : Nat) (circle : Circle) (w : PixelWrite) :
    w ∈ circle_calls width height circle ↔
      ∃ index_x : Nat, (index_x : Int) < circle.radius ∧
        ∃ index_y : Nat, index_y < floor_sqrt (circle_radicand circle.radius index_x).toNat ∧
          (((circle.x + (index_x : Int) ≥ 0 ∧ circle.x + (index_x : Int) < width) ∧
              w ∈ circle_pair_calls height (circle.x + (index_x : Int)) circle.y circle.color
                index_y) ∨
            ((circle.x - (index_x : Int) > 0 ∧ circle.x - (index_x : Int) < width) ∧
              w ∈ circle_pair_calls height (circle.x - (index_x : Int)) circle.y circle.color
                index_y)) := by
  unfold circle_calls
  simp only [List.mem_flatMap, List.mem_range, List.mem_append]
  constructor
  · rintro ⟨index_x, hx, h⟩
    refine ⟨index_x, by omega, ?_⟩
    rcases h with h | h
    · split at h
      · rename_i hc
        simp only [List.mem_flatMap, List.mem_range] at h
        obtain ⟨index_y, hy, hw⟩ := h
        exact ⟨index_y, hy, Or.inl ⟨hc, hw⟩⟩
      · exact absurd h (List.not_mem_nil _)
    · split at h
      · rename_i hc
        simp only [List.mem_flatMap, List.mem_range] at h
        obtain ⟨index_y, hy, hw⟩ := h
        exact ⟨index_y, hy, Or.inr ⟨hc, hw⟩⟩
      · exact absurd h (List.not_mem_nil _)
  · rintro ⟨index_x, hx, index_y, hy, h⟩
    refine ⟨index_x, by omega, ?_⟩
    rcases h with ⟨hc, hw⟩ | ⟨hc, hw⟩
    · left
      rw [if_pos hc]
      simp only [List.mem_flatMap, List.mem_range]
      exact ⟨index_y, hy, hw⟩
    · right
      rw [if_pos hc]
      simp only [List.mem_flatMap, List.mem_range]
      exact ⟨index_y, hy, hw⟩

/-- Without overflow the argument of `sqrt` is `radius * radius - index_x * index_x`. -/
theorem circle_radicand_eq (radius : Int) (index_x : Nat) (hr : radius * radius < 2 ^ 31)
    (hix : (index_x : Int) < radius) :
    circle_radicand radius index_x = radius * radius - (index_x : Int) * (index_x : Int) := by
  have h0 : (0 : Int) ≤ (index_x : Int) * (index_x : Int) :=
    Int.mul_nonneg (Int.ofNat_nonneg _) (Int.ofNat_nonneg _)
  have h1 : (index_x : Int) * (index_x : Int) ≤ radius * radius := by
    have := Int.ofNat_nonneg index_x
    nlinarith
  unfold circle_radicand
  rw [to_int_of_range (radius * radius) (by omega) hr,
    to_int_of_range ((index_x : Int) * (index_x : Int)) (by omega) (by omega),
    to_int_of_range _ (by omega) (by omega)]

theorem to_u32_natCast (n : Nat) (h : n < 2 ^ 32) : to_u32 (n : Int) = n := by
  unfold to_u32
  rw [Int.emod_eq_of_lt (by omega) (by omega)]
  rfl

/-- The half-chord of a bar of `draw_circle` is at most the radius. -/
theorem floor_sqrt_le_radius (radius : Int) (index_x : Nat) (h : 0 ≤ radius) :
    ((floor_sqrt (radius * radius - (index_x : Int) * (index_x : Int)).toNat : Nat) : Int)
      ≤ radius := by
  rw [floor_sqrt_eq]
  have h1 : (radius * radius - (index_x : Int) * (index_x : Int)).toNat ≤
      radius.toNat * radius.toNat := by
    have h2 : ((radius.toNat * radius.toNat : Nat) : Int) = radius * radius := by
      push_cast
      rw [Int.toNat_of_nonneg h]
    have h3 : (0 : Int) ≤ (index_x : Int) * (index_x : Int) :=
      Int.mul_nonneg (Int.ofNat_nonneg _) (Int.ofNat_nonneg _)
    omega
  have h4 := Nat.sqrt_le_sqrt h1
  rw [Nat.sqrt_eq] at h4
  omega

/-- The claim C11 includes the rows `cy - dy_max` and `cy + dy_max`, which the code leaves
out: for the circle of radius 1 around `(5, 5)` on a canvas of 10 by 10 pixels the half-chord
at `dx = 0` is 1, so the claim has the pixel `(5, 4)` written, while all calls of
`draw_circle` are for the pixel `(5, 5)`. -/
theorem draw_circle_calls_radius_1 :
    draw_circle_calls 10 10 { id := 2, color := 0x00ff00, x := 5, y := 5, radius := 1 } =
      [⟨5, 5, 0x00ff00⟩, ⟨5, 5, 0x00ff00⟩, ⟨5, 5, 0x00ff00⟩, ⟨5, 5, 0x00ff00⟩] ∧
    (5 : Int) - (Nat.sqrt (1 * 1 - 0 * 0) : Int) ≤ 4 := by
  refine ⟨by decide, ?_⟩
  norm_num

/-- C11, amended. For every circle with centre `(cx, cy)` and radius `r`, with `r * r`,
`cx ± r` and `cy ± r` in the range of `int`, and every width and height of the buffer: every
call of the write primitive that `draw_circle` makes passes the color of the circle and an
on-canvas pixel `(cx + dx, row)` or `(cx - dx, row)` with `0 ≤ dx < r` and
`cy - dy_max < row < cy + dy_max`, where `dy_max` is the integer square root of
`r * r - dx * dx`; every on-canvas pixel `(cx + dx, row)` of this kind is passed in a call,
and so is every on-canvas pixel `(cx - dx, row)` of this kind outside column 0; a circle
with `r ≤ 0` causes no call. -/
theorem draw_circle_calls_spans (W H : Nat) (circle : Circle)
    (hr : circle.radius * circle.radius < 2 ^ 31)
    (hx : -(2 ^ 31) ≤ circle.x - circle.radius ∧ circle.x + circle.radius < 2 ^ 31)
    (hy : -(2 ^ 31) ≤ circle.y - circle.radius ∧ circle.y + circle.radius < 2 ^ 31) :
    (∀ w ∈ draw_circle_calls W H circle,
      w.color = to_u32 circle.color ∧ w.column < W ∧ w.row < H ∧
      ∃ dx : Nat, (dx : Int) < circle.radius ∧
        ((w.column : Int) = circle.x + dx ∨ (w.column : Int) = circle.x - dx) ∧
        circle.y - (Nat.sqrt (circle.radius * circle.radius - (dx : Int) * dx).toNat : Int)
          < w.row ∧
        (w.row : Int) <
          circle.y + (Nat.sqrt (circle.radius * circle.radius - (dx : Int) * dx).toNat : Int)) ∧
    (∀ dx column row : Nat, (dx : Int) < circle.radius → column < W → row < H →
      ((column : Int) = circle.x + dx ∨ ((column : Int) = circle.x - dx ∧ 0 < column)) →
      circle.y - (Nat.sqrt (circle.radius * circle.radius - (dx : Int) * dx).toNat : Int)
        < row →
      (row : Int) <
        circle.y + (Nat.sqrt (circle.radius * circle.radius - (dx : Int) * dx).toNat : Int) →
      (⟨column, row, to_u32 circle.color⟩ : PixelWrite) ∈ draw_circle_calls W H circle) ∧
    (circle.radius ≤ 0 → draw_circle_calls W H circle = []) := by
  refine ⟨?_, ?_, ?_⟩
  · intro w hw
    rw [draw_circle_calls_eq, mem_circle_calls] at hw
    obtain ⟨index_x, hix, index_y, hiy, h⟩ := hw
    rw [circle_radicand_eq _ _ hr hix] at hiy
    have hrad : 0 ≤ circle.radius := by omega
    have hle := floor_sqrt_le_radius circle.radius index_x hrad
    rw [floor_sqrt_eq] at hiy hle
    have key : ∀ column : Int, 0 ≤ column → column < W → column < 2 ^ 31 →
        (column = circle.x + index_x ∨ column = circle.x - index_x) →
        w ∈ circle_pair_calls H column circle.y circle.color index_y →
        w.color = to_u32 circle.color ∧ w.column < W ∧ w.row < H ∧
        ∃ dx : Nat, (dx : Int) < circle.radius ∧
          ((w.column : Int) = circle.x + dx ∨ (w.column : Int) = circle.x - dx) ∧
          circle.y - (Nat.sqrt (circle.radius * circle.radius - (dx : Int) * dx).toNat : Int)
            < w.row ∧
          (w.row : Int) < circle.y +
            (Nat.sqrt (circle.radius * circle.radius - (dx : Int) * dx).toNat : Int) := by
      intro column hc0 hcW hc31 hcol hmem
      have hcu : to_u32 column = column.toNat := by
        have := to_u32_natCast column.toNat (by omega)
        rwa [Int.toNat_of_nonneg hc0] at this
      rw [mem_circle_pair_calls] at hmem
      rcases hmem with ⟨⟨h1, h2⟩, rfl⟩ | ⟨⟨h1, h2⟩, rfl⟩
      · have hru : to_u32 (circle.y + index_y) = (circle.y + index_y).toNat := by
          have := to_u32_natCast (circle.y + index_y).toNat (by omega)
          rwa [Int.toNat_of_nonneg h1] at this
        simp only [hcu, hru]
        refine ⟨trivial, by omega, by omega, index_x, hix, ?_, ?_, ?_⟩
        · rw [Int.toNat_of_nonneg hc0]; exact hcol
        · rw [Int.toNat_of_nonneg h1]; omega
        · rw [Int.toNat_of_nonneg h1]; omega
      · have hru : to_u32 (circle.y - index_y) = (circle.y - index_y).toNat := by
          have := to_u32_natCast (circle.y - index_y).toNat (by omega)
          rwa [Int.toNat_of_nonneg h1] at this
        simp only [hcu, hru]
        refine ⟨trivial, by omega, by omega, index_x, hix, ?_, ?_, ?_⟩
        · rw [Int.toNat_of_nonneg hc0]; exact hcol
        · rw [Int.toNat_of_nonneg h1]; omega
        · rw [Int.toNat_of_nonneg h1]; omega
    rcases h with ⟨⟨hc1, hc2⟩, hmem⟩ | ⟨⟨hc1, hc2⟩, hmem⟩
    · exact key _ hc1 hc2 (by omega) (Or.inl rfl) hmem
    · exact key _ (by omega) hc2 (by omega) (Or.inr rfl) hmem
  · intro dx column row hdx hcol hrow hcase hlow hhigh
    rw [draw_circle_calls_eq, mem_circle_calls]
    have hrad : 0 ≤ circle.radius := by omega
    have hle := floor_sqrt_le_radius circle.radius dx hrad
    rw [floor_sqrt_eq] at hle
    refine ⟨dx, hdx, (row - circle.y).natAbs, ?_, ?_⟩
    · rw [circle_radicand_eq _ _ hr hdx, floor_sqrt_eq]; omega
    · have hcu : to_u32 (column : Int) = column := to_u32_natCast column (by omega)
      have hru : to_u32 (row : Int) = row := to_u32_natCast row (by omega)
      have hpair : (⟨column, row, to_u32 circle.color⟩ : PixelWrite) ∈
          circle_pair_calls H (column : Int) circle.y circle.color
            (row - circle.y).natAbs := by
        rw [mem_circle_pair_calls]
        by_cases hge : circle.y ≤ row
        · left
          have e : circle.y + ((row - circle.y).natAbs : Int) = row := by omega
          rw [e, hcu, hru]
          exact ⟨⟨by omega, by omega⟩, rfl⟩
        · right
          have e : circle.y - ((row - circle.y).natAbs : Int) = row := by omega
          rw [e, hcu, hru]
          exact ⟨⟨by omega, by omega⟩, rfl⟩
      rcases hcase with hc | ⟨hc, hpos⟩
      · left
        rw [← hc]
        exact ⟨⟨by omega, by omega⟩, hpair⟩
      · right
        rw [← hc]
        exact ⟨⟨by omega, by omega⟩, hpair⟩
  · intro h
    rw [draw_circle_calls_eq]
    unfold circle_calls
    rw [Int.toNat_eq_zero.mpr h]
    rfl

theorem draw_circle_calls_spans_witness :
    (∀ w ∈ draw_circle_calls 10 10 { id := 2, color := 0x00ff00, x := 5, y := 5, radius := 2 },
      w.color = to_u32 (0x00ff00 : Int) ∧ w.column < 10 ∧ w.row < 10 ∧
      ∃ dx : Nat, (dx : Int) < 2 ∧
        ((w.column : Int) = 5 + dx ∨ (w.column : Int) = 5 - dx) ∧
        5 - (Nat.sqrt ((2 : Int) * 2 - (dx : Int) * dx).toNat : Int) < w.row ∧
        (w.row : Int) < 5 + (Nat.sqrt ((2 : Int) * 2 - (dx : Int) * dx).toNat : Int)) ∧
    (∀ dx column row : Nat, (dx : Int) < 2 → column < 10 → row < 10 →
      ((column : Int) = 5 + dx ∨ ((column : Int) = 5 - dx ∧ 0 < column)) →
      5 - (Nat.sqrt ((2 : Int) * 2 - (dx : Int) * dx).toNat : Int) < row →
      (row : Int) < 5 + (Nat.sqrt ((2 : Int) * 2 - (dx : Int) * dx).toNat : Int) →
      (⟨column, row, to_u32 (0x00ff00 : Int)⟩ : PixelWrite) ∈
        draw_circle_calls 10 10 { id := 2, color := 0x00ff00, x := 5, y := 5, radius := 2 }) ∧
    ((2 : Int) ≤ 0 →
      draw_circle_calls 10 10 { id := 2, color := 0x00ff00, x := 5, y := 5, radius := 2 }
        = []) :=
  draw_circle_calls_spans 10 10 { id := 2, color := 0x00ff00, x := 5, y := 5, radius := 2 }
    (by decide) (by decide) (by decide)

theorem circle_calls_color (W H : Nat) (circle : Circle) (w : PixelWrite)
    (h : w ∈ circle_calls W H circle) : w.color = to_u32 circle.color := by
  rw [mem_circle_calls] at h
  obtain ⟨index_x, _, index_y, _, h⟩ := h
  rcases h with ⟨_, h⟩ | ⟨_, h⟩ <;>
  · rw [mem_circle_pair_calls] at h
    rcases h with ⟨_, rfl⟩ | ⟨_, rfl⟩ <;> rfl

set_option maxRecDepth 100000 in
/-- C17, as amended. The example scene parses to two commands with the ids 1 and 2 in this
order; on the canvas of 10 by 10 pixels, set white, `draw_command` succeeds for both, and the
pixel that the write primitive addresses as column 5, row 5 is pure green afterwards. In
general, for a pixel buffer of `W` by `H` pixels below `2^31` bytes and a circle of radius at
least 1 with `r * r` in the range of `int`, whose centre lies on the canvas at a row from
1 on, `draw_command` succeeds, one of the calls of the write primitive is for the centre,
and the centre pixel holds the 24 bits of the circle's color afterwards. -/
theorem draw_circle_centre :
    (parse_file (some example_scene) = some (FileOutcome.success example_commands) ∧
      example_commands.map (fun comm => comm.id) = [1, 2]) ∧
    (∃ white red green,
      main_pixel_buffer 10 10 [] = Outcome.ok white ∧
      draw_command (some white) example_commands[0]? = Outcome.ok red ∧
      draw_command (some red) example_commands[1]? = Outcome.ok green ∧
      main_pixel_buffer 10 10 example_commands = Outcome.ok green ∧
      pixel_at green 5 5 = some 0x00ff00) ∧
    (∀ (W H : Nat) (pix_buffer : PixelBuffer) (circle : Circle),
      is_pixel_buffer W H pix_buffer → rowStride W * H < 2 ^ 31 →
      1 ≤ circle.radius → circle.radius * circle.radius < 2 ^ 31 →
      0 ≤ circle.x → circle.x < W → 1 ≤ circle.y → circle.y < H →
      draw_command (some pix_buffer)
          (some { shape := SH_CIRCLE, id := circle.id, obj := some (Obj.circle circle) }) =
        Outcome.ok (draw_circle pix_buffer circle) ∧
      (⟨circle.x.toNat, circle.y.toNat, to_u32 circle.color⟩ : PixelWrite) ∈
        draw_circle_calls W H circle ∧
      pixel_at (draw_circle pix_buffer circle) circle.x.toNat circle.y.toNat =
        some (to_u32 circle.color % 2 ^ 24)) := by
  refine ⟨by decide, ?_, ?_⟩
  · refine ⟨_, _, _, rfl, rfl, rfl, by decide, ?_⟩
    simp only [pixel_at, rowStride_eq]
    decide
  · intro W H pix_buffer circle hbuf hsize hr hsquare hx0 hxW hy1 hyH
    have hS : W * 3 ≤ rowStride W := by rw [rowStride_eq]; omega
    have h3 : 1 * rowStride W ≤ H * rowStride W := Nat.mul_le_mul_right _ (by omega)
    have h4 : rowStride W * H = H * rowStride W := Nat.mul_comm _ _
    have h5 : H ≤ H * rowStride W := Nat.le_mul_of_pos_right _ (by omega)
    have hmem : (⟨circle.x.toNat, circle.y.toNat, to_u32 circle.color⟩ : PixelWrite) ∈
        draw_circle_calls W H circle := by
      rw [draw_circle_calls_eq, mem_circle_calls]
      refine ⟨0, by omega, 0, ?_, Or.inl ⟨?_, ?_⟩⟩
      · rw [circle_radicand_eq _ _ hsquare (by omega), floor_sqrt_eq, Nat.sqrt_pos]
        have : 1 ≤ circle.radius * circle.radius := by nlinarith
        simp only [Nat.cast_zero, mul_zero, sub_zero]
        omega
      · simp only [Nat.cast_zero, add_zero]
        exact ⟨hx0, hxW⟩
      · rw [mem_circle_pair_calls]
        left
        simp only [Nat.cast_zero, add_zero]
        refine ⟨⟨by omega, hyH⟩, ?_⟩
        have hxu := to_u32_natCast circle.x.toNat (by omega)
        have hyu := to_u32_natCast circle.y.toNat (by omega)
        rw [Int.toNat_of_nonneg hx0] at hxu
        rw [Int.toNat_of_nonneg (by omega)] at hyu
        rw [hxu, hyu]
    refine ⟨rfl, hmem, ?_⟩
    rw [draw_circle_eq, hbuf.1, hbuf.2.1]
    apply pixel_at_apply_writes W H _ _ _ hsize (by omega) (by omega) (by omega) _ _ hbuf
    · intro w hw
      rw [draw_circle_calls_eq] at hw
      exact circle_calls_color W H circle w hw
    · exact Or.inl hmem

theorem draw_circle_centre_witness :
    draw_command
        (some { data := List.replicate 48 0, data_size := 48, width := 4, height := 4 })
        (some { shape := SH_CIRCLE, id := 7,
                obj := some (Obj.circle
                  { id := 7, color := 0x336699, x := 2, y := 1, radius := 3 }) }) =
      Outcome.ok (draw_circle
        { data := List.replicate 48 0, data_size := 48, width := 4, height := 4 }
        { id := 7, color := 0x336699, x := 2, y := 1, radius := 3 }) ∧
    (⟨(2 : Int).toNat, (1 : Int).toNat, to_u32 (0x336699 : Int)⟩ : PixelWrite) ∈
      draw_circle_calls 4 4 { id := 7, color := 0x336699, x := 2, y := 1, radius := 3 } ∧
    pixel_at (draw_circle
        { data := List.replicate 48 0, data_size := 48, width := 4, height := 4 }
        { id := 7, color := 0x336699, x := 2, y := 1, radius := 3 })
        (2 : Int).toNat (1 : Int).toNat = some (to_u32 (0x336699 : Int) % 2 ^ 24) :=
  draw_circle_centre.2.2 4 4
    { data := List.replicate 48 0, data_size := 48, width := 4, height := 4 }
    { id := 7, color := 0x336699, x := 2, y := 1, radius := 3 }
    ⟨rfl, rfl, by rw [rowStride_eq]; rfl, by rw [rowStride_eq]; rfl⟩
    (by rw [rowStride_eq]; decide) (by decide) (by decide) (by decide) (by decide) (by decide)
    (by decide)

/-! ## The tokenizer -/

/-- The list after `linked_list_append` - the element after the first 10001 is dropped. -/
theorem insert_split_to_list_eq (split : List Str) (part : Str) (h : part ≠ []) :
    insert_split_to_list split part =
      (PARSE_SUCCESS, split.take (LINKED_LIST_MAX_LIST_SIZE + 1) ++ [part]) := by
  have hlen : part.length > 0 := List.length_pos.mpr h
  simp [insert_split_to_list, hlen, linked_list_append_eq]

theorem split_line_loop_nil (part : Str) (split : List Str) :
    split_line_loop [] part split =
      some (if part ≠ [] then split.take (LINKED_LIST_MAX_LIST_SIZE + 1) ++ [part]
        else split) := by
  simp only [split_line_loop, split_line_insert_last_part_eq]
  rfl

theorem split_line_loop_space (line part : Str) (split : List Str) :
    split_line_loop (' ' :: line) part split =
      split_line_loop line []
        (if part ≠ [] then split.take (LINKED_LIST_MAX_LIST_SIZE + 1) ++ [part]
          else split) := by
  rw [split_line_loop]
  rw [if_neg (by decide), if_pos rfl]
  simp only [split_line_insert_last_part_eq]
  rfl

theorem split_line_loop_equal (line part : Str) (split : List Str) :
    split_line_loop ('=' :: line) part split =
      split_line_loop line []
        ((if part ≠ [] then split.take (LINKED_LIST_MAX_LIST_SIZE + 1) ++ [part]
          else split).take (LINKED_LIST_MAX_LIST_SIZE + 1) ++ [['=']]) := by
  rw [split_line_loop]
  rw [if_neg (by decide), if_neg (by decide), if_pos rfl]
  simp only [split_line_insert_last_part_eq, insert_split_to_list_eq _ ['='] (by decide)]
  rfl

theorem split_line_loop_plain (c : Char) (line part : Str) (split : List Str)
    (h1 : in_line c = true) (h2 : is_plain c = true) :
    split_line_loop (c :: line) part split = split_line_loop line (part ++ [c]) split := by
  simp only [in_line, is_plain, decide_eq_true_eq] at h1 h2
  rw [split_line_loop]
  rw [if_neg (by rintro (h | h); exact h1.1 h; exact h1.2 h), if_neg h2.1, if_neg h2.2]

/-- A run of characters other than space and `=` is added to the part in progress. -/
theorem split_line_loop_run (run rest part : Str) (split : List Str)
    (h : ∀ c ∈ run, in_line c = true ∧ is_plain c = true) :
    split_line_loop (run ++ rest) part split = split_line_loop rest (part ++ run) split := by
  induction run generalizing part with
  | nil => simp
  | cons c run ih =>
    rw [List.cons_append, split_line_loop_plain c _ _ _ (h c (List.mem_cons_self _ _)).1
      (h c (List.mem_cons_self _ _)).2, ih _ (fun d hd => h d (List.mem_cons_of_mem _ hd))]
    simp

/-- The loop of `split_line` stops at the first newline or NUL. -/
theorem split_line_loop_content (line part : Str) (split : List Str) :
    split_line_loop line part split = split_line_loop (line_content line) part split := by
  induction line generalizing part split with
  | nil => rfl
  | cons c line ih =>
    unfold line_content at ih ⊢
    by_cases hc : in_line c = true
    · rw [List.takeWhile_cons_of_pos hc]
      have hc2 := hc
      simp only [in_line, decide_eq_true_eq] at hc2
      have hn : ¬ (c = Char.ofNat 0 ∨ c = '\n') := by
        rintro (h | h); exact hc2.1 h; exact hc2.2 h
      rw [split_line_loop, split_line_loop]
      simp only [if_neg hn, ih]
    · rw [List.takeWhile_cons_of_neg hc]
      simp only [in_line, decide_eq_true_eq, not_and_or, not_not] at hc
      simp only [split_line_loop, if_pos hc]

theorem token_runs_fuel_nil (fuel : Nat) : token_runs_fuel fuel [] = [] := by
  cases fuel <;> rfl

/-- The loop of `split_line` appends the tokens of the text to the list, one call of
`linked_list_append` for each. -/
theorem split_line_loop_eq_token_runs (fuel : Nat) :
    ∀ (s : Str) (split : List Str), s.length ≤ fuel → (∀ c ∈ s, in_line c = true) →
      split_line_loop s [] split =
        some ((token_runs_fuel fuel s).foldl
          (fun l t => l.take (LINKED_LIST_MAX_LIST_SIZE + 1) ++ [t]) split) := by
  induction fuel with
  | zero =>
    intro s split hlen _
    have : s = [] := List.length_eq_zero.mp (by omega)
    subst this
    rw [split_line_loop_nil]
    rfl
  | succ fuel ih =>
    intro s split hlen hin
    cases s with
    | nil =>
      rw [split_line_loop_nil]
      rfl
    | cons c s =>
      have hlen2 : s.length ≤ fuel := by simpa using hlen
      have hin2 : ∀ d ∈ s, in_line d = true := fun d hd => hin d (List.mem_cons_of_mem _ hd)
      by_cases h1 : c = ' '
      · subst h1
        rw [split_line_loop_space, token_runs_fuel, if_pos rfl]
        exact ih s split hlen2 hin2
      · by_cases h2 : c = '='
        · subst h2
          rw [split_line_loop_equal, token_runs_fuel, if_neg h1, if_pos rfl,
            List.foldl_cons]
          exact ih s _ hlen2 hin2
        · have hplain : is_plain c = true := by
            simp only [is_plain, decide_eq_true_eq]
            exact ⟨h1, h2⟩
          rw [token_runs_fuel, if_neg h1, if_neg h2, List.foldl_cons,
            split_line_loop_plain c s [] split (hin c (List.mem_cons_self _ _)) hplain]
          have hsplit : s = s.takeWhile is_plain ++ s.dropWhile is_plain :=
            (List.takeWhile_append_dropWhile _ _).symm
          have hrun : ∀ d ∈ s.takeWhile is_plain, in_line d = true ∧ is_plain d = true :=
            fun d hd => ⟨hin2 d ((List.takeWhile_sublist is_plain).subset hd), List.mem_takeWhile_imp hd⟩
          have hdrop_len : (s.dropWhile is_plain).length ≤ fuel := by
            have := congrArg List.length hsplit
            rw [List.length_append] at this
            omega
          have hdrop_in : ∀ d ∈ s.dropWhile is_plain, in_line d = true :=
            fun d hd => hin2 d ((List.dropWhile_sublist is_plain).subset hd)
          conv_lhs => rw [hsplit]
          rw [split_line_loop_run _ _ _ _ hrun, List.nil_append, List.singleton_append,
            ← ih _ _ hdrop_len hdrop_in]
          cases hd : s.dropWhile is_plain with
          | nil =>
            rw [split_line_loop_nil, split_line_loop_nil]
            simp
          | cons d rest =>
            have hnp : ¬ is_plain d = true := by
              have := List.head_dropWhile_not is_plain s (by rw [hd]; exact List.cons_ne_nil _ _)
              simpa [hd] using this
            simp only [is_plain, decide_eq_true_eq, not_and_or, not_not] at hnp
            rcases hnp with h | h
            · subst h
              rw [split_line_loop_space, split_line_loop_space]
              simp
            · subst h
              rw [split_line_loop_equal, split_line_loop_equal]
              simp

theorem split_line_eq_token_runs (line : Str) :
    split_line line =
      some ((token_runs line).foldl
        (fun l t => l.take (LINKED_LIST_MAX_LIST_SIZE + 1) ++ [t]) []) := by
  unfold split_line token_runs
  rw [split_line_loop_content]
  exact split_line_loop_eq_token_runs _ _ _ (Nat.le_refl _)
    (fun c hc => List.mem_takeWhile_imp hc)

theorem foldl_append_bounded {α : Type} (n : Nat) (toks init : List α)
    (h : init.length + toks.length ≤ n + 1) :
    toks.foldl (fun l t => l.take n ++ [t]) init = init ++ toks := by
  induction toks generalizing init with
  | nil => simp
  | cons t toks ih =>
    rw [List.foldl_cons, List.take_of_length_le (by simp at h; omega), ih]
    · simp
    · simp at h ⊢; omega

theorem foldl_append_length {α : Type} (n : Nat) (toks init : List α) :
    (toks.foldl (fun l t => l.take n ++ [t]) init).length ≤ max init.length (n + 1) := by
  induction toks generalizing init with
  | nil => simp
  | cons t toks ih =>
    rw [List.foldl_cons]
    refine (ih _).trans ?_
    simp only [List.length_append, List.length_take, List.length_singleton]
    omega

theorem token_runs_fuel_props (fuel : Nat) :
    ∀ (s : Str), ∀ t ∈ token_runs_fuel fuel s, t ≠ [] ∧ ' ' ∉ t ∧ (t = ['='] ∨ '=' ∉ t) := by
  induction fuel with
  | zero => intro s t ht; exact absurd ht (List.not_mem_nil _)
  | succ fuel ih =>
    intro s t ht
    cases s with
    | nil => exact absurd ht (List.not_mem_nil _)
    | cons c s =>
      rw [token_runs_fuel] at ht
      by_cases h1 : c = ' '
      · rw [if_pos h1] at ht
        exact ih s t ht
      · rw [if_neg h1] at ht
        by_cases h2 : c = '='
        · rw [if_pos h2] at ht
          rcases List.mem_cons.mp ht with h | h
          · subst h
            exact ⟨by decide, by decide, Or.inl rfl⟩
          · exact ih s t h
        · rw [if_neg h2] at ht
          rcases List.mem_cons.mp ht with h | h
          · subst h
            have hrun : ∀ d ∈ s.takeWhile is_plain, d ≠ ' ' ∧ d ≠ '=' := by
              intro d hd
              have := List.mem_takeWhile_imp hd
              simpa only [is_plain, decide_eq_true_eq] using this
            refine ⟨List.cons_ne_nil _ _, ?_, Or.inr ?_⟩
            · intro hmem
              rcases List.mem_cons.mp hmem with h | h
              · exact h1 h.symm
              · exact (hrun _ h).1 rfl
            · intro hmem
              rcases List.mem_cons.mp hmem with h | h
              · exact h2 h.symm
              · exact (hrun _ h).2 rfl
          · exact ih _ t h

theorem token_runs_fuel_flatten (fuel : Nat) :
    ∀ (s : Str), s.length ≤ fuel →
      (token_runs_fuel fuel s).flatten = s.filter (fun c => decide (c ≠ ' ')) := by
  induction fuel with
  | zero =>
    intro s hlen
    have : s = [] := List.length_eq_zero.mp (by omega)
    subst this
    rfl
  | succ fuel ih =>
    intro s hlen
    cases s with
    | nil => rfl
    | cons c s =>
      have hlen2 : s.length ≤ fuel := by simpa using hlen
      rw [token_runs_fuel]
      by_cases h1 : c = ' '
      · rw [if_pos h1, ih s hlen2, List.filter_cons_of_neg (by simp [h1])]
      · rw [if_neg h1, List.filter_cons_of_pos (by simp [h1])]
        by_cases h2 : c = '='
        · rw [if_pos h2, List.flatten_cons, ih s hlen2, h2]
          rfl
        · rw [if_neg h2, List.flatten_cons]
          have hsplit : s = s.takeWhile is_plain ++ s.dropWhile is_plain :=
            (List.takeWhile_append_dropWhile _ _).symm
          have hdrop_len : (s.dropWhile is_plain).length ≤ fuel := by
            have := congrArg List.length hsplit
            rw [List.length_append] at this
            omega
          rw [ih _ hdrop_len]
          conv_rhs => rw [hsplit, List.filter_append]
          have hrun : (s.takeWhile is_plain).filter (fun c => decide (c ≠ ' ')) =
              s.takeWhile is_plain := by
            apply List.filter_eq_self.mpr
            intro d hd
            have := List.mem_takeWhile_imp hd
            simp only [is_plain, decide_eq_true_eq] at this
            simp [this.1]
          rw [hrun]
          rfl

theorem token_runs_fuel_equal_signs (n fuel : Nat) (h : n ≤ fuel) :
    token_runs_fuel fuel (List.replicate n '=') = List.replicate n ['='] := by
  induction n generalizing fuel with
  | zero => exact token_runs_fuel_nil fuel
  | succ n ih =>
    cases fuel with
    | zero => omega
    | succ fuel =>
      rw [List.replicate_succ, token_runs_fuel, if_neg (by decide), if_pos rfl,
        ih fuel (by omega), List.replicate_succ]

theorem token_runs_equal_signs (n : Nat) :
    token_runs (List.replicate n '=') = List.replicate n ['='] := by
  have h : line_content (List.replicate n '=') = List.replicate n '=' := by
    unfold line_content
    apply List.takeWhile_eq_self_iff.mpr
    intro c hc
    rw [List.eq_of_mem_replicate hc]
    decide
  unfold token_runs
  rw [h]
  exact token_runs_fuel_equal_signs n _ (by simp)

/-- The claim C19 holds for lines of up to 10002 tokens only: for the line of 10003 equal
signs, whose tokens are 10003 equal signs, `split_line` returns a list of at most 10002
tokens (`linked_list_append` replaces what follows element 10000 of a longer list). -/
theorem split_line_equal_signs :
    token_runs (List.replicate 10003 '=') = List.replicate 10003 ['='] ∧
    ∃ split, split_line (List.replicate 10003 '=') = some split ∧ split.length ≤ 10002 ∧
      split ≠ token_runs (List.replicate 10003 '=') := by
  refine ⟨token_runs_equal_signs _, _, split_line_eq_token_runs _, ?_⟩
  have hlen := foldl_append_length (LINKED_LIST_MAX_LIST_SIZE + 1)
    (token_runs (List.replicate 10003 '=')) []
  have hmax : max ([] : List Str).length (LINKED_LIST_MAX_LIST_SIZE + 1 + 1) = 10002 := by
    decide
  rw [hmax] at hlen
  refine ⟨hlen, ?_⟩
  intro heq
  rw [heq, token_runs_equal_signs, List.length_replicate] at hlen
  omega

/-- C19, amended. For every line with at most 10002 tokens, `split_line` returns, in order,
the maximal runs of characters other than space and `=` (up to the first newline or the end
of the string), with every `=` as a token of its own; no token is empty, no token holds a
space, a token is `=` or holds no `=`, and the tokens together are the characters of the
line other than spaces; `x=10` yields the tokens `x`, `=`, `10`. -/
theorem split_line_token_runs (line : Str)
    (h : (token_runs line).length ≤ LINKED_LIST_MAX_LIST_SIZE + 2) :
    split_line line = some (token_runs line) ∧
    (∀ t ∈ token_runs line, t ≠ [] ∧ ' ' ∉ t ∧ (t = ['='] ∨ '=' ∉ t)) ∧
    (token_runs line).flatten = (line_content line).filter (fun c => decide (c ≠ ' ')) ∧
    split_line "x=10".toList = some ["x".toList, "=".toList, "10".toList] := by
  refine ⟨?_, ?_, ?_, by decide⟩
  · rw [split_line_eq_token_runs, foldl_append_bounded _ _ _ (by simpa using h)]
    rfl
  · exact token_runs_fuel_props _ _
  · exact token_runs_fuel_flatten _ _ (Nat.le_refl _)

theorem split_line_token_runs_witness :
    split_line "circle  id=\"2\"\n".toList = some (token_runs "circle  id=\"2\"\n".toList) ∧
    (∀ t ∈ token_runs "circle  id=\"2\"\n".toList,
      t ≠ [] ∧ ' ' ∉ t ∧ (t = ['='] ∨ '=' ∉ t)) ∧
    (token_runs "circle  id=\"2\"\n".toList).flatten =
      (line_content "circle  id=\"2\"\n".toList).filter (fun c => decide (c ≠ ' ')) ∧
    split_line "x=10".toList = some ["x".toList, "=".toList, "10".toList] :=
  split_line_token_runs "circle  id=\"2\"\n".toList (by decide)

/-! ## The scene parser: the order of the groups -/

theorem group_parts_cons (g : Str × Str) (groups : List (Str × Str)) :
    group_parts (g :: groups) = g.1 :: ['='] :: g.2 :: group_parts groups := by
  simp [group_parts]

/-- The property loop succeeds on the parts of a list of groups exactly when every group
stands for a property, and then appends these properties in order. -/
theorem split_to_properties_loop_groups (groups : List (Str × Str)) (list props : List Property) :
    split_to_properties_loop (group_parts groups) list = Outcome.ok props ↔
      ∃ ps, groups.map group_property = ps.map some ∧ props = list ++ ps := by
  induction groups generalizing list with
  | nil =>
    simp only [group_parts, List.flatMap_nil, split_to_properties_loop, List.map_nil]
    constructor
    · intro h
      injection h with h
      exact ⟨[], rfl, by simp [h]⟩
    · rintro ⟨ps, hps, rfl⟩
      have : ps = [] := by
        cases ps with
        | nil => rfl
        | cons p ps => simp at hps
      simp [this]
  | cons g groups ih =>
    rw [group_parts_cons]
    simp only [split_to_properties_loop, List.map_cons]
    by_cases hlen : g.1.length + 1 ≥ PARSE_MAX_PROPERTY_NAME_LENGTH
    · have hg : group_property g = none := by simp only [group_property, if_pos hlen]
      simp only [if_pos hlen, hg]
      constructor
      · intro h; exact absurd h (by simp)
      · rintro ⟨ps, hps, _⟩
        cases ps <;> simp at hps
    · simp only [if_neg hlen, ne_eq, not_true_eq_false, if_false]
      cases hconv : convert_to_value g.2 (if g.1 = "color".toList then 16 else 10) with
      | error ret =>
        have hg : group_property g = none := by
          simp only [group_property, if_neg hlen, property_base, hconv]
        simp only [hg]
        constructor
        · intro h; exact absurd h (by simp)
        · rintro ⟨ps, hps, _⟩
          cases ps <;> simp at hps
      | undefined =>
        have hg : group_property g = none := by
          simp only [group_property, if_neg hlen, property_base, hconv]
        simp only [hg]
        constructor
        · intro h; exact absurd h (by simp)
        · rintro ⟨ps, hps, _⟩
          cases ps <;> simp at hps
      | ok value =>
        have hg : group_property g = some { name := g.1, value := value } := by
          simp only [group_property, if_neg hlen, property_base, hconv]
        simp only [list_append_eq, ne_eq, not_true_eq_false, if_false, hg]
        rw [ih]
        constructor
        · rintro ⟨ps, hps, rfl⟩
          exact ⟨{ name := g.1, value := value } :: ps, by simp [hps], by simp⟩
        · rintro ⟨ps, hps, rfl⟩
          cases ps with
          | nil => simp at hps
          | cons p ps =>
            simp only [List.map_cons, List.cons.injEq, Option.some.injEq] at hps
            exact ⟨ps, hps.2, by simp [← hps.1]⟩

theorem split_to_properties_loop_parts_aux (n : Nat) :
    ∀ (parts : List Str) (list props : List Property), parts.length ≤ n →
      split_to_properties_loop parts list = Outcome.ok props →
      ∃ groups, parts = group_parts groups := by
  induction n with
  | zero =>
    intro parts list props hlen _
    have : parts = [] := List.length_eq_zero.mp (by omega)
    exact ⟨[], by simp [this, group_parts]⟩
  | succ n ih =>
    intro parts list props hlen h
    match parts, hlen, h with
    | [], _, _ => exact ⟨[], by simp [group_parts]⟩
    | [_], _, h =>
      simp only [split_to_properties_loop] at h
      split at h <;> exact absurd h (by simp)
    | [_, _], _, h =>
      simp only [split_to_properties_loop] at h
      split at h
      · exact absurd h (by simp)
      · split at h <;> exact absurd h (by simp)
    | name :: equal_sign :: value_string :: rest, hlen, h =>
      simp only [split_to_properties_loop] at h
      split at h
      · exact absurd h (by simp)
      · split at h
        · exact absurd h (by simp)
        · rename_i heq
          simp only [ne_eq, not_not] at heq
          split at h
          · exact absurd h (by simp)
          · exact absurd h (by simp)
          · simp only [list_append_eq, ne_eq, not_true_eq_false, if_false] at h
            obtain ⟨groups, hg⟩ := ih rest _ props (by simp at hlen; omega) h
            exact ⟨(name, value_string) :: groups, by rw [group_parts_cons, hg, heq]⟩

/-- The parts that the property loop accepts are the parts of a list of groups. -/
theorem split_to_properties_loop_parts (parts : List Str) (list props : List Property)
    (h : split_to_properties_loop parts list = Outcome.ok props) :
    ∃ groups, parts = group_parts groups :=
  split_to_properties_loop_parts_aux parts.length parts list props (Nat.le_refl _) h

theorem map_eq_map_some {α β : Type} (f : α → Option β) (l : List α) (ps : List β)
    (h : l.map f = ps.map some) : ps = l.filterMap f ∧ ∀ a ∈ l, (f a).isSome = true := by
  induction l generalizing ps with
  | nil =>
    cases ps with
    | nil => exact ⟨rfl, fun a ha => absurd ha (List.not_mem_nil _)⟩
    | cons p ps => simp at h
  | cons a l ih =>
    cases ps with
    | nil => simp at h
    | cons p ps =>
      simp only [List.map_cons, List.cons.injEq] at h
      obtain ⟨h1, h2⟩ := ih ps h.2
      refine ⟨?_, ?_⟩
      · rw [List.filterMap_cons, h.1, ← h1]
      · intro b hb
        rcases List.mem_cons.mp hb with rfl | hb
        · rw [h.1]; rfl
        · exact h2 b hb

theorem map_filterMap_some {α β : Type} (f : α → Option β) (l : List α)
    (h : ∀ a ∈ l, (f a).isSome = true) : l.map f = (l.filterMap f).map some := by
  induction l with
  | nil => rfl
  | cons a l ih =>
    have ha := h a (List.mem_cons_self _ _)
    obtain ⟨b, hb⟩ := Option.isSome_iff_exists.mp ha
    rw [List.filterMap_cons, hb, List.map_cons, List.map_cons, hb,
      ih (fun c hc => h c (List.mem_cons_of_mem _ hc))]

theorem group_property_name (g : Str × Str) (p : Property) (h : group_property g = some p) :
    p.name = g.1 := by
  unfold group_property at h
  split at h
  · exact absurd h (by simp)
  · split at h
    · injection h with h
      rw [← h]
    · exact absurd h (by simp)

theorem filterMap_group_property_names (groups : List (Str × Str))
    (h : ∀ g ∈ groups, (group_property g).isSome = true) :
    (groups.filterMap group_property).map (fun p => p.name) = groups.map Prod.fst := by
  induction groups with
  | nil => rfl
  | cons g groups ih =>
    obtain ⟨p, hp⟩ := Option.isSome_iff_exists.mp (h g (List.mem_cons_self _ _))
    rw [List.filterMap_cons, hp, List.map_cons, List.map_cons,
      ih (fun c hc => h c (List.mem_cons_of_mem _ hc)), group_property_name g p hp]

/-- The value found for a name does not depend on the order of the properties when their
names are pairwise distinct. -/
theorem find_property_perm (l1 l2 : List Property) (name : Str) (hperm : l1.Perm l2)
    (hnodup : (l1.map (fun p => p.name)).Nodup) :
    find_property l1 name = find_property l2 name := by
  induction hperm with
  | nil => rfl
  | cons x _ ih =>
    simp only [find_property]
    rw [ih (List.nodup_cons.mp hnodup).2]
  | swap x y l =>
    simp only [find_property]
    by_cases hx : x.name = name <;> by_cases hy : y.name = name
    · exfalso
      simp only [List.map_cons, List.nodup_cons, List.mem_cons] at hnodup
      exact hnodup.1 (Or.inl (hy.trans hx.symm))
    · simp only [hx, hy, if_true, if_false]
    · simp only [hx, hy, if_true, if_false]
    · simp only [hx, hy, if_false]
  | trans h12 _ ih1 ih2 =>
    rw [ih1 hnodup]
    exact ih2 (((h12.map _).nodup_iff).mp hnodup)

/-- The command depends on the properties after the keyword only through the values found
for the names. -/
theorem properties_to_command_congr (keyword : Property) (l1 l2 : List Property)
    (h : ∀ name, find_property l1 name = find_property l2 name) :
    properties_to_command (keyword :: l1) = properties_to_command (keyword :: l2) := by
  simp only [properties_to_command, list_get, List.length_cons, ge_iff_le, nonpos_iff_eq_zero,
    Nat.add_one_ne_zero, if_false, List.get?_cons_zero, find_property, h]

theorem split_to_properties_cons (keyword : Str) (parts : List Str) :
    split_to_properties (keyword :: parts) =
      if keyword.length + 1 ≥ PARSE_MAX_PROPERTY_NAME_LENGTH then
        Outcome.error PARSE_ERR_PROPERTY_NAME_TOO_LONG
      else split_to_properties_loop parts [{ name := keyword, value := 0 }] := by
  have hget : linked_list_get (keyword :: parts) 0 = some keyword := by
    have := linked_list_get_eq (keyword :: parts) 0
    simpa using this
  simp only [split_to_properties, hget, list_append_eq, list_new, List.nil_append, ne_eq,
    not_true_eq_false, if_false, List.drop_succ_cons, List.drop_zero]

/-- C20. For every line that parses successfully, the parts of the line are the shape
keyword and the parts of a list of groups of a name and a value string; and for every such
list of groups with pairwise distinct names, every line whose parts are the same keyword
and the parts of a reordering of the groups parses successfully to the same command. -/
theorem parse_line_reorder (line : Str) (c : Command) (h : parse_line line = Outcome.ok c) :
    (∃ keyword groups, split_line line = some (keyword :: group_parts groups)) ∧
    ∀ (keyword : Str) (groups : List (Str × Str)) (line' : Str) (groups' : List (Str × Str)),
      split_line line = some (keyword :: group_parts groups) →
      split_line line' = some (keyword :: group_parts groups') →
      groups'.Perm groups → (groups.map Prod.fst).Nodup →
      parse_line line' = Outcome.ok c := by
  unfold parse_line at h
  cases hs : split_line line with
  | none => rw [hs] at h; exact absurd h (by simp)
  | some split =>
    rw [hs] at h
    simp only at h
    obtain ⟨props, hprops, hcmd⟩ := (Outcome.bind_eq_ok _ _ _).mp h
    cases split with
    | nil =>
      simp [split_to_properties, linked_list_get, linked_list_find_item] at hprops
    | cons keyword0 parts =>
      rw [split_to_properties_cons] at hprops
      by_cases hlen : keyword0.length + 1 ≥ PARSE_MAX_PROPERTY_NAME_LENGTH
      · rw [if_pos hlen] at hprops
        exact absurd hprops (by simp)
      · rw [if_neg hlen] at hprops
        obtain ⟨groups0, hg0⟩ := split_to_properties_loop_parts _ _ _ hprops
        refine ⟨⟨keyword0, groups0, by rw [hg0]⟩, ?_⟩
        intro keyword groups line' groups' hsplit hsplit' hperm hnodup
        injection hsplit with hsplit
        injection hsplit with hk hp
        subst hk
        rw [hp] at hprops
        obtain ⟨ps, hps, hprops_eq⟩ := (split_to_properties_loop_groups _ _ _).mp hprops
        obtain ⟨hps_eq, hsome⟩ := map_eq_map_some _ _ _ hps
        have hsome' : ∀ g ∈ groups', (group_property g).isSome = true :=
          fun g hg => hsome g (hperm.subset hg)
        have hloop' : split_to_properties_loop (group_parts groups')
            [{ name := keyword0, value := 0 }] =
            Outcome.ok ([{ name := keyword0, value := 0 }] ++ groups'.filterMap group_property) :=
          (split_to_properties_loop_groups _ _ _).mpr
            ⟨_, map_filterMap_some _ _ hsome', rfl⟩
        have hnames' : ((groups'.filterMap group_property).map (fun p => p.name)).Nodup := by
          rw [filterMap_group_property_names _ hsome']
          exact ((hperm.map Prod.fst).nodup_iff).mpr hnodup
        have hfind : ∀ name, find_property (groups'.filterMap group_property) name =
            find_property ps name := by
          intro name
          rw [hps_eq]
          exact find_property_perm _ _ name (hperm.filterMap _) hnames'
        unfold parse_line
        rw [hsplit']
        simp only
        rw [split_to_properties_cons, if_neg hlen, hloop']
        simp only [Outcome.bind, List.singleton_append]
        rw [properties_to_command_congr _ _ _ hfind, ← hcmd, hprops_eq]
        rfl

theorem parse_line_reorder_witness :
    parse_line "circle radius=\"1\" y=\"5\" id=\"2\" x=\"5\" color=\"00ff00\"".toList =
      Outcome.ok { shape := SH_CIRCLE, id := 2,
                   obj := some (Obj.circle
                     { id := 2, color := 0x00ff00, x := 5, y := 5, radius := 1 }) } :=
  (parse_line_reorder "circle id=\"2\" color=\"00ff00\" x=\"5\" y=\"5\" radius=\"1\"".toList
      { shape := SH_CIRCLE, id := 2,
        obj := some (Obj.circle { id := 2, color := 0x00ff00, x := 5, y := 5, radius := 1 }) }
      (by decide)).2
    "circle".toList
    [("id".toList, "\"2\"".toList), ("color".toList, "\"00ff00\"".toList),
     ("x".toList, "\"5\"".toList), ("y".toList, "\"5\"".toList),
     ("radius".toList, "\"1\"".toList)]
    "circle radius=\"1\" y=\"5\" id=\"2\" x=\"5\" color=\"00ff00\"".toList
    [("radius".toList, "\"1\"".toList), ("y".toList, "\"5\"".toList),
     ("id".toList, "\"2\"".toList), ("x".toList, "\"5\"".toList),
     ("color".toList, "\"00ff00\"".toList)]
    (by decide) (by decide) (by decide) (by decide)

/-! ## The scene parser: the last line, names, blank lines and failing lines -/

set_option maxRecDepth 100000 in
/-- C21 fails in the code. A scene whose only line is not ended by a newline does not parse:
`readline` keeps the `EOF` that ends the line in the line buffer, as a character of the last
part of the line, so the last value string does not end with a double quote and `parse_file`
returns `ERR_INVALID_INPUT` for line 1; the same text with a final newline parses to its
command. -/
theorem parse_file_last_line_without_newline :
    readline "radius=\"1\"".toList = some ("radius=\"1\"".toList ++ [EOF_CHAR], []) ∧
    parse_file (some "circle id=\"2\" color=\"00ff00\" x=\"5\" y=\"5\" radius=\"1\"".toList) =
      some (FileOutcome.failure ERR_INVALID_INPUT (Printed.err_msg_invalid_input 1)) ∧
    parse_file (some "circle id=\"2\" color=\"00ff00\" x=\"5\" y=\"5\" radius=\"1\"\n".toList) =
      some (FileOutcome.success
        [{ shape := SH_CIRCLE, id := 2,
           obj := some (Obj.circle
             { id := 2, color := 0x00ff00, x := 5, y := 5, radius := 1 }) }]) := by
  decide

/-! ## The return code of `draw_command` -/

/-- C25. `draw_command` returns `DRAW_ERR_NULL_POINTER_PASSED` when the pixel buffer or the
command is NULL, `DRAW_ERR_COMMAND_INVALID` when the command has no payload or a shape tag
other than those of the three shapes, and `DRAW_SUCCESS` for every rectangle, circle and
triangle command, whatever its geometry and whatever the pixel buffer. -/
theorem draw_command_return_code :
    (∀ comm, draw_command none comm = Outcome.error DRAW_ERR_NULL_POINTER_PASSED) ∧
    (∀ pix_buffer,
      draw_command (some pix_buffer) none = Outcome.error DRAW_ERR_NULL_POINTER_PASSED) ∧
    (∀ pix_buffer shape id,
      draw_command (some pix_buffer) (some { shape := shape, id := id, obj := none }) =
        Outcome.error DRAW_ERR_COMMAND_INVALID) ∧
    (∀ pix_buffer shape id obj,
      shape ≠ SH_RECTANGLE → shape ≠ SH_CIRCLE → shape ≠ SH_TRIANGLE →
      draw_command (some pix_buffer) (some { shape := shape, id := id, obj := some obj }) =
        Outcome.error DRAW_ERR_COMMAND_INVALID) ∧
    (∀ pix_buffer id rectangle,
      draw_command (some pix_buffer)
          (some { shape := SH_RECTANGLE, id := id, obj := some (Obj.rectangle rectangle) }) =
        Outcome.ok (draw_rectangle pix_buffer rectangle)) ∧
    (∀ pix_buffer id circle,
      draw_command (some pix_buffer)
          (some { shape := SH_CIRCLE, id := id, obj := some (Obj.circle circle) }) =
        Outcome.ok (draw_circle pix_buffer circle)) ∧
    (∀ pix_buffer id triangle,
      draw_command (some pix_buffer)
          (some { shape := SH_TRIANGLE, id := id, obj := some (Obj.triangle triangle) }) =
        Outcome.ok (draw_triangle pix_buffer triangle)) ∧
    DRAW_ERR_NULL_POINTER_PASSED ≠ DRAW_SUCCESS ∧ DRAW_ERR_COMMAND_INVALID ≠ DRAW_SUCCESS := by
  refine ⟨fun _ => rfl, fun _ => rfl, fun _ _ _ => rfl, ?_, fun _ _ _ => rfl, fun _ _ _ => rfl,
    fun _ _ _ => rfl, by decide, by decide⟩
  intro pix_buffer shape id obj h0 h1 h2
  simp only [draw_command, if_neg h0, if_neg h1, if_neg h2]

theorem draw_command_return_code_witness :
    draw_command (some { data := [], data_size := 0, width := 0, height := 0 })
        (some { shape := 3, id := 1,
                obj := some (Obj.circle { id := 1, color := 0, x := 0, y := 0, radius := 1 }) }) =
      Outcome.error DRAW_ERR_COMMAND_INVALID :=
  draw_command_return_code.2.2.2.1 _ 3 1 _ (by decide) (by decide) (by decide)

/-! ## The fresh pixel buffer and the order of the color bytes -/

/-- C26. For every width `W` and height `H` with `rowStride W * H` below `2^31`,
`bitmap_pixel_buffer_new` returns a pixel buffer of width `W` and height `H` whose data
array has exactly `rowStride W * H` bytes, which is the size the buffer records, a multiple
of 4 and of `rowStride W`; every byte is zero. -/
theorem bitmap_pixel_buffer_new_zero (W H : Nat) (h : rowStride W * H < 2 ^ 31) :
    ∃ pix_buffer, bitmap_pixel_buffer_new W H = some pix_buffer ∧
      pix_buffer.width = W ∧ pix_buffer.height = H ∧
      pix_buffer.data.length = rowStride W * H ∧
      pix_buffer.data_size = ((rowStride W * H : Nat) : Int) ∧
      4 ∣ pix_buffer.data.length ∧ rowStride W ∣ pix_buffer.data.length ∧
      ∀ byte ∈ pix_buffer.data, byte = 0 := by
  have hrow : bitmap_pixel_array_size W H = rowStride W * H := by
    simp only [bitmap_pixel_array_size, row_size_eq_rowStride_mod, u32]
    rw [Nat.mod_mul_mod]
    exact Nat.mod_eq_of_lt (by omega)
  have hint : to_int ((rowStride W * H : Nat) : Int) = ((rowStride W * H : Nat) : Int) :=
    to_int_of_range _ (by omega) (by omega)
  simp only [bitmap_pixel_buffer_new, hrow, hint]
  rw [if_neg (by omega)]
  refine ⟨_, rfl, rfl, rfl, ?_, rfl, ?_, ?_, ?_⟩
  · simp only [List.length_replicate, Int.toNat_ofNat]
  · simp only [List.length_replicate, Int.toNat_ofNat]
    rw [rowStride_eq]
    exact Dvd.dvd.mul_right (Dvd.intro_left _ rfl) _
  · simp only [List.length_replicate, Int.toNat_ofNat]
    exact Dvd.intro _ rfl
  · intro byte hb
    exact List.eq_of_mem_replicate hb

theorem bitmap_pixel_buffer_new_zero_witness :
    ∃ pix_buffer, bitmap_pixel_buffer_new 3 2 = some pix_buffer ∧
      pix_buffer.width = 3 ∧ pix_buffer.height = 2 ∧
      pix_buffer.data.length = rowStride 3 * 2 ∧
      pix_buffer.data_size = ((rowStride 3 * 2 : Nat) : Int) ∧
      4 ∣ pix_buffer.data.length ∧ rowStride 3 ∣ pix_buffer.data.length ∧
      ∀ byte ∈ pix_buffer.data, byte = 0 :=
  bitmap_pixel_buffer_new_zero 3 2 (by rw [rowStride_eq]; decide)

/-- The claim C28 has the red component stored first; the code stores the blue component
(bits 0-7) first: after the write of pure red (`0xff0000`) to the pixel `(0, 1)` of a fresh
buffer of 1 by 2 pixels, the three bytes of the pixel are 0, 0, 255. -/
theorem bitmap_write_pixel_red :
    (bitmap_write_pixel { data := List.replicate 8 0, data_size := 8, width := 1, height := 2 }
      0 1 0xff0000) =
      (BITMAP_SUCCESS,
        { data := [0, 0, 0, 0, 0, 0, 255, 0], data_size := 8, width := 1, height := 2 }) := by
  decide

/-- C28, amended. For every pixel buffer of `W` by `H` pixels of less than `2^31` bytes and
every pixel inside the image that is written (`column < W`, `1 ≤ row < H`),
`bitmap_write_pixel` stores the three color bytes in blue, green, red order: the byte at the
offset of the pixel is the blue component (bits 0-7 of the color), the second the green
component (bits 8-15) and the third the red component (bits 16-23, as the documentation of
the function defines red). -/
theorem bitmap_write_pixel_byte_order (W H : Nat) (pix_buffer : PixelBuffer)
    (column row color : Nat)
    (hbuf : is_pixel_buffer W H pix_buffer) (hsize : rowStride W * H < 2 ^ 31)
    (hcol : column < W) (hrow1 : 1 ≤ row) (hrow : row < H) :
    (((bitmap_write_pixel pix_buffer column row color).2.data.drop
        ((H - row) * rowStride W + 3 * column)).take 3) =
      [color % 256, color / 256 % 256, color / 65536 % 256] := by
  obtain ⟨hlt, heq⟩ := bitmap_write_pixel_eq W H pix_buffer column row color hbuf hsize hcol
    hrow1 hrow
  obtain ⟨hw, hh, hds, hlen⟩ := hbuf
  rw [heq]
  apply List.ext_getElem?
  intro i
  simp only [List.getElem?_take, List.getElem?_drop, List.getElem?_set, List.length_set]
  rcases i with _ | _ | _ | i
  · simp; omega
  · simp; omega
  · simp; omega
  · simp

theorem bitmap_write_pixel_byte_order_witness :
    (((bitmap_write_pixel
          { data := List.replicate 16 0, data_size := 16, width := 2, height := 2 }
          1 1 0x112233).2.data.drop ((2 - 1) * rowStride 2 + 3 * 1)).take 3) =
      [0x112233 % 256, 0x112233 / 256 % 256, 0x112233 / 65536 % 256] :=
  bitmap_write_pixel_byte_order 2 2
    { data := List.replicate 16 0, data_size := 16, width := 2, height := 2 } 1 1 0x112233
    ⟨rfl, rfl, by rw [rowStride_eq]; rfl, by rw [rowStride_eq]; rfl⟩
    (by rw [rowStride_eq]; decide) (by decide) (by decide) (by decide)

/-! ## The linked list and the array list -/

/-- C29. For every linked list of length `n`, every data and every index with
`0 ≤ index ≤ n`, `linked_list_insert` returns `LINKED_LIST_SUCCESS`, and afterwards
`linked_list_get` returns the data at `index`, the element that was at a position
`j ≥ index` at position `j + 1`, and the elements before `index` as before; the length is
`n + 1`. For `index < 0` and for `index > n` it returns
`LINKED_LIST_ERR_INDEX_OUT_OF_BOUND_OR_LIST_TOO_LONG` and the list is as before. -/
theorem linked_list_insert_spec {α : Type} (list : List α) (index : Int) (data : α) :
    (0 ≤ index → index ≤ list.length →
      (linked_list_insert list index data).1 = LINKED_LIST_SUCCESS ∧
      linked_list_get (linked_list_insert list index data).2 index = some data ∧
      (∀ j : Nat, index ≤ j → j < list.length →
        linked_list_get (linked_list_insert list index data).2 ((j : Int) + 1) =
          linked_list_get list j ∧ linked_list_get list j = list.get? j) ∧
      (∀ j : Nat, (j : Int) < index →
        linked_list_get (linked_list_insert list index data).2 j = linked_list_get list j) ∧
      (linked_list_insert list index data).2.length = list.length + 1) ∧
    (index < 0 ∨ index > list.length →
      linked_list_insert list index data =
        (LINKED_LIST_ERR_INDEX_OUT_OF_BOUND_OR_LIST_TOO_LONG, list)) := by
  constructor
  · intro h0 hn
    obtain ⟨k, rfl⟩ := Int.eq_ofNat_of_zero_le h0
    have hk : k ≤ list.length := by omega
    rw [linked_list_insert_eq list k data hk]
    refine ⟨rfl, ?_, ?_, ?_, ?_⟩
    · rw [linked_list_get_eq, List.get?_eq_getElem?,
        List.getElem?_append_right (by simp [hk])]
      simp [hk]
    · intro j hj hjn
      have hj' : k ≤ j := by omega
      refine ⟨?_, linked_list_get_eq list j⟩
      have e : ((j : Int) + 1) = ((j + 1 : Nat) : Int) := by omega
      rw [e, linked_list_get_eq, linked_list_get_eq, List.get?_eq_getElem?,
        List.get?_eq_getElem?, List.getElem?_append_right (by simp; omega)]
      simp only [List.length_take, min_eq_left hk]
      have e2 : j + 1 - k = (j - k) + 1 := by omega
      rw [e2, List.getElem?_cons_succ, List.getElem?_drop]
      congr 1
      omega
    · intro j hj
      have hj' : j < k := by omega
      rw [linked_list_get_eq, linked_list_get_eq, List.get?_eq_getElem?,
        List.get?_eq_getElem?, List.getElem?_append_left (by simp; omega),
        List.getElem?_take_of_lt hj']
    · simp only [List.length_append, List.length_take, List.length_cons, List.length_drop]
      omega
  · rintro (h | h)
    · simp only [linked_list_insert, if_pos h]
    · have h1 : ¬ index < 0 := by omega
      have h2 : ¬ index = 0 := by omega
      obtain ⟨k, hk⟩ := Int.eq_ofNat_of_zero_le (show 0 ≤ index - 1 by omega)
      simp only [linked_list_insert, if_neg h1, if_neg h2, hk]
      rw [linked_list_find_item_of_ge list k (by omega)]

theorem linked_list_insert_spec_witness :
    (linked_list_insert [10, 20, 30] 1 15).1 = LINKED_LIST_SUCCESS ∧
      linked_list_get (linked_list_insert [10, 20, 30] 1 15).2 1 = some 15 ∧
      (∀ j : Nat, (1 : Int) ≤ j → j < [10, 20, 30].length →
        linked_list_get (linked_list_insert [10, 20, 30] 1 15).2 ((j : Int) + 1) =
          linked_list_get [10, 20, 30] j ∧
        linked_list_get [10, 20, 30] j = [10, 20, 30].get? j) ∧
      (∀ j : Nat, (j : Int) < 1 →
        linked_list_get (linked_list_insert [10, 20, 30] 1 15).2 j =
          linked_list_get [10, 20, 30] j) ∧
      (linked_list_insert [10, 20, 30] 1 15).2.length = [10, 20, 30].length + 1 :=
  (linked_list_insert_spec [10, 20, 30] 1 15).1 (by decide) (by decide)

/-- C30 fails in the code. The bound check of `list_set` is `index < list->length`: for
every index inside the list, here index 0 of a list that starts with the element 7,
`list_set` returns `LIST_ERR_INDEX_OUT_OF_BOUND` and leaves the list as it is, so `list_get`
still returns 7; for the index 1 behind the one-element list, which is out of bound, it
returns `LIST_SUCCESS`, also without a change of the list. -/
theorem list_set_inverted_check :
    (∀ (list : List Nat) (allocated element : Nat),
      list_set (7 :: list) allocated 0 element =
        some (LIST_ERR_INDEX_OUT_OF_BOUND, 7 :: list) ∧
      list_get (7 :: list) 0 = some 7) ∧
    list_set [7] 20 1 9 = some (LIST_SUCCESS, [7]) ∧
    LIST_ERR_INDEX_OUT_OF_BOUND ≠ LIST_SUCCESS := by
  refine ⟨fun list allocated element => ⟨?_, ?_⟩, by decide, by decide⟩
  · simp only [list_set, List.length_cons]
    rw [if_pos (by omega)]
  · simp [list_get]

/-- The reading loop of `parse_file` on a file whose first lines parse, with pairwise
distinct ids that are not in the ascending list `acc` either, and whose next line makes
`parse_line` return an error code: the loop stops at that line with the error of
`parse_file` for this code, whatever follows. -/
theorem parse_file_loop_failure (fuel : Nat) :
    ∀ (file : Str) (good : List Str) (cmds : List Command) (bad : Str) (rest : List Str)
      (acc : List Command) (line_number : Int) (ret : Nat),
      file.length < fuel →
      read_lines_loop fuel file = good ++ bad :: rest →
      good.map parse_line = cmds.map Outcome.ok →
      ascending_by_id acc → (∀ c ∈ acc, c.id < 2 ^ 32) →
      ((acc ++ cmds).map (fun c => c.id)).Nodup →
      parse_line bad = Outcome.error ret →
      parse_file_loop fuel file acc line_number =
        some (if ret = PARSE_ERR_OUT_OF_MEM then
            FileOutcome.failure ERR_OUT_OF_MEM Printed.err_msg_out_of_mem
          else if ret = PARSE_ERR_INVALID_INPUT then
            FileOutcome.failure ERR_INVALID_INPUT
              (Printed.err_msg_invalid_input (line_number + good.length))
          else FileOutcome.failure ERR_UNRECOGNISED Printed.err_msg_unrecognised) := by
  induction fuel with
  | zero => intro file _ _ _ _ _ _ _ hf; exact absurd hf (Nat.not_lt_zero _)
  | succ f ih =>
    intro file good cmds bad rest acc line_number ret hf hlines hgood hs hlt hnd hbad
    cases hread : readline file with
    | none =>
      simp only [read_lines_loop, hread] at hlines
      exact absurd hlines (by simp)
    | some p =>
      obtain ⟨line_buffer, file_rest⟩ := p
      simp only [read_lines_loop, hread] at hlines
      have hf' : file_rest.length < f := by
        have := readline_rest_lt file line_buffer file_rest hread
        omega
      cases good with
      | nil =>
        simp only [List.nil_append, List.cons.injEq] at hlines
        obtain ⟨hb, _⟩ := hlines
        subst hb
        simp only [parse_file_loop, hread, hbad, List.length_nil, Nat.cast_zero, add_zero]
        by_cases h1 : ret = PARSE_ERR_OUT_OF_MEM
        · subst h1; rfl
        · by_cases h2 : ret = PARSE_ERR_INVALID_INPUT
          · subst h2; rfl
          · simp only [if_neg h1, if_neg h2]
      | cons g gs =>
        simp only [List.cons_append, List.cons.injEq] at hlines
        obtain ⟨hg, hlines'⟩ := hlines
        subst hg
        cases cmds with
        | nil => simp at hgood
        | cons c cs =>
          simp only [List.map_cons, List.cons.injEq] at hgood
          obtain ⟨hpl, hgood'⟩ := hgood
          have hcid := parse_line_id_lt line_buffer c hpl
          obtain ⟨_, hs2⟩ := parse_file_search_spec c.id hcid acc 0 hs
          have hne : ∀ x ∈ acc, x.id ≠ c.id := by
            intro x hx hxid
            rw [List.map_append, List.nodup_append] at hnd
            exact hnd.2.2 (List.mem_map.mpr ⟨x, hx, hxid⟩)
              (List.mem_map.mpr ⟨c, List.mem_cons_self _ _, rfl⟩)
          obtain ⟨n, hn, hsearch, hlt1, hgt⟩ := hs2 hne
          simp only [parse_file_loop, hread, hpl]
          rw [hsearch]
          simp only [zero_add]
          rw [linked_list_insert_eq acc n c hn]
          simp only [ne_eq, not_true_eq_false, if_false]
          obtain ⟨hasc, hperm⟩ := insert_at_place c acc n hs hlt1 hgt
          have hlt' : ∀ x ∈ acc.take n ++ c :: acc.drop n, x.id < 2 ^ 32 := by
            intro x hx
            rcases List.mem_cons.mp (hperm.mem_iff.mp hx) with rfl | hx
            · exact hcid
            · exact hlt x hx
          have hperm2 : ((acc.take n ++ c :: acc.drop n) ++ cs).Perm (acc ++ c :: cs) :=
            (hperm.append_right cs).trans List.perm_middle.symm
          have hnd' := ((hperm2.map (fun c => c.id)).nodup_iff).mpr hnd
          rw [ih file_rest gs cs bad rest _ (line_number + 1) ret hf' hlines' hgood' hasc hlt'
            hnd' hbad]
          have e : line_number + 1 + (gs.length : Int) =
              line_number + ((line_buffer :: gs).length : Int) := by
            simp only [List.length_cons]; push_cast; omega
          rw [e]

theorem token_runs_fuel_spaces (fuel : Nat) :
    ∀ (s : Str), (∀ c ∈ s, c = ' ') → token_runs_fuel fuel s = [] := by
  induction fuel with
  | zero => intro s _; rfl
  | succ fuel ih =>
    intro s h
    cases s with
    | nil => rfl
    | cons c s =>
      rw [token_runs_fuel, if_pos (h c (List.mem_cons_self _ _))]
      exact ih s (fun d hd => h d (List.mem_cons_of_mem _ hd))

/-- C23. For every line in which `split_line` finds no parts, `parse_line` returns
`PARSE_ERR_INVALID_INPUT` and builds no command, and a scene file in which such a line
follows lines that parse to commands with pairwise distinct ids makes `parse_file` return
`ERR_INVALID_INPUT` for that line, whatever follows. Such are the lines that hold nothing
but spaces up to the newline or the end of the string, the empty line among them. -/
theorem parse_line_no_tokens (line : Str) (h : split_line line = some []) :
    parse_line line = Outcome.error PARSE_ERR_INVALID_INPUT ∧
    (∀ (file : Str) (good rest : List Str) (cmds : List Command),
      read_lines file = good ++ line :: rest →
      good.map parse_line = cmds.map Outcome.ok →
      (cmds.map (fun c => c.id)).Nodup →
      parse_file (some file) = some (FileOutcome.failure ERR_INVALID_INPUT
        (Printed.err_msg_invalid_input (good.length + 1)))) ∧
    (∀ blank : Str, (∀ c ∈ line_content blank, c = ' ') → split_line blank = some []) := by
  have hparse : parse_line line = Outcome.error PARSE_ERR_INVALID_INPUT := by
    simp [parse_line, h, split_to_properties, linked_list_get, linked_list_find_item,
      Outcome.bind]
  refine ⟨hparse, ?_, ?_⟩
  · intro file good rest cmds hlines hgood hdistinct
    have hloop := parse_file_loop_failure (file.length + 1) file good cmds line rest [] 1
      PARSE_ERR_INVALID_INPUT (Nat.lt_succ_self _) hlines hgood List.Pairwise.nil
      (fun c hc => absurd hc (List.not_mem_nil c)) (by simpa using hdistinct) hparse
    have h' : parse_file (some file) = _ := hloop
    rw [h', if_neg (by decide), if_pos rfl]
    congr 3
    omega
  · intro blank hblank
    rw [split_line_eq_token_runs]
    unfold token_runs
    rw [token_runs_fuel_spaces _ _ hblank]
    rfl

theorem parse_line_no_tokens_witness :
    parse_line "   \n".toList = Outcome.error PARSE_ERR_INVALID_INPUT ∧
    (∀ (file : Str) (good rest : List Str) (cmds : List Command),
      read_lines file = good ++ "   \n".toList :: rest →
      good.map parse_line = cmds.map Outcome.ok →
      (cmds.map (fun c => c.id)).Nodup →
      parse_file (some file) = some (FileOutcome.failure ERR_INVALID_INPUT
        (Printed.err_msg_invalid_input (good.length + 1)))) ∧
    (∀ blank : Str, (∀ c ∈ line_content blank, c = ' ') → split_line blank = some []) :=
  parse_line_no_tokens "   \n".toList (by decide)

theorem convert_to_value_error (value_string : Str) (base ret : Nat)
    (h : convert_to_value value_string base = Outcome.error ret) :
    ret = PARSE_ERR_INVALID_INPUT := by
  unfold convert_to_value at h
  split at h
  · injection h with h; exact h.symm
  · split at h
    · exact absurd h (by simp)
    · split at h
      · injection h with h; exact h.symm
      · split at h
        · injection h with h; exact h.symm
        · simp only at h
          split at h
          · injection h with h; exact h.symm
          · exact absurd h (by simp)

theorem group_property_some (g : Str × Str) (h : (group_property g).isSome = true) :
    ¬ (g.1.length + 1 ≥ PARSE_MAX_PROPERTY_NAME_LENGTH) ∧
    ∃ value, convert_to_value g.2 (if g.1 = "color".toList then 16 else 10) = Outcome.ok value ∧
      group_property g = some { name := g.1, value := value } := by
  unfold group_property at h ⊢
  by_cases hlen : g.1.length + 1 ≥ PARSE_MAX_PROPERTY_NAME_LENGTH
  · rw [if_pos hlen] at h
    exact absurd h (by simp)
  · refine ⟨hlen, ?_⟩
    rw [if_neg hlen] at h ⊢
    simp only [property_base] at h ⊢
    cases hconv : convert_to_value g.2 (if g.1 = "color".toList then 16 else 10) with
    | ok value => exact ⟨value, rfl, rfl⟩
    | error ret => rw [hconv] at h; exact absurd h (by simp)
    | undefined => rw [hconv] at h; exact absurd h (by simp)

/-- The property loop passes over groups that stand for properties. -/
theorem split_to_properties_loop_groups_append (groups : List (Str × Str)) (rest : List Str)
    (list : List Property) (h : ∀ g ∈ groups, (group_property g).isSome = true) :
    split_to_properties_loop (group_parts groups ++ rest) list =
      split_to_properties_loop rest (list ++ groups.filterMap group_property) := by
  induction groups generalizing list with
  | nil => simp [group_parts]
  | cons g groups ih =>
    obtain ⟨hlen, value, hconv, hg⟩ := group_property_some g (h g (List.mem_cons_self _ _))
    rw [group_parts_cons, List.cons_append, List.cons_append, List.cons_append,
      split_to_properties_loop]
    simp only [if_neg hlen, ne_eq, not_true_eq_false, if_false, hconv, list_append_eq]
    rw [ih _ (fun c hc => h c (List.mem_cons_of_mem _ hc)), List.filterMap_cons, hg]
    simp

theorem split_to_properties_loop_too_long_aux (n : Nat) :
    ∀ (parts : List Str) (list : List Property), parts.length ≤ n →
      split_to_properties_loop parts list = Outcome.error PARSE_ERR_PROPERTY_NAME_TOO_LONG →
      ∃ groups name rest, parts = group_parts groups ++ name :: rest ∧
        (∀ g ∈ groups, (group_property g).isSome = true) ∧
        name.length + 1 ≥ PARSE_MAX_PROPERTY_NAME_LENGTH := by
  induction n with
  | zero =>
    intro parts list hlen h
    have : parts = [] := List.length_eq_zero.mp (by omega)
    subst this
    simp [split_to_properties_loop] at h
  | succ n ih =>
    intro parts list hlen h
    cases parts with
    | nil => simp [split_to_properties_loop] at h
    | cons name rest =>
      by_cases hname : name.length + 1 ≥ PARSE_MAX_PROPERTY_NAME_LENGTH
      · exact ⟨[], name, rest, by simp [group_parts],
          fun g hg => absurd hg (List.not_mem_nil _), hname⟩
      · unfold split_to_properties_loop at h
        simp only [if_neg hname] at h
        match rest, hlen, h with
        | [], _, h => exact absurd h (by simp [PARSE_ERR_INVALID_INPUT,
            PARSE_ERR_PROPERTY_NAME_TOO_LONG])
        | [equal_sign], _, h =>
          simp only at h
          split at h <;>
            exact absurd h (by simp [PARSE_ERR_INVALID_INPUT,
              PARSE_ERR_PROPERTY_NAME_TOO_LONG])
        | equal_sign :: value_string :: rest, hlen, h =>
          simp only at h
          split at h
          · exact absurd h (by simp [PARSE_ERR_INVALID_INPUT,
              PARSE_ERR_PROPERTY_NAME_TOO_LONG])
          · rename_i heq
            simp only [ne_eq, not_not] at heq
            cases hconv : convert_to_value value_string
                (if name = "color".toList then 16 else 10) with
            | error ret =>
              rw [hconv] at h
              simp only at h
              injection h with h
              have := convert_to_value_error _ _ _ hconv
              rw [h] at this
              exact absurd this (by decide)
            | undefined =>
              rw [hconv] at h
              exact absurd h (by simp)
            | ok value =>
              rw [hconv] at h
              simp only [list_append_eq, ne_eq, not_true_eq_false, if_false] at h
              obtain ⟨groups, name2, rest2, hparts, hgood, hlong⟩ :=
                ih rest _ (by simp at hlen; omega) h
              have hg : group_property (name, value_string) =
                  some { name := name, value := value } := by
                simp only [group_property, if_neg hname, property_base, hconv]
              refine ⟨(name, value_string) :: groups, name2, rest2, ?_, ?_, hlong⟩
              · rw [group_parts_cons, hparts, heq]
                rfl
              · intro g hgm
                rcases List.mem_cons.mp hgm with rfl | hgm
                · rw [hg]; rfl
                · exact hgood g hgm

/-- The property loop returns `PARSE_ERR_PROPERTY_NAME_TOO_LONG` exactly when it reaches,
after groups that stand for properties, a name whose size with the terminating NUL is at
least `PARSE_MAX_PROPERTY_NAME_LENGTH`. -/
theorem split_to_properties_loop_too_long (parts : List Str) (list : List Property) :
    split_to_properties_loop parts list = Outcome.error PARSE_ERR_PROPERTY_NAME_TOO_LONG ↔
      ∃ groups name rest, parts = group_parts groups ++ name :: rest ∧
        (∀ g ∈ groups, (group_property g).isSome = true) ∧
        name.length + 1 ≥ PARSE_MAX_PROPERTY_NAME_LENGTH := by
  constructor
  · exact split_to_properties_loop_too_long_aux parts.length parts list (Nat.le_refl _)
  · rintro ⟨groups, name, rest, rfl, hgood, hlong⟩
    rw [split_to_properties_loop_groups_append _ _ _ hgood]
    unfold split_to_properties_loop
    simp only [if_pos hlong]

/-- The claim C22 has a name of exactly 19 characters accepted; the code rejects it: the
line of a circle with a further property whose name has 19 characters makes `parse_line`
return `PARSE_ERR_PROPERTY_NAME_TOO_LONG`. -/
theorem parse_line_name_of_19 :
    "aaaaaaaaaaaaaaaaaaa".toList.length = 19 ∧
    parse_line
      "circle id=\"2\" color=\"00ff00\" x=\"5\" y=\"5\" radius=\"1\" aaaaaaaaaaaaaaaaaaa=\"1\"".toList =
      Outcome.error PARSE_ERR_PROPERTY_NAME_TOO_LONG := by
  decide

/-- C22, amended. `parse_line` returns `PARSE_ERR_PROPERTY_NAME_TOO_LONG` if and only if the
shape keyword, or a property name that the extraction reaches after groups that stand for
properties, has 19 characters or more; a name of exactly 18 characters is accepted. -/
theorem parse_line_name_too_long (line : Str) :
    (parse_line line = Outcome.error PARSE_ERR_PROPERTY_NAME_TOO_LONG ↔
      ∃ keyword parts, split_line line = some (keyword :: parts) ∧
        (19 ≤ keyword.length ∨
          ∃ groups name rest, parts = group_parts groups ++ name :: rest ∧
            (∀ g ∈ groups, (group_property g).isSome = true) ∧ 19 ≤ name.length)) ∧
    ("aaaaaaaaaaaaaaaaaa".toList.length = 18 ∧
      parse_line
        "circle id=\"2\" color=\"00ff00\" x=\"5\" y=\"5\" radius=\"1\" aaaaaaaaaaaaaaaaaa=\"1\"".toList =
        Outcome.ok { shape := SH_CIRCLE, id := 2,
                     obj := some (Obj.circle
                       { id := 2, color := 0x00ff00, x := 5, y := 5, radius := 1 }) }) := by
  refine ⟨?_, by decide⟩
  have hbound : ∀ name : Str,
      name.length + 1 ≥ PARSE_MAX_PROPERTY_NAME_LENGTH ↔ 19 ≤ name.length := by
    intro name
    simp only [PARSE_MAX_PROPERTY_NAME_LENGTH]
    omega
  unfold parse_line
  rw [split_line_eq_token_runs]
  simp only
  generalize (token_runs line).foldl
    (fun l t => l.take (LINKED_LIST_MAX_LIST_SIZE + 1) ++ [t]) [] = split
  cases split with
  | nil =>
    constructor
    · intro h
      simp [split_to_properties, linked_list_get, linked_list_find_item, Outcome.bind,
        PARSE_ERR_INVALID_INPUT, PARSE_ERR_PROPERTY_NAME_TOO_LONG] at h
    · rintro ⟨keyword, parts, h, _⟩
      exact absurd h (by simp)
  | cons keyword0 parts0 =>
    rw [split_to_properties_cons]
    by_cases hk : keyword0.length + 1 ≥ PARSE_MAX_PROPERTY_NAME_LENGTH
    · rw [if_pos hk]
      constructor
      · intro _
        exact ⟨keyword0, parts0, rfl, Or.inl ((hbound _).mp hk)⟩
      · intro _
        rfl
    · rw [if_neg hk]
      constructor
      · intro h
        refine ⟨keyword0, parts0, rfl, Or.inr ?_⟩
        cases hloop : split_to_properties_loop parts0 [{ name := keyword0, value := 0 }] with
        | ok props =>
          rw [hloop] at h
          simp only [Outcome.bind] at h
          rcases properties_to_command_ok_or_invalid props with ⟨c, hc⟩ | hc
          · rw [hc] at h; exact absurd h (by simp)
          · rw [hc] at h
            exact absurd h (by simp [PARSE_ERR_INVALID_INPUT,
              PARSE_ERR_PROPERTY_NAME_TOO_LONG])
        | undefined =>
          rw [hloop] at h
          exact absurd h (by simp [Outcome.bind])
        | error ret =>
          rw [hloop] at h
          simp only [Outcome.bind] at h
          injection h with h
          rw [h] at hloop
          obtain ⟨groups, name, rest, hp, hg, hl⟩ :=
            (split_to_properties_loop_too_long _ _).mp hloop
          exact ⟨groups, name, rest, hp, hg, (hbound _).mp hl⟩
      · rintro ⟨keyword, parts, hsplit, hcase⟩
        injection hsplit with hsplit
        injection hsplit with h1 h2
        subst h1 h2
        rcases hcase with hlong | ⟨groups, name, rest, hp, hg, hl⟩
        · exact absurd ((hbound _).mpr hlong) hk
        · rw [(split_to_properties_loop_too_long _ _).mpr
            ⟨groups, name, rest, hp, hg, (hbound _).mpr hl⟩]
          rfl

/-! ## The scene parser: a name that occurs more than once -/

theorem find_property_append (l1 l2 : List Property) (name : Str) :
    find_property (l1 ++ l2) name =
      match find_property l1 name with
      | Outcome.ok value => Outcome.ok value
      | _ => find_property l2 name := by
  induction l1 with
  | nil => rfl
  | cons p l1 ih =>
    simp only [List.cons_append, find_property]
    by_cases h : p.name = name
    · simp only [h, if_true]
    · simp only [h, if_false]
      exact ih

/-- A property whose name occurs before it in the list is never found. -/
theorem find_property_later (front back : List Property) (p : Property) (name : Str)
    (h : p.name ∈ front.map (fun q => q.name)) :
    find_property (front ++ p :: back) name = find_property (front ++ back) name := by
  rw [find_property_append, find_property_append]
  rcases find_property_ok_or_invalid front name with ⟨v, hv⟩ | herr
  · rw [hv]
  · rw [herr]
    simp only
    have hne : p.name ≠ name := by
      intro hpn
      obtain ⟨q, hq, hqn⟩ := List.mem_map.mp h
      have : ∃ v, find_property front name = Outcome.ok v :=
        (find_property_ok_iff front name).mpr ⟨q, hq, hqn.trans hpn⟩
      obtain ⟨v, hv⟩ := this
      rw [herr] at hv
      exact absurd hv (by simp)
    simp only [find_property, hne, if_false]

/-- A line whose parts are a keyword and the parts of groups parses to a command exactly
when the keyword is short enough, every group stands for a property, and the properties make
the command. -/
theorem parse_line_groups (line keyword : Str) (groups : List (Str × Str)) (c : Command)
    (hsplit : split_line line = some (keyword :: group_parts groups)) :
    parse_line line = Outcome.ok c ↔
      ¬ (keyword.length + 1 ≥ PARSE_MAX_PROPERTY_NAME_LENGTH) ∧
      (∀ g ∈ groups, (group_property g).isSome = true) ∧
      properties_to_command
        ({ name := keyword, value := 0 } :: groups.filterMap group_property) = Outcome.ok c := by
  unfold parse_line
  rw [hsplit]
  simp only
  rw [split_to_properties_cons, Outcome.bind_eq_ok]
  by_cases hk : keyword.length + 1 ≥ PARSE_MAX_PROPERTY_NAME_LENGTH
  · rw [if_pos hk]
    constructor
    · rintro ⟨props, h, _⟩
      exact absurd h (by simp)
    · rintro ⟨h, _⟩
      exact absurd hk h
  · rw [if_neg hk]
    constructor
    · rintro ⟨props, hloop, hcmd⟩
      obtain ⟨ps, hps, rfl⟩ := (split_to_properties_loop_groups _ _ _).mp hloop
      obtain ⟨hps_eq, hsome⟩ := map_eq_map_some _ _ _ hps
      refine ⟨hk, hsome, ?_⟩
      rw [← hps_eq]
      exact hcmd
    · rintro ⟨_, hsome, hcmd⟩
      exact ⟨_, (split_to_properties_loop_groups _ _ _).mpr
        ⟨_, map_filterMap_some _ _ hsome, rfl⟩, hcmd⟩

/-- C27. Looking up a property by name returns the value of the first property of the list
with that name, as an `int`; and a group of a line whose name occurs in a group before it is
ignored: the line parses to a command exactly when the line without that group does, and to
the same command, provided the group itself stands for a property. -/
theorem find_property_first_match (line line' keyword : Str)
    (front back : List (Str × Str)) (later : Str × Str) (c : Command)
    (hsplit : split_line line = some (keyword :: group_parts (front ++ later :: back)))
    (hsplit' : split_line line' = some (keyword :: group_parts (front ++ back)))
    (hdup : later.1 ∈ front.map Prod.fst)
    (hlater : (group_property later).isSome = true) :
    (parse_line line = Outcome.ok c ↔ parse_line line' = Outcome.ok c) ∧
    (∀ (list : List Property) (name : Str),
      find_property list name =
        match list.find? (fun p => decide (p.name = name)) with
        | some p => Outcome.ok (to_int p.value)
        | none => Outcome.error PARSE_ERR_INVALID_INPUT) := by
  constructor
  · rw [parse_line_groups line keyword _ c hsplit, parse_line_groups line' keyword _ c hsplit']
    have hgood : (∀ g ∈ front ++ later :: back, (group_property g).isSome = true) ↔
        (∀ g ∈ front ++ back, (group_property g).isSome = true) := by
      constructor
      · intro h g hg
        rcases List.mem_append.mp hg with hg | hg
        · exact h g (List.mem_append_left _ hg)
        · exact h g (List.mem_append_right _ (List.mem_cons_of_mem _ hg))
      · intro h g hg
        rcases List.mem_append.mp hg with hg | hg
        · exact h g (List.mem_append_left _ hg)
        · rcases List.mem_cons.mp hg with rfl | hg
          · exact hlater
          · exact h g (List.mem_append_right _ hg)
    have hcmd : ∀ (hfront : ∀ g ∈ front, (group_property g).isSome = true),
        properties_to_command ({ name := keyword, value := 0 } ::
            (front ++ later :: back).filterMap group_property) =
          properties_to_command ({ name := keyword, value := 0 } ::
            (front ++ back).filterMap group_property) := by
      intro hfront
      obtain ⟨p, hp⟩ := Option.isSome_iff_exists.mp hlater
      apply properties_to_command_congr
      intro name
      rw [List.filterMap_append, List.filterMap_append, List.filterMap_cons, hp]
      apply find_property_later
      rw [filterMap_group_property_names front hfront, group_property_name later p hp]
      exact hdup
    constructor
    · rintro ⟨hk, hsome, hc⟩
      have hsome' := hgood.mp hsome
      refine ⟨hk, hsome', ?_⟩
      rw [← hcmd (fun g hg => hsome' g (List.mem_append_left _ hg))]
      exact hc
    · rintro ⟨hk, hsome', hc⟩
      refine ⟨hk, hgood.mpr hsome', ?_⟩
      rw [hcmd (fun g hg => hsome' g (List.mem_append_left _ hg))]
      exact hc
  · intro list name
    induction list with
    | nil => rfl
    | cons p list ih =>
      simp only [find_property, List.find?_cons]
      by_cases h : p.name = name
      · simp only [h, if_true, decide_True]
      · simp only [h, if_false, decide_False, ih]

theorem find_property_first_match_witness :
    (parse_line
        "circle id=\"2\" color=\"00ff00\" x=\"5\" x=\"9\" y=\"5\" radius=\"1\"".toList =
        Outcome.ok { shape := SH_CIRCLE, id := 2,
                     obj := some (Obj.circle
                       { id := 2, color := 0x00ff00, x := 5, y := 5, radius := 1 }) } ↔
      parse_line "circle id=\"2\" color=\"00ff00\" x=\"5\" y=\"5\" radius=\"1\"".toList =
        Outcome.ok { shape := SH_CIRCLE, id := 2,
                     obj := some (Obj.circle
                       { id := 2, color := 0x00ff00, x := 5, y := 5, radius := 1 }) }) ∧
    (∀ (list : List Property) (name : Str),
      find_property list name =
        match list.find? (fun p => decide (p.name = name)) with
        | some p => Outcome.ok (to_int p.value)
        | none => Outcome.error PARSE_ERR_INVALID_INPUT) :=
  find_property_first_match
    "circle id=\"2\" color=\"00ff00\" x=\"5\" x=\"9\" y=\"5\" radius=\"1\"".toList
    "circle id=\"2\" color=\"00ff00\" x=\"5\" y=\"5\" radius=\"1\"".toList
    "circle".toList
    [("id".toList, "\"2\"".toList), ("color".toList, "\"00ff00\"".toList),
     ("x".toList, "\"5\"".toList)]
    [("y".toList, "\"5\"".toList), ("radius".toList, "\"1\"".toList)]
    ("x".toList, "\"9\"".toList)
    { shape := SH_CIRCLE, id := 2,
      obj := some (Obj.circle { id := 2, color := 0x00ff00, x := 5, y := 5, radius := 1 }) }
    (by decide) (by decide) (by decide) (by decide)

/-! ## Row 0 of the write primitive -/

/-- C31. For every pixel buffer whose size is the one `bitmap_pixel_buffer_new` computes
from its width and height (not negative, so that the data array exists), with a height of
at least 1, and every column inside the image, the write to row 0 returns `BITMAP_SUCCESS`
and leaves the buffer as it is: row 0 is mapped to the row `height` of the array, which
starts at the end of the array, so the guard of the three stores fails. -/
theorem bitmap_write_pixel_row_0 (pix_buffer : PixelBuffer) (column color : Nat)
    (hsize : pix_buffer.data_size =
      to_int (bitmap_pixel_array_size pix_buffer.width pix_buffer.height))
    (hdata : 0 ≤ pix_buffer.data_size)
    (hheight : pix_buffer.height < 2 ^ 32) (h1 : 1 ≤ pix_buffer.height)
    (hcol : column < pix_buffer.width) :
    bitmap_write_pixel pix_buffer column 0 color = (BITMAP_SUCCESS, pix_buffer) := by
  have hcond : ¬ (0 ≥ pix_buffer.height ∨ column ≥ pix_buffer.width) := by omega
  unfold bitmap_write_pixel
  rw [if_neg hcond]
  simp only [Nat.sub_zero]
  have hu : u32 pix_buffer.height = pix_buffer.height := Nat.mod_eq_of_lt hheight
  have hlt : bitmap_pixel_array_size pix_buffer.width pix_buffer.height < 2 ^ 32 :=
    Nat.mod_lt _ (by norm_num)
  have hint : pix_buffer.data_size =
      ((bitmap_pixel_array_size pix_buffer.width pix_buffer.height : Nat) : Int) := by
    rw [hsize] at hdata ⊢
    unfold to_int at hdata ⊢
    omega
  have hprod : u32 (pix_buffer.height * bitmap_pixel_array_row_size pix_buffer.width) =
      bitmap_pixel_array_size pix_buffer.width pix_buffer.height := by
    simp only [bitmap_pixel_array_size, Nat.mul_comm]
  rw [hu, hprod, hint, if_neg (by push_cast; omega)]

theorem bitmap_write_pixel_row_0_witness :
    bitmap_write_pixel { data := List.replicate 16 0, data_size := 16, width := 2, height := 2 }
        1 0 0xffffff =
      (BITMAP_SUCCESS,
        { data := List.replicate 16 0, data_size := 16, width := 2, height := 2 }) :=
  bitmap_write_pixel_row_0
    { data := List.replicate 16 0, data_size := 16, width := 2, height := 2 } 1 0xffffff
    (by decide) (by decide) (by decide) (by decide) (by decide)

/-! ## The sort of the vertices of a triangle -/

/-- C33. For every triangle, the three compare-and-swap steps at the start of
`draw_triangle` leave the vertices in an order that is a permutation of the given one, with
`ay ≤ by ≤ cy`, in which vertices of equal `y` keep their relative order: the vertices
afterwards are the given vertices number `i`, `j`, `k`, where `i`, `j`, `k` are 0, 1, 2 in
some order and a vertex of the same `y` as a later one has the smaller number. -/
theorem draw_triangle_sort_stable (triangle : Triangle) :
    ∃ order : List Nat, order.Perm [0, 1, 2] ∧
      [(draw_triangle_sort triangle).1, (draw_triangle_sort triangle).2.1,
          (draw_triangle_sort triangle).2.2] =
        order.map (fun i =>
          [(triangle.ax, triangle.ay), (triangle.bx, triangle.«by»),
            (triangle.cx, triangle.cy)].getD i (0, 0)) ∧
      (draw_triangle_sort triangle).1.2 ≤ (draw_triangle_sort triangle).2.1.2 ∧
      (draw_triangle_sort triangle).2.1.2 ≤ (draw_triangle_sort triangle).2.2.2 ∧
      order.Pairwise (fun i j =>
        ([triangle.ay, triangle.«by», triangle.cy].getD i 0 =
          [triangle.ay, triangle.«by», triangle.cy].getD j 0) → i < j) := by
  unfold draw_triangle_sort
  by_cases h1 : triangle.ay > triangle.«by»
  · by_cases h2 : triangle.ay > triangle.cy
    · by_cases h3 : triangle.«by» > triangle.cy
      · refine ⟨[2, 1, 0], by decide, ?_⟩
        simp only [h1, h2, h3, if_true, List.map, List.getD_cons_zero, List.getD_cons_succ,
          List.pairwise_cons]
        simp
        omega
      · refine ⟨[1, 2, 0], by decide, ?_⟩
        simp only [h1, h2, h3, if_true, if_false, List.map, List.getD_cons_zero,
          List.getD_cons_succ, List.pairwise_cons]
        simp
        omega
    · refine ⟨[1, 0, 2], by decide, ?_⟩
      have h4 : ¬ triangle.«by» > triangle.ay := by omega
      simp only [h1, h2, h4, if_true, if_false, List.map, List.getD_cons_zero,
        List.getD_cons_succ, List.pairwise_cons]
      simp
      omega
  · by_cases h2 : triangle.«by» > triangle.cy
    · by_cases h3 : triangle.ay > triangle.cy
      · refine ⟨[2, 0, 1], by decide, ?_⟩
        simp only [h1, h2, h3, if_true, if_false, List.map, List.getD_cons_zero,
          List.getD_cons_succ, List.pairwise_cons]
        simp
        omega
      · refine ⟨[0, 2, 1], by decide, ?_⟩
        simp only [h1, h2, h3, if_true, if_false, List.map, List.getD_cons_zero,
          List.getD_cons_succ, List.pairwise_cons]
        simp
        omega
    · refine ⟨[0, 1, 2], by decide, ?_⟩
      simp only [h1, h2, if_false, List.map, List.getD_cons_zero,
        List.getD_cons_succ, List.pairwise_cons]
      simp
      omega

/-! ## The circle: the disk and column 0 -/

/-- The coordinates of a call of `draw_circle`, for a circle whose coordinates stay in the
range of `int`: the column is `x + index_x`, or `x - index_x` and positive, the row is
`y + index_y` or `y - index_y`, with `index_x` below the radius and `index_y` below the
half-chord; the pixel lies inside the image. -/
theorem circle_calls_coords (W H : Nat) (circle : Circle)
    (hr : circle.radius * circle.radius < 2 ^ 31)
    (hx : -(2 ^ 31) ≤ circle.x - circle.radius ∧ circle.x + circle.radius < 2 ^ 31)
    (hy : -(2 ^ 31) ≤ circle.y - circle.radius ∧ circle.y + circle.radius < 2 ^ 31)
    (w : PixelWrite) (hw : w ∈ circle_calls W H circle) :
    ∃ index_x index_y : Nat, (index_x : Int) < circle.radius ∧
      index_y < Nat.sqrt (circle.radius * circle.radius - (index_x : Int) * index_x).toNat ∧
      w.column < W ∧ w.row < H ∧ w.color = to_u32 circle.color ∧
      ((w.column : Int) = circle.x + index_x ∨
        ((w.column : Int) = circle.x - index_x ∧ 0 < circle.x - (index_x : Int))) ∧
      ((w.row : Int) = circle.y + index_y ∨ (w.row : Int) = circle.y - index_y) := by
  rw [mem_circle_calls] at hw
  obtain ⟨index_x, hix, index_y, hiy, h⟩ := hw
  rw [circle_radicand_eq _ _ hr hix] at hiy
  have hrad : 0 ≤ circle.radius := by omega
  have hle := floor_sqrt_le_radius circle.radius index_x hrad
  rw [floor_sqrt_eq] at hiy hle
  have key : ∀ column : Int, 0 ≤ column → column < W → column < 2 ^ 31 →
      w ∈ circle_pair_calls H column circle.y circle.color index_y →
      (w.column : Int) = column ∧ w.column < W ∧ w.row < H ∧ w.color = to_u32 circle.color ∧
      ((w.row : Int) = circle.y + index_y ∨ (w.row : Int) = circle.y - index_y) := by
    intro column hc0 hcW hc31 hmem
    have hcu : to_u32 column = column.toNat := by
      have := to_u32_natCast column.toNat (by omega)
      rwa [Int.toNat_of_nonneg hc0] at this
    rw [mem_circle_pair_calls] at hmem
    rcases hmem with ⟨⟨h1, h2⟩, rfl⟩ | ⟨⟨h1, h2⟩, rfl⟩
    · have hru : to_u32 (circle.y + index_y) = (circle.y + index_y).toNat := by
        have := to_u32_natCast (circle.y + index_y).toNat (by omega)
        rwa [Int.toNat_of_nonneg h1] at this
      simp only [hcu, hru]
      refine ⟨Int.toNat_of_nonneg hc0, by omega, by omega, trivial, Or.inl ?_⟩
      exact Int.toNat_of_nonneg h1
    · have hru : to_u32 (circle.y - index_y) = (circle.y - index_y).toNat := by
        have := to_u32_natCast (circle.y - index_y).toNat (by omega)
        rwa [Int.toNat_of_nonneg h1] at this
      simp only [hcu, hru]
      refine ⟨Int.toNat_of_nonneg hc0, by omega, by omega, trivial, Or.inr ?_⟩
      exact Int.toNat_of_nonneg h1
  rcases h with ⟨⟨hc1, hc2⟩, hmem⟩ | ⟨⟨hc1, hc2⟩, hmem⟩
  · obtain ⟨k1, k2, k3, k4, k5⟩ := key _ hc1 hc2 (by omega) hmem
    exact ⟨index_x, index_y, hix, hiy, k2, k3, k4, Or.inl k1, k5⟩
  · obtain ⟨k1, k2, k3, k4, k5⟩ := key _ (by omega) hc2 (by omega) hmem
    exact ⟨index_x, index_y, hix, hiy, k2, k3, k4, Or.inr ⟨k1, hc1⟩, k5⟩

/-- C34. For every circle with centre `(cx, cy)` and radius `r`, with `r * r`, `cx ± r` and
`cy ± r` in the range of `int`, every pixel `(column, row)` that `draw_circle` passes to the
write primitive satisfies `(column - cx)^2 + (row - cy)^2 < r^2` and lies inside the image;
and the radicand `r * r - dx * dx` is positive for every `dx` with `0 ≤ dx < r`. -/
theorem draw_circle_calls_in_disk (W H : Nat) (circle : Circle)
    (hr : circle.radius * circle.radius < 2 ^ 31)
    (hx : -(2 ^ 31) ≤ circle.x - circle.radius ∧ circle.x + circle.radius < 2 ^ 31)
    (hy : -(2 ^ 31) ≤ circle.y - circle.radius ∧ circle.y + circle.radius < 2 ^ 31) :
    (∀ w ∈ draw_circle_calls W H circle,
      ((w.column : Int) - circle.x) ^ 2 + ((w.row : Int) - circle.y) ^ 2 < circle.radius ^ 2 ∧
      w.column < W ∧ w.row < H) ∧
    (∀ dx : Int, 0 ≤ dx → dx < circle.radius →
      0 < circle.radius * circle.radius - dx * dx) := by
  constructor
  · intro w hw
    rw [draw_circle_calls_eq] at hw
    obtain ⟨index_x, index_y, hix, hiy, hcW, hrH, _, hcol, hrow⟩ :=
      circle_calls_coords W H circle hr hx hy w hw
    refine ⟨?_, hcW, hrH⟩
    have hsq : (index_y + 1) * (index_y + 1) ≤
        (circle.radius * circle.radius - (index_x : Int) * index_x).toNat :=
      Nat.le_sqrt.mp hiy
    have hpos : (0 : Int) < circle.radius * circle.radius - (index_x : Int) * index_x := by
      by_contra hneg
      rw [Int.toNat_eq_zero.mpr (by omega)] at hsq
      nlinarith
    have hsq2 : (((index_y + 1) * (index_y + 1) : Nat) : Int) ≤
        circle.radius * circle.radius - (index_x : Int) * index_x := by
      have := Int.ofNat_le.mpr hsq
      rwa [Int.toNat_of_nonneg (by omega)] at this
    push_cast at hsq2
    have hc2 : ((w.column : Int) - circle.x) ^ 2 = (index_x : Int) * index_x := by
      rcases hcol with h | ⟨h, _⟩ <;> rw [h] <;> ring
    have hr2 : ((w.row : Int) - circle.y) ^ 2 = (index_y : Int) * index_y := by
      rcases hrow with h | h <;> rw [h] <;> ring
    rw [hc2, hr2]
    nlinarith
  · intro dx h0 h1
    nlinarith

theorem draw_circle_calls_in_disk_witness :
    (∀ w ∈ draw_circle_calls 10 10 { id := 2, color := 0x00ff00, x := 5, y := 5, radius := 3 },
      ((w.column : Int) - 5) ^ 2 + ((w.row : Int) - 5) ^ 2 < (3 : Int) ^ 2 ∧
      w.column < 10 ∧ w.row < 10) ∧
    (∀ dx : Int, 0 ≤ dx → dx < 3 → 0 < (3 : Int) * 3 - dx * dx) :=
  draw_circle_calls_in_disk 10 10 { id := 2, color := 0x00ff00, x := 5, y := 5, radius := 3 }
    (by decide) (by decide) (by decide)

/-- C40. For every circle with `cx ± r` and `cy ± r` (and `r * r`) in the range of `int`:
when the centre column `cx` is greater than 0, no call of the write primitive that
`draw_circle` makes is for column 0; a call for column 0 occurs only when
`cx ≤ 0 < cx + r`. For the circle of radius 3 around `(1, 5)` on a canvas of 10 by 10
pixels, whose disk covers the pixel `(0, 5)`, no call is for column 0. -/
theorem draw_circle_calls_column_0 (W H : Nat) (circle : Circle)
    (hr : circle.radius * circle.radius < 2 ^ 31)
    (hx : -(2 ^ 31) ≤ circle.x - circle.radius ∧ circle.x + circle.radius < 2 ^ 31)
    (hy : -(2 ^ 31) ≤ circle.y - circle.radius ∧ circle.y + circle.radius < 2 ^ 31) :
    (0 < circle.x → ∀ w ∈ draw_circle_calls W H circle, w.column ≠ 0) ∧
    (∀ w ∈ draw_circle_calls W H circle, w.column = 0 →
      circle.x ≤ 0 ∧ 0 < circle.x + circle.radius) ∧
    ((∀ w ∈ draw_circle_calls 10 10 { id := 1, color := 0, x := 1, y := 5, radius := 3 },
        w.column ≠ 0) ∧
      ((0 : Int) - 1) ^ 2 + ((5 : Int) - 5) ^ 2 < (3 : Int) ^ 2) := by
  have hmain : ∀ w ∈ draw_circle_calls W H circle, w.column = 0 →
      circle.x ≤ 0 ∧ 0 < circle.x + circle.radius := by
    intro w hw h0
    rw [draw_circle_calls_eq] at hw
    obtain ⟨index_x, index_y, hix, _, _, _, _, hcol, _⟩ :=
      circle_calls_coords W H circle hr hx hy w hw
    rw [h0] at hcol
    rcases hcol with h | ⟨h, hpos⟩
    · constructor <;> omega
    · omega
  refine ⟨?_, hmain, by decide, by decide⟩
  intro hpos w hw h0
  have := (hmain w hw h0).1
  omega

theorem draw_circle_calls_column_0_witness :
    (0 : Int) < 2 ∧
    (⟨0, 5, 0⟩ : PixelWrite) ∉
      draw_circle_calls 10 10 { id := 1, color := 0, x := 2, y := 5, radius := 4 } :=
  ⟨by decide, fun hmem =>
    (draw_circle_calls_column_0 10 10 { id := 1, color := 0, x := 2, y := 5, radius := 4 }
      (by decide) (by decide) (by decide)).1 (by decide) _ hmem rfl⟩

/-! ## The rectangle -/

/-- The loops of `draw_rectangle` make the calls of `rectangle_calls`, in order. -/
theorem draw_rectangle_with_eq {σ : Type} (write : σ → Nat → Nat → Nat → σ) (s : σ)
    (rectangle : Rectangle) :
    draw_rectangle_with write s rectangle =
      (rectangle_calls rectangle).foldl (fun s w => write s w.column w.row w.color) s := by
  dsimp only [draw_rectangle_with, rectangle_calls]
  rw [foldl_flatMap]
  apply foldl_congr_fun
  intro s index_x
  by_cases hx : rectangle.x + (index_x : Int) ≥ 0 ∧
      rectangle.x + (index_x : Int) < rectangle.width
  · rw [if_pos hx, if_pos hx, foldl_flatMap]
    apply foldl_congr_fun
    intro s index_y
    by_cases hy : rectangle.y + (index_y : Int) ≥ 0 ∧
        rectangle.y + (index_y : Int) < rectangle.height
    · rw [if_pos hy, if_pos hy]
      rfl
    · rw [if_neg hy, if_neg hy]
      rfl
  · rw [if_neg hx, if_neg hx]
    rfl

theorem draw_rectangle_calls_eq (rectangle : Rectangle) :
    draw_rectangle_calls rectangle = rectangle_calls rectangle := by
  unfold draw_rectangle_calls
  rw [draw_rectangle_with_eq]
  exact (foldl_append_singleton _ []).trans (List.nil_append _)

theorem draw_rectangle_eq (pix_buffer : PixelBuffer) (rectangle : Rectangle) :
    draw_rectangle pix_buffer rectangle =
      apply_writes pix_buffer (draw_rectangle_calls rectangle) := by
  rw [draw_rectangle_calls_eq]
  unfold draw_rectangle apply_writes
  exact draw_rectangle_with_eq _ _ _

theorem mem_rectangle_calls (rectangle : Rectangle) (w : PixelWrite) :
    w ∈ rectangle_calls rectangle ↔
      ∃ index_x index_y : Nat, (index_x : Int) < rectangle.width ∧
        (index_y : Int) < rectangle.height ∧
        (rectangle.x + (index_x : Int) ≥ 0 ∧ rectangle.x + (index_x : Int) < rectangle.width) ∧
        (rectangle.y + (index_y : Int) ≥ 0 ∧
          rectangle.y + (index_y : Int) < rectangle.height) ∧
        w = ⟨to_u32 (rectangle.x + (index_x : Int)), to_u32 (rectangle.y + (index_y : Int)),
          to_u32 rectangle.color⟩ := by
  unfold rectangle_calls
  simp only [List.mem_flatMap, List.mem_range]
  constructor
  · rintro ⟨index_x, hx, h⟩
    split at h
    · rename_i hcx
      simp only [List.mem_flatMap, List.mem_range] at h
      obtain ⟨index_y, hy, h⟩ := h
      split at h
      · rename_i hcy
        exact ⟨index_x, index_y, by omega, by omega, hcx, hcy, List.mem_singleton.mp h⟩
      · exact absurd h (List.not_mem_nil _)
    · exact absurd h (List.not_mem_nil _)
  · rintro ⟨index_x, index_y, hx, hy, hcx, hcy, rfl⟩
    refine ⟨index_x, by omega, ?_⟩
    rw [if_pos hcx]
    simp only [List.mem_flatMap, List.mem_range]
    refine ⟨index_y, by omega, ?_⟩
    rw [if_pos hcy]
    exact List.mem_singleton.mpr rfl

/-- C36. `draw_rectangle` bounds the columns and rows by the width and height of the
rectangle itself: for every rectangle with `x ≥ width` or `y ≥ height` no call of the write
primitive is made and the pixel buffer is left as it is, also for the rectangle at `(5, 5)`
of 3 by 3 pixels, which lies inside a canvas of 10 by 10 pixels; and every pixel passed to
the write primitive has a column from `max x 0` on below `width` and a row from `max y 0`
on below `height` of the rectangle (`width` and `height` being in the range of `int`). -/
theorem draw_rectangle_own_bounds :
    (∀ (pix_buffer : PixelBuffer) (rectangle : Rectangle),
      rectangle.x ≥ rectangle.width ∨ rectangle.y ≥ rectangle.height →
      draw_rectangle_calls rectangle = [] ∧ draw_rectangle pix_buffer rectangle = pix_buffer) ∧
    (∀ pix_buffer : PixelBuffer,
      draw_rectangle pix_buffer
        { id := 1, color := 0xff0000, x := 5, y := 5, width := 3, height := 3 } = pix_buffer) ∧
    (∀ rectangle : Rectangle, rectangle.width < 2 ^ 31 → rectangle.height < 2 ^ 31 →
      ∀ w ∈ draw_rectangle_calls rectangle,
        (w.column : Int) < rectangle.width ∧ (w.row : Int) < rectangle.height ∧
        rectangle.x ≤ w.column ∧ rectangle.y ≤ w.row ∧ w.color = to_u32 rectangle.color) := by
  have hnone : ∀ (pix_buffer : PixelBuffer) (rectangle : Rectangle),
      rectangle.x ≥ rectangle.width ∨ rectangle.y ≥ rectangle.height →
      draw_rectangle_calls rectangle = [] ∧
        draw_rectangle pix_buffer rectangle = pix_buffer := by
    intro pix_buffer rectangle h
    have hcalls : draw_rectangle_calls rectangle = [] := by
      rw [draw_rectangle_calls_eq]
      apply List.eq_nil_iff_forall_not_mem.mpr
      intro w hw
      rw [mem_rectangle_calls] at hw
      obtain ⟨index_x, index_y, _, _, hcx, hcy, _⟩ := hw
      omega
    refine ⟨hcalls, ?_⟩
    rw [draw_rectangle_eq, hcalls]
    rfl
  refine ⟨hnone, fun pix_buffer => (hnone pix_buffer _ (Or.inl (by decide))).2, ?_⟩
  intro rectangle hw31 hh31 w hw
  rw [draw_rectangle_calls_eq, mem_rectangle_calls] at hw
  obtain ⟨index_x, index_y, _, _, hcx, hcy, rfl⟩ := hw
  have hxu : to_u32 (rectangle.x + index_x) = (rectangle.x + index_x).toNat := by
    have := to_u32_natCast (rectangle.x + index_x).toNat (by omega)
    rwa [Int.toNat_of_nonneg hcx.1] at this
  have hyu : to_u32 (rectangle.y + index_y) = (rectangle.y + index_y).toNat := by
    have := to_u32_natCast (rectangle.y + index_y).toNat (by omega)
    rwa [Int.toNat_of_nonneg hcy.1] at this
  simp only [hxu, hyu]
  rw [Int.toNat_of_nonneg hcx.1, Int.toNat_of_nonneg hcy.1]
  exact ⟨hcx.2, hcy.2, by omega, by omega, trivial⟩

theorem draw_rectangle_own_bounds_witness :
    draw_rectangle_calls { id := 1, color := 0xff0000, x := 2, y := 0, width := 2, height := 4 }
        = [] ∧
      draw_rectangle { data := List.replicate 48 0, data_size := 48, width := 4, height := 4 }
          { id := 1, color := 0xff0000, x := 2, y := 0, width := 2, height := 4 } =
        { data := List.replicate 48 0, data_size := 48, width := 4, height := 4 } :=
  draw_rectangle_own_bounds.1 _ _ (Or.inl (by decide))

/-! ## The triangle -/

set_option maxRecDepth 100000 in
/-- C32 fails in the code. For the triangle with the vertices `(0, 0)`, `(4, 2)`, `(0, 4)`
(sorted, integer slopes 2, 0 and -2) on a canvas of 10 by 10 pixels, the edges at row 3 are
at `x = 0` and, by interpolation between `(4, 2)` and `(0, 4)`, at `x = 2`; `draw_triangle`
fills the pixels 0 to 3 of row 3, and the pixels 0 and 1 of row 4, where both edges are at
`x = 0`: after the upper part `ex` is set back to `bx` when `sy` is at row `by + 1` already,
so in the lower part the edge from the middle vertex lags one row behind the scanline. -/
theorem draw_triangle_calls_lower_part :
    draw_triangle_calls 10 10
        { id := 1, color := 7, ax := 0, ay := 0, bx := 4, «by» := 2, cx := 0, cy := 4 } =
      [⟨0, 1, 7⟩, ⟨1, 1, 7⟩,
       ⟨0, 2, 7⟩, ⟨1, 2, 7⟩, ⟨2, 2, 7⟩, ⟨3, 2, 7⟩,
       ⟨0, 3, 7⟩, ⟨1, 3, 7⟩, ⟨2, 3, 7⟩, ⟨3, 3, 7⟩,
       ⟨0, 4, 7⟩, ⟨1, 4, 7⟩] ∧
    draw_triangle_sort
        { id := 1, color := 7, ax := 0, ay := 0, bx := 4, «by» := 2, cx := 0, cy := 4 } =
      ((0, 0), (4, 2), (0, 4)) ∧
    (interpolate_x (0, 0) (0, 4) 3).to_int = 0 ∧ (interpolate_x (4, 2) (0, 4) 3).to_int = 2 ∧
    (interpolate_x (0, 0) (0, 4) 4).to_int = 0 ∧ (interpolate_x (4, 2) (0, 4) 4).to_int = 0 := by
  decide

/-! ## The calls of the write primitive of a triangle -/

theorem foldl_rel {α σ τ : Type} (R : σ → τ → Prop) (f : σ → α → σ) (g : τ → α → τ)
    (h : ∀ s t a, R s t → R (f s a) (g t a)) (l : List α) (s : σ) (t : τ) (hst : R s t) :
    R (l.foldl f s) (l.foldl g t) := by
  induction l generalizing s t with
  | nil => exact hst
  | cons a l ih => exact ih _ _ (h s t a hst)

theorem horizline_span_rel {σ τ : Type} (w1 : σ → Nat → Nat → Nat → σ)
    (w2 : τ → Nat → Nat → Nat → τ) (R : σ → τ → Prop) (width : Nat)
    (first y color : Int) (n : Nat)
    (hstep : ∀ s t x y, R s t → R (w1 s x y (to_u32 color)) (w2 t x y (to_u32 color)))
    (s : σ) (t : τ) (h : R s t) :
    R ((List.range n).foldl (fun s (i : Nat) =>
          if first + (i : Int) ≥ 0 ∧ first + (i : Int) < width then
            w1 s (to_u32 (first + (i : Int))) (to_u32 y) (to_u32 color)
          else s) s)
      ((List.range n).foldl (fun t (i : Nat) =>
          if first + (i : Int) ≥ 0 ∧ first + (i : Int) < width then
            w2 t (to_u32 (first + (i : Int))) (to_u32 y) (to_u32 color)
          else t) t) := by
  apply foldl_rel R _ _ _ _ _ _ h
  intro s t i hst
  by_cases hc : first + (i : Int) ≥ 0 ∧ first + (i : Int) < width
  · simp only [if_pos hc]
    exact hstep _ _ _ _ hst
  · simp only [if_neg hc]
    exact hst

/-- Two runs of `horizline` over states that every call of the write primitive with the
color of the line keeps related end in related states. -/
theorem horizline_with_rel {σ τ : Type} (w1 : σ → Nat → Nat → Nat → σ)
    (w2 : τ → Nat → Nat → Nat → τ) (R : σ → τ → Prop) (width height : Nat)
    (x1 x2 y color : Int)
    (hstep : ∀ s t x y, R s t → R (w1 s x y (to_u32 color)) (w2 t x y (to_u32 color)))
    (s : σ) (t : τ) (h : R s t) :
    R (horizline_with w1 width height s x1 x2 y color)
      (horizline_with w2 width height t x1 x2 y color) := by
  dsimp only [horizline_with]
  by_cases hy : y ≥ 0 ∧ y < height
  · rw [if_pos hy, if_pos hy]
    exact horizline_span_rel w1 w2 R width _ y color _ hstep s t h
  · rw [if_neg hy, if_neg hy]
    exact h

theorem draw_triangle_rows_rel {σ τ : Type} (w1 : σ → Nat → Nat → Nat → σ)
    (w2 : τ → Nat → Nat → Nat → τ) (R : σ → τ → Prop) (width height : Nat)
    (color : Int) (dsx dex : Frac)
    (hstep : ∀ s t x y, R s t → R (w1 s x y (to_u32 color)) (w2 t x y (to_u32 color)))
    (n : Nat) :
    ∀ (st1 : TriangleState σ) (st2 : TriangleState τ), R st1.s st2.s → st1.sx = st2.sx →
      st1.ex = st2.ex → st1.sy = st2.sy →
      R (draw_triangle_rows w1 width height color dsx dex n st1).s
          (draw_triangle_rows w2 width height color dsx dex n st2).s ∧
        (draw_triangle_rows w1 width height color dsx dex n st1).sx =
          (draw_triangle_rows w2 width height color dsx dex n st2).sx ∧
        (draw_triangle_rows w1 width height color dsx dex n st1).ex =
          (draw_triangle_rows w2 width height color dsx dex n st2).ex ∧
        (draw_triangle_rows w1 width height color dsx dex n st1).sy =
          (draw_triangle_rows w2 width height color dsx dex n st2).sy := by
  induction n with
  | zero => intro st1 st2 h1 h2 h3 h4; exact ⟨h1, h2, h3, h4⟩
  | succ n ih =>
    intro st1 st2 h1 h2 h3 h4
    simp only [draw_triangle_rows]
    apply ih
    · simp only [h2, h3, h4]
      exact horizline_with_rel w1 w2 R width height _ _ _ color hstep _ _ h1
    · simp only [h2]
    · simp only [h3]
    · simp only [h4]

theorem draw_triangle_while_rel {σ τ : Type} (w1 : σ → Nat → Nat → Nat → σ)
    (w2 : τ → Nat → Nat → Nat → τ) (R : σ → τ → Prop) (width height : Nat)
    (color : Int) (dsx dex : Frac) (limit : Int)
    (hstep : ∀ s t x y, R s t → R (w1 s x y (to_u32 color)) (w2 t x y (to_u32 color)))
    (st1 : TriangleState σ) (st2 : TriangleState τ) (h1 : R st1.s st2.s)
    (h2 : st1.sx = st2.sx) (h3 : st1.ex = st2.ex) (h4 : st1.sy = st2.sy) :
    R (draw_triangle_while w1 width height color dsx dex limit st1).s
        (draw_triangle_while w2 width height color dsx dex limit st2).s ∧
      (draw_triangle_while w1 width height color dsx dex limit st1).sx =
        (draw_triangle_while w2 width height color dsx dex limit st2).sx ∧
      (draw_triangle_while w1 width height color dsx dex limit st1).ex =
        (draw_triangle_while w2 width height color dsx dex limit st2).ex ∧
      (draw_triangle_while w1 width height color dsx dex limit st1).sy =
        (draw_triangle_while w2 width height color dsx dex limit st2).sy := by
  unfold draw_triangle_while
  rw [h4]
  exact draw_triangle_rows_rel w1 w2 R width height color dsx dex hstep _ st1 st2 h1 h2 h3 h4

theorem draw_triangle_core_rel {σ τ : Type} (w1 : σ → Nat → Nat → Nat → σ)
    (w2 : τ → Nat → Nat → Nat → τ) (R : σ → τ → Prop) (width height : Nat)
    (color : Int) (dx1 dx2 dx3 : Frac) (ax ay bx b_y cy : Int)
    (hstep : ∀ s t x y, R s t → R (w1 s x y (to_u32 color)) (w2 t x y (to_u32 color)))
    (s : σ) (t : τ) (h : R s t) :
    R (if dx1.gt dx2 = true then
        (draw_triangle_while w1 width height color dx2 dx3 cy
          { s := (draw_triangle_while w1 width height color dx2 dx1 b_y
                { s := s, sx := Frac.of_int ax, ex := Frac.of_int ax, sy := ay }).s,
            sx := (draw_triangle_while w1 width height color dx2 dx1 b_y
                { s := s, sx := Frac.of_int ax, ex := Frac.of_int ax, sy := ay }).sx,
            ex := Frac.of_int bx,
            sy := (draw_triangle_while w1 width height color dx2 dx1 b_y
                { s := s, sx := Frac.of_int ax, ex := Frac.of_int ax, sy := ay }).sy }).s
      else
        (draw_triangle_while w1 width height color dx3 dx2 cy
          { s := (draw_triangle_while w1 width height color dx1 dx2 b_y
                { s := s, sx := Frac.of_int ax, ex := Frac.of_int ax, sy := ay }).s,
            sx := Frac.of_int bx,
            ex := (draw_triangle_while w1 width height color dx1 dx2 b_y
                { s := s, sx := Frac.of_int ax, ex := Frac.of_int ax, sy := ay }).ex,
            sy := b_y }).s)
      (if dx1.gt dx2 = true then
        (draw_triangle_while w2 width height color dx2 dx3 cy
          { s := (draw_triangle_while w2 width height color dx2 dx1 b_y
                { s := t, sx := Frac.of_int ax, ex := Frac.of_int ax, sy := ay }).s,
            sx := (draw_triangle_while w2 width height color dx2 dx1 b_y
                { s := t, sx := Frac.of_int ax, ex := Frac.of_int ax, sy := ay }).sx,
            ex := Frac.of_int bx,
            sy := (draw_triangle_while w2 width height color dx2 dx1 b_y
                { s := t, sx := Frac.of_int ax, ex := Frac.of_int ax, sy := ay }).sy }).s
      else
        (draw_triangle_while w2 width height color dx3 dx2 cy
          { s := (draw_triangle_while w2 width height color dx1 dx2 b_y
                { s := t, sx := Frac.of_int ax, ex := Frac.of_int ax, sy := ay }).s,
            sx := Frac.of_int bx,
            ex := (draw_triangle_while w2 width height color dx1 dx2 b_y
                { s := t, sx := Frac.of_int ax, ex := Frac.of_int ax, sy := ay }).ex,
            sy := b_y }).s) := by
  by_cases hgt : dx1.gt dx2 = true
  · rw [if_pos hgt, if_pos hgt]
    have first := draw_triangle_while_rel w1 w2 R width height color dx2 dx1 b_y hstep
      { s := s, sx := Frac.of_int ax, ex := Frac.of_int ax, sy := ay }
      { s := t, sx := Frac.of_int ax, ex := Frac.of_int ax, sy := ay } h rfl rfl rfl
    generalize draw_triangle_while w1 width height color dx2 dx1 b_y
      { s := s, sx := Frac.of_int ax, ex := Frac.of_int ax, sy := ay } = r1 at first ⊢
    generalize draw_triangle_while w2 width height color dx2 dx1 b_y
      { s := t, sx := Frac.of_int ax, ex := Frac.of_int ax, sy := ay } = r2 at first ⊢
    exact (draw_triangle_while_rel w1 w2 R width height color dx2 dx3 cy hstep
      { s := r1.s, sx := r1.sx, ex := Frac.of_int bx, sy := r1.sy }
      { s := r2.s, sx := r2.sx, ex := Frac.of_int bx, sy := r2.sy }
      first.1 first.2.1 rfl first.2.2.2).1
  · rw [if_neg hgt, if_neg hgt]
    have first := draw_triangle_while_rel w1 w2 R width height color dx1 dx2 b_y hstep
      { s := s, sx := Frac.of_int ax, ex := Frac.of_int ax, sy := ay }
      { s := t, sx := Frac.of_int ax, ex := Frac.of_int ax, sy := ay } h rfl rfl rfl
    generalize draw_triangle_while w1 width height color dx1 dx2 b_y
      { s := s, sx := Frac.of_int ax, ex := Frac.of_int ax, sy := ay } = r1 at first ⊢
    generalize draw_triangle_while w2 width height color dx1 dx2 b_y
      { s := t, sx := Frac.of_int ax, ex := Frac.of_int ax, sy := ay } = r2 at first ⊢
    exact (draw_triangle_while_rel w1 w2 R width height color dx3 dx2 cy hstep
      { s := r1.s, sx := Frac.of_int bx, ex := r1.ex, sy := b_y }
      { s := r2.s, sx := Frac.of_int bx, ex := r2.ex, sy := b_y }
      first.1 rfl first.2.2.1 rfl).1

/-- Two runs of `draw_triangle` over states that every call of the write primitive with the
color of the triangle keeps related end in related states. -/
theorem draw_triangle_with_rel {σ τ : Type} (w1 : σ → Nat → Nat → Nat → σ)
    (w2 : τ → Nat → Nat → Nat → τ) (R : σ → τ → Prop) (width height : Nat)
    (triangle : Triangle)
    (hstep : ∀ s t x y, R s t →
      R (w1 s x y (to_u32 triangle.color)) (w2 t x y (to_u32 triangle.color)))
    (s : σ) (t : τ) (h : R s t) :
    R (draw_triangle_with w1 width height s triangle)
      (draw_triangle_with w2 width height t triangle) := by
  dsimp only [draw_triangle_with]
  exact draw_triangle_core_rel w1 w2 R width height triangle.color _ _ _ _ _ _ _ _ hstep s t h

theorem draw_triangle_eq (pix_buffer : PixelBuffer) (triangle : Triangle) :
    draw_triangle pix_buffer triangle =
      apply_writes pix_buffer
        (draw_triangle_calls pix_buffer.width pix_buffer.height triangle) := by
  have h := draw_triangle_with_rel
    (fun pb x y color => (bitmap_write_pixel pb x y color).2)
    (fun (calls : List PixelWrite) x y color => calls ++ [⟨x, y, color⟩])
    (fun pb calls => pb = apply_writes pix_buffer calls)
    pix_buffer.width pix_buffer.height triangle
    (by
      intro pb calls x y h
      rw [h]
      unfold apply_writes
      rw [List.foldl_append]
      rfl)
    pix_buffer [] rfl
  exact h

/-- A successful call of `draw_command` makes the calls of the command. -/
theorem draw_command_ok (pix_buffer result : PixelBuffer) (comm : Option Command)
    (h : draw_command (some pix_buffer) comm = Outcome.ok result) :
    ∃ c, comm = some c ∧ is_shape_command c ∧
      result = apply_writes pix_buffer (command_calls pix_buffer.width pix_buffer.height c) := by
  cases comm with
  | none => exact absurd h (by simp [draw_command])
  | some c =>
    refine ⟨c, rfl, ?_⟩
    simp only [draw_command] at h
    cases hobj : c.obj with
    | none => rw [hobj] at h; exact absurd h (by simp)
    | some obj =>
      rw [hobj] at h
      simp only at h
      unfold command_calls is_shape_command
      rw [hobj]
      by_cases h2 : c.shape = SH_TRIANGLE
      · rw [if_pos h2] at h
        cases obj with
        | triangle triangle =>
          simp only [Outcome.ok.injEq] at h
          refine ⟨Or.inr (Or.inr ⟨h2, triangle, rfl⟩), ?_⟩
          rw [← h, draw_triangle_eq]
        | rectangle _ => exact absurd h (by simp)
        | circle _ => exact absurd h (by simp)
      · rw [if_neg h2] at h
        by_cases h1 : c.shape = SH_CIRCLE
        · rw [if_pos h1] at h
          cases obj with
          | circle circle =>
            simp only [Outcome.ok.injEq] at h
            refine ⟨Or.inr (Or.inl ⟨h1, circle, rfl⟩), ?_⟩
            rw [← h, draw_circle_eq]
          | rectangle _ => exact absurd h (by simp)
          | triangle _ => exact absurd h (by simp)
        · rw [if_neg h1] at h
          by_cases h0 : c.shape = SH_RECTANGLE
          · rw [if_pos h0] at h
            cases obj with
            | rectangle rectangle =>
              simp only [Outcome.ok.injEq] at h
              refine ⟨Or.inl ⟨h0, rectangle, rfl⟩, ?_⟩
              rw [← h, draw_rectangle_eq]
            | circle _ => exact absurd h (by simp)
            | triangle _ => exact absurd h (by simp)
          · rw [if_neg h0] at h
            exact absurd h (by simp)

theorem margins_zero_write (W H : Nat) (pix_buffer : PixelBuffer) (x y color : Nat)
    (hbuf : is_pixel_buffer W H pix_buffer) (hsize : rowStride W * H < 2 ^ 31)
    (h : margins_zero W pix_buffer) :
    margins_zero W (bitmap_write_pixel pix_buffer x y color).2 := by
  rcases bitmap_write_pixel_cases W H pix_buffer x y color hbuf hsize with hsame | ⟨hx, hy1, hy, heq⟩
  · rw [hsame]; exact h
  · rw [heq]
    intro i hi hmargin
    simp only [List.length_set] at hi
    have hS : W * 3 ≤ rowStride W := by rw [rowStride_eq]; omega
    have hrow : 1 * rowStride W ≤ (H - y) * rowStride W := Nat.mul_le_mul_right _ (by omega)
    have hmod : ∀ k, k < 3 → ((H - y) * rowStride W + 3 * x + k) % rowStride W = 3 * x + k := by
      intro k hk
      rw [Nat.add_assoc, Nat.mul_comm, Nat.mul_add_mod]
      exact Nat.mod_eq_of_lt (by omega)
    have hne : ∀ k, k < 3 → i ≠ (H - y) * rowStride W + 3 * x + k := by
      intro k hk hik
      rcases hmargin with hlow | hpad
      · omega
      · rw [hik, hmod k hk] at hpad
        omega
    have h0 := hne 0 (by omega)
    have h1 := hne 1 (by omega)
    have h2 := hne 2 (by omega)
    simp only [Nat.add_zero] at h0
    simp only [List.getElem?_set, List.length_set]
    rw [if_neg (Ne.symm h2), if_neg (Ne.symm h1), if_neg (Ne.symm h0)]
    exact h i hi hmargin

theorem margins_zero_apply_writes (W H : Nat) (calls : List PixelWrite)
    (pix_buffer : PixelBuffer) (hbuf : is_pixel_buffer W H pix_buffer)
    (hsize : rowStride W * H < 2 ^ 31) (h : margins_zero W pix_buffer) :
    margins_zero W (apply_writes pix_buffer calls) := by
  induction calls generalizing pix_buffer with
  | nil => exact h
  | cons w calls ih =>
    exact ih _ (bitmap_write_pixel_is_pixel_buffer W H pix_buffer _ _ _ hbuf hsize)
      (margins_zero_write W H pix_buffer _ _ _ hbuf hsize h)

/-- A call of `draw_command` that returns `DRAW_SUCCESS` keeps a pixel buffer of `W` by `H`
pixels one, with the bytes of the margins zero. -/
theorem draw_command_keeps (W H : Nat) (pix_buffer result : PixelBuffer)
    (comm : Option Command) (hsize : rowStride W * H < 2 ^ 31)
    (hbuf : is_pixel_buffer W H pix_buffer) (hzero : margins_zero W pix_buffer)
    (h : draw_command (some pix_buffer) comm = Outcome.ok result) :
    is_pixel_buffer W H result ∧ margins_zero W result := by
  obtain ⟨c, _, _, hres⟩ := draw_command_ok pix_buffer result comm h
  rw [hres]
  exact ⟨apply_writes_is_pixel_buffer W H _ _ hbuf hsize,
    margins_zero_apply_writes W H _ _ hbuf hsize hzero⟩

theorem main_draw_commands_keeps (W H : Nat) (hsize : rowStride W * H < 2 ^ 31)
    (command_list : List Command) :
    ∀ (pix_buffer result : PixelBuffer), is_pixel_buffer W H pix_buffer →
      margins_zero W pix_buffer →
      main_draw_commands command_list pix_buffer = Outcome.ok result →
      is_pixel_buffer W H result ∧ margins_zero W result := by
  induction command_list with
  | nil =>
    intro pix_buffer result hbuf hzero h
    simp only [main_draw_commands, Outcome.ok.injEq] at h
    rw [← h]
    exact ⟨hbuf, hzero⟩
  | cons comm command_list ih =>
    intro pix_buffer result hbuf hzero h
    simp only [main_draw_commands] at h
    cases hd : draw_command (some pix_buffer) (some comm) with
    | ok next =>
      rw [hd] at h
      obtain ⟨h1, h2⟩ := draw_command_keeps W H pix_buffer next _ hsize hbuf hzero hd
      exact ih next result h1 h2 h
    | error ret => rw [hd] at h; exact absurd h (by simp)
    | undefined => rw [hd] at h; exact absurd h (by simp)

/-- The claim C37 needs a bound on the size: for the width 1 and the height `2^30 + 1` the
size `4 * (2^30 + 1)` computed in 32 bits is 4, `bitmap_pixel_buffer_new` returns a buffer
of 4 bytes, and the circle of radius 1 around `(0, 1)` writes the first three bytes of the
array, which are bytes of its first row. -/
theorem draw_command_huge_height :
    bitmap_pixel_buffer_new 1 (2 ^ 30 + 1) =
      some { data := [0, 0, 0, 0], data_size := 4, width := 1, height := 2 ^ 30 + 1 } ∧
    draw_command
        (some { data := [0, 0, 0, 0], data_size := 4, width := 1, height := 2 ^ 30 + 1 })
        (some { shape := SH_CIRCLE, id := 1,
                obj := some (Obj.circle
                  { id := 1, color := 0xffffff, x := 0, y := 1, radius := 1 }) }) =
      Outcome.ok
        { data := [255, 255, 255, 0], data_size := 4, width := 1, height := 2 ^ 30 + 1 } := by
  decide

/-- C37, amended. For every width `W` and height `H` with `rowStride W * H` below `2^31`,
the pixel buffer that `bitmap_pixel_buffer_new` creates, and every buffer that a sequence of
successful calls of `draw_command` makes of it, has the width `W`, the height `H` and the
data size `rowStride W * H`, and in it every padding byte (at an offset within its row of at
least `3 * W`) and every byte of the first row of the array (at an offset below
`rowStride W`) is zero. -/
theorem draw_command_margins (W H : Nat) (hsize : rowStride W * H < 2 ^ 31) :
    (∃ pix_buffer, bitmap_pixel_buffer_new W H = some pix_buffer ∧
      is_pixel_buffer W H pix_buffer ∧ margins_zero W pix_buffer) ∧
    (∀ (pix_buffer result : PixelBuffer) (comm : Option Command),
      is_pixel_buffer W H pix_buffer → margins_zero W pix_buffer →
      draw_command (some pix_buffer) comm = Outcome.ok result →
      is_pixel_buffer W H result ∧ margins_zero W result) ∧
    (∀ (pix_buffer result : PixelBuffer) (command_list : List Command),
      is_pixel_buffer W H pix_buffer → margins_zero W pix_buffer →
      main_draw_commands command_list pix_buffer = Outcome.ok result →
      result.width = W ∧ result.height = H ∧
      result.data_size = ((rowStride W * H : Nat) : Int) ∧
      result.data.length = rowStride W * H ∧
      ∀ i, i < result.data.length → (i < rowStride W ∨ 3 * W ≤ i % rowStride W) →
        result.data[i]? = some 0) := by
  refine ⟨?_, ?_, ?_⟩
  · obtain ⟨pix_buffer, hnew, hbuf⟩ := is_pixel_buffer_new W H hsize
    refine ⟨pix_buffer, hnew, hbuf, ?_⟩
    intro i hi _
    have hall : ∀ byte ∈ pix_buffer.data, byte = 0 := by
      simp only [bitmap_pixel_buffer_new] at hnew
      split at hnew
      · exact absurd hnew (by simp)
      · simp only [Option.some.injEq] at hnew
        have hd := congrArg PixelBuffer.data hnew
        simp only at hd
        intro byte hb
        rw [← hd] at hb
        exact (List.mem_replicate.mp hb).2
    rw [List.getElem?_eq_getElem hi, hall _ (List.getElem_mem hi)]
  · intro pix_buffer result comm hbuf hzero h
    exact draw_command_keeps W H pix_buffer result comm hsize hbuf hzero h
  · intro pix_buffer result command_list hbuf hzero h
    obtain ⟨h1, h2⟩ := main_draw_commands_keeps W H hsize command_list pix_buffer result
      hbuf hzero h
    exact ⟨h1.1, h1.2.1, h1.2.2.1, h1.2.2.2, h2⟩

theorem draw_command_margins_witness :
    (∃ pix_buffer, bitmap_pixel_buffer_new 3 2 = some pix_buffer ∧
      is_pixel_buffer 3 2 pix_buffer ∧ margins_zero 3 pix_buffer) ∧
    (∀ (pix_buffer result : PixelBuffer) (comm : Option Command),
      is_pixel_buffer 3 2 pix_buffer → margins_zero 3 pix_buffer →
      draw_command (some pix_buffer) comm = Outcome.ok result →
      is_pixel_buffer 3 2 result ∧ margins_zero 3 result) ∧
    (∀ (pix_buffer result : PixelBuffer) (command_list : List Command),
      is_pixel_buffer 3 2 pix_buffer → margins_zero 3 pix_buffer →
      main_draw_commands command_list pix_buffer = Outcome.ok result →
      result.width = 3 ∧ result.height = 2 ∧
      result.data_size = ((rowStride 3 * 2 : Nat) : Int) ∧
      result.data.length = rowStride 3 * 2 ∧
      ∀ i, i < result.data.length → (i < rowStride 3 ∨ 3 * 3 ≤ i % rowStride 3) →
        result.data[i]? = some 0) :=
  draw_command_margins 3 2 (by rw [rowStride_eq]; decide)

/-! ## The painter's order of `main` -/

/-- The id of a command that `parse_line` builds is the integer given on the line for `id`,
as the code keeps it in an `int`, converted to the unsigned `id_t`. -/
theorem parse_line_id (line : Str) (c : Command) (h : parse_line line = Outcome.ok c) :
    ∃ keyword groups v, split_line line = some (keyword :: groups) ∧
      given_value groups "id".toList = some v ∧ c.id = to_u32 (stored_int v) := by
  simp only [parse_line] at h
  cases hsplit : split_line line with
  | none => rw [hsplit] at h; exact absurd h (by simp)
  | some split =>
    rw [hsplit] at h
    simp only [Outcome.bind_eq_ok] at h
    obtain ⟨props, hprops, hcmd⟩ := h
    obtain ⟨keyword, groups, ps, rfl, rfl, hfind⟩ := split_to_properties_ok split props hprops
    obtain ⟨p, rest, hlist, hcase⟩ := properties_to_command_ok _ c hcmd
    obtain ⟨rfl, rfl⟩ := List.cons.inj hlist
    have hgiven : ∀ value, keyword ≠ "id".toList →
        find_property ({ name := keyword, value := 0 } :: ps) "id".toList = Outcome.ok value →
        ∃ v, given_value groups "id".toList = some v ∧ value = stored_int v := by
      intro value hne hf
      rw [find_property_groups _ _ _ hne] at hf
      exact hfind _ value hf
    rcases hcase with ⟨hk, id, _, _, _, _, _, h1, _, _, _, _, _, hc⟩ |
      ⟨hk, id, _, _, _, _, _, _, _, h1, _, _, _, _, _, _, _, hc⟩ |
      ⟨hk, id, _, _, _, _, h1, _, _, _, _, hc⟩
    · simp only at hk
      obtain ⟨v, g, rfl⟩ := hgiven _ (by rw [hk]; decide) h1
      exact ⟨keyword, groups, v, rfl, g, by rw [hc]⟩
    · simp only at hk
      obtain ⟨v, g, rfl⟩ := hgiven _ (by rw [hk]; decide) h1
      exact ⟨keyword, groups, v, rfl, g, by rw [hc]⟩
    · simp only at hk
      obtain ⟨v, g, rfl⟩ := hgiven _ (by rw [hk]; decide) h1
      exact ⟨keyword, groups, v, rfl, g, by rw [hc]⟩

/-- An integer of the range of `long`, kept in an `int` and converted to the unsigned
`id_t`, is the integer modulo `2^32`. -/
theorem to_u32_stored_int (v : Int) (h1 : LONG_MIN ≤ v) (h2 : v ≤ LONG_MAX) :
    ((to_u32 (stored_int v) : Nat) : Int) = v % 2 ^ 32 := by
  simp only [stored_int, min_eq_right h2, max_eq_right h1, to_u32, to_int]
  omega

set_option maxRecDepth 100000 in
/-- C38, a scene on which the claim as stated fails: the id literal of the first line is
negative, that of the second line is not, both lines parse, and `parse_file` places the
command of the first line (stored id `2^31`) before the command of the second line (stored
id 3000000000). -/
theorem parse_file_negative_id_first :
    (split_line
        "circle id=\"-2147483648\" color=\"00ff00\" x=\"5\" y=\"5\" radius=\"1\"".toList).map
        (fun split => given_value (split.drop 1) "id".toList) = some (some (-2147483648)) ∧
    (split_line
        "circle id=\"3000000000\" color=\"00ff00\" x=\"5\" y=\"5\" radius=\"2\"".toList).map
        (fun split => given_value (split.drop 1) "id".toList) = some (some 3000000000) ∧
    parse_file (some
        ("circle id=\"-2147483648\" color=\"00ff00\" x=\"5\" y=\"5\" radius=\"1\"\n" ++
         "circle id=\"3000000000\" color=\"00ff00\" x=\"5\" y=\"5\" radius=\"2\"\n").toList)
      = some (FileOutcome.success
          [{ shape := SH_CIRCLE, id := 2147483648,
             obj := some (Obj.circle
               { id := 2147483648, color := 0x00ff00, x := 5, y := 5, radius := 1 }) },
           { shape := SH_CIRCLE, id := 3000000000,
             obj := some (Obj.circle
               { id := 3000000000, color := 0x00ff00, x := 5, y := 5, radius := 2 }) }]) := by
  refine ⟨?_, ?_, ?_⟩ <;> decide

/-- C38, as amended. Identifiers are stored and compared as unsigned 32-bit numbers. The id
of a command that `parse_line` builds is the integer given on the line for `id`, cut to the
range of `long`, modulo `2^32`: an integer of the range of `long` is stored modulo `2^32`,
and a negative one from `-2^32` on as the integer plus `2^32` (`-1` as 4294967295). For a
scene whose lines all parse: with pairwise distinct stored ids `parse_file` returns the
commands in ascending order of the stored ids, so that no command with a stored id of `2^31`
or more (such as a negative literal of the range of `int`) comes before a command with a
stored id below `2^31`; and when two lines have the same stored id (literals of the range of
`long` that are congruent modulo `2^32`), `parse_file` reports a duplicate id. -/
theorem parse_file_unsigned_id (file : Str) (cmds : List Command)
    (hparse : (read_lines file).map parse_line = cmds.map Outcome.ok) :
    (∀ line c, parse_line line = Outcome.ok c →
      ∃ keyword groups v, split_line line = some (keyword :: groups) ∧
        given_value groups "id".toList = some v ∧
        c.id = to_u32 (stored_int v) ∧
        (LONG_MIN ≤ v → v ≤ LONG_MAX → (c.id : Int) = v % 2 ^ 32) ∧
        (-(2 ^ 32) ≤ v → v < 0 → (c.id : Int) = v + 2 ^ 32) ∧
        (0 ≤ v → v < 2 ^ 32 → (c.id : Int) = v)) ∧
    ((cmds.map (fun c => c.id)).Nodup →
      ∃ result, parse_file (some file) = some (FileOutcome.success result) ∧
        result.Perm cmds ∧ result.Pairwise (fun a b => a.id < b.id) ∧
        result.Pairwise (fun a b => ¬ (2 ^ 31 ≤ a.id ∧ b.id < 2 ^ 31))) ∧
    (∀ front mid back a b, cmds = front ++ a :: (mid ++ b :: back) → a.id = b.id →
      ∃ id, parse_file (some file)
        = some (FileOutcome.failure ERR_DUPLICATE_ID (Printed.err_msg_duplicate_id id))) := by
  obtain ⟨h1, h2⟩ := parse_file_loop_spec (file.length + 1) file cmds [] 1
    (Nat.lt_succ_self _) hparse List.Pairwise.nil
    (fun c hc => absurd hc (List.not_mem_nil c))
  refine ⟨?_, ?_, ?_⟩
  · intro line c h
    obtain ⟨keyword, groups, v, hsplit, hgiven, hid⟩ := parse_line_id line c h
    refine ⟨keyword, groups, v, hsplit, hgiven, hid, ?_, ?_, ?_⟩
    · intro hmin hmax
      rw [hid]
      exact to_u32_stored_int v hmin hmax
    · intro hmin hneg
      rw [hid, to_u32_stored_int v (by simp only [LONG_MIN]; omega)
        (by simp only [LONG_MAX]; omega)]
      omega
    · intro hmin hmax
      rw [hid, to_u32_stored_int v (by simp only [LONG_MIN]; omega)
        (by simp only [LONG_MAX]; omega)]
      omega
  · intro hdistinct
    obtain ⟨result, hres, hperm, hasc⟩ := h1 (by simpa using hdistinct)
    refine ⟨result, hres, by simpa using hperm, hasc, ?_⟩
    exact List.Pairwise.imp (fun hlt hneg => by omega) hasc
  · intro front mid back a b hcmds hid
    have hdup : ¬ ((([] : List Command) ++ cmds).map (fun c => c.id)).Nodup := by
      rw [List.nil_append, hcmds]
      simp only [List.map_append, List.map_cons]
      intro hnd
      have h3 := (List.nodup_append.mp hnd).2.1
      have h4 := (List.nodup_cons.mp h3).1
      exact h4 (by rw [hid]; simp)
    obtain ⟨c, _, _, hfail⟩ := h2 hdup
    exact ⟨_, hfail⟩

set_option maxRecDepth 100000 in
theorem parse_file_unsigned_id_witness :
    ∃ result,
      parse_file (some
        ("circle id=\"-1\" color=\"00ff00\" x=\"5\" y=\"5\" radius=\"1\"\n" ++
         "rectangle id=\"5\" color=\"ff0000\" x=\"0\" y=\"0\" width=\"2\" height=\"2\"\n").toList)
        = some (FileOutcome.success result) ∧
      result.Perm
        [{ shape := SH_CIRCLE, id := 4294967295,
           obj := some (Obj.circle
             { id := 4294967295, color := 0x00ff00, x := 5, y := 5, radius := 1 }) },
         { shape := SH_RECTANGLE, id := 5,
           obj := some (Obj.rectangle
             { id := 5, color := 0xff0000, x := 0, y := 0, width := 2, height := 2 }) }] ∧
      result.Pairwise (fun a b => a.id < b.id) ∧
      result.Pairwise (fun a b => ¬ (2 ^ 31 ≤ a.id ∧ b.id < 2 ^ 31)) :=
  (parse_file_unsigned_id _ _ (by decide)).2.1 (by decide)

/-! ## Groups that the shape does not require -/

set_option maxRecDepth 100000 in
/-- The rounding of the `double` arithmetic shows in the pixels: for the triangle `(0, 0)`,
`(1, 0)`, `(2, 3)` the slope `1 / 3` is rounded down, three steps from 1 end just below 2,
and the pixel `(1, 3)` is passed to the write primitive. -/
theorem draw_triangle_calls_rounding :
    draw_triangle_calls 4 4
        { id := 1, color := 7, ax := 0, ay := 0, bx := 1, «by» := 0, cx := 2, cy := 3 } =
      [⟨0, 0, 7⟩, ⟨1, 2, 7⟩, ⟨1, 3, 7⟩] ∧
    Frac.div 1 3 = { num := 6004799503160661, den := 2 ^ 54 } ∧
    Frac.to_int
      (Frac.add (Frac.add (Frac.add (Frac.of_int 1) (Frac.div 1 3)) (Frac.div 1 3))
        (Frac.div 1 3)) = 1 := by
  decide

/-- C17, a circle on which the general part of the claim fails: the circle of radius 46341
around `(5, 5)` has its centre on the canvas of 10 by 10 pixels at a row from 1 on, and
`draw_command` succeeds, but `radius * radius` does not fit in an `int` (it wraps to a
negative number), no inner loop runs, and no pixel at all is written: the centre keeps the
color it had. -/
theorem draw_circle_centre_radius_46341 :
    to_int (46341 * 46341) = -2147479015 ∧
    draw_circle_calls 10 10 { id := 2, color := 0x00ff00, x := 5, y := 5, radius := 46341 }
      = [] ∧
    ∀ pix_buffer : PixelBuffer, pix_buffer.width = 10 → pix_buffer.height = 10 →
      draw_command (some pix_buffer)
        (some { shape := SH_CIRCLE, id := 2,
                obj := some (Obj.circle
                  { id := 2, color := 0x00ff00, x := 5, y := 5, radius := 46341 }) }) =
        Outcome.ok pix_buffer := by
  have hnil : draw_circle_calls 10 10
      { id := 2, color := 0x00ff00, x := 5, y := 5, radius := 46341 } = [] := by
    rw [draw_circle_calls_eq]
    apply List.eq_nil_iff_forall_not_mem.mpr
    intro w hw
    rw [mem_circle_calls] at hw
    obtain ⟨index_x, _, index_y, hiy, h⟩ := hw
    simp only at hiy h
    have hlt : index_x < 5 := by
      rcases h with ⟨⟨_, h2⟩, _⟩ | ⟨⟨h1, _⟩, _⟩ <;> omega
    have h0 : floor_sqrt (circle_radicand 46341 index_x).toNat = 0 := by
      interval_cases index_x <;> decide
    rw [h0] at hiy
    exact absurd hiy (Nat.not_lt_zero _)
  refine ⟨by decide, hnil, ?_⟩
  intro pix_buffer hw hh
  have hdraw : draw_circle pix_buffer
      { id := 2, color := 0x00ff00, x := 5, y := 5, radius := 46341 } = pix_buffer := by
    rw [draw_circle_eq, hw, hh, hnil]
    rfl
  simp only [draw_command, SH_CIRCLE, SH_TRIANGLE]
  simp [hdraw]

/-! ## The scene parser: ordering and uniqueness -/

/-- The stored identifier of a line that parses: the integer given for `id`, kept in an
`int` and converted to `id_t`; it is the integer itself when that is from 0 to
`2^32 - 1`. -/
theorem parse_line_id_literal (line : Str) (c : Command) (h : parse_line line = Outcome.ok c) :
    ∃ keyword groups v, split_line line = some (keyword :: groups) ∧
      given_value groups "id".toList = some v ∧ c.id = to_u32 (stored_int v) ∧
      (0 ≤ v → v < 2 ^ 32 → (c.id : Int) = v) := by
  obtain ⟨keyword, groups, v, hsplit, hgiven, hid⟩ := parse_line_id line c h
  refine ⟨keyword, groups, v, hsplit, hgiven, hid, ?_⟩
  intro hmin hmax
  rw [hid, to_u32_stored_int v (by simp only [LONG_MIN]; omega)
    (by simp only [LONG_MAX]; omega)]
  omega

set_option maxRecDepth 100000 in
/-- C1, a scene on which the claim as stated fails: the two lines parse and carry the
distinct identifiers 1 and 4294967297, which are stored as the same `id_t` value 1, and
`parse_file` does not succeed: it reports a duplicate id. -/
theorem parse_file_distinct_identifiers :
    (split_line
        "circle id=\"1\" color=\"00ff00\" x=\"5\" y=\"5\" radius=\"1\"".toList).map
        (fun split => given_value (split.drop 1) "id".toList) = some (some 1) ∧
    (split_line
        "circle id=\"4294967297\" color=\"00ff00\" x=\"5\" y=\"5\" radius=\"2\"".toList).map
        (fun split => given_value (split.drop 1) "id".toList) = some (some 4294967297) ∧
    (read_lines
      ("circle id=\"1\" color=\"00ff00\" x=\"5\" y=\"5\" radius=\"1\"\n" ++
       "circle id=\"4294967297\" color=\"00ff00\" x=\"5\" y=\"5\" radius=\"2\"\n").toList).map
        parse_line
      = List.map Outcome.ok
        [{ shape := SH_CIRCLE, id := 1,
           obj := some (Obj.circle { id := 1, color := 0x00ff00, x := 5, y := 5, radius := 1 }) },
         { shape := SH_CIRCLE, id := 1,
           obj := some (Obj.circle
             { id := 1, color := 0x00ff00, x := 5, y := 5, radius := 2 }) }] ∧
    parse_file (some
        ("circle id=\"1\" color=\"00ff00\" x=\"5\" y=\"5\" radius=\"1\"\n" ++
         "circle id=\"4294967297\" color=\"00ff00\" x=\"5\" y=\"5\" radius=\"2\"\n").toList)
      = some (FileOutcome.failure ERR_DUPLICATE_ID (Printed.err_msg_duplicate_id 1)) := by
  refine ⟨?_, ?_, ?_, ?_⟩ <;> decide

/-- C1, as amended. For every scene file whose N >= 0 lines, as `readline` delimits them,
each parse successfully and carry identifiers that are pairwise distinct as stored in the
unsigned 32-bit `id_t`, in whatever order, `parse_file` succeeds and returns exactly the N
per-line commands (a permutation of them: none lost or duplicated) in ascending order of the
stored identifier; for an empty file it returns success with the empty sequence. The stored
identifier of a line is the integer given for `id`, kept in an `int` and converted to
`id_t`: the integer itself when it is from 0 to `2^32 - 1`. -/
theorem parse_file_ascending (file : Str) (cmds : List Command)
    (hparse : (read_lines file).map parse_line = cmds.map Outcome.ok)
    (hdistinct : (cmds.map (fun c => c.id)).Nodup) :
    (∃ result, parse_file (some file) = some (FileOutcome.success result) ∧
      result.Perm cmds ∧ ascending_by_id result ∧ result.length = (read_lines file).length) ∧
    parse_file (some []) = some (FileOutcome.success []) ∧
    (∀ line c, parse_line line = Outcome.ok c →
      ∃ keyword groups v, split_line line = some (keyword :: groups) ∧
        given_value groups "id".toList = some v ∧ c.id = to_u32 (stored_int v) ∧
        (0 ≤ v → v < 2 ^ 32 → (c.id : Int) = v)) := by
  refine ⟨?_, ?_, parse_line_id_literal⟩
  · obtain ⟨h1, _⟩ := parse_file_loop_spec (file.length + 1) file cmds [] 1
      (Nat.lt_succ_self _) hparse List.Pairwise.nil
      (fun c hc => absurd hc (List.not_mem_nil c))
    obtain ⟨result, hres, hperm, hasc⟩ := h1 (by simpa using hdistinct)
    refine ⟨result, hres, by simpa using hperm, hasc, ?_⟩
    have hlen := congrArg List.length hparse
    simp only [List.length_map] at hlen
    rw [hperm.length_eq, List.nil_append, hlen]
  · simp [parse_file, parse_file_loop, readline_nil]

theorem parse_file_ascending_witness :
    (read_lines
      ("circle id=\"7\" color=\"00ff00\" x=\"5\" y=\"5\" radius=\"1\"\n" ++
       "rectangle id=\"3\" color=\"ff0000\" x=\"0\" y=\"0\" width=\"2\" height=\"2\"\n").toList).map
        parse_line
      = List.map Outcome.ok
        [{ shape := SH_CIRCLE, id := 7,
           obj := some (Obj.circle { id := 7, color := 0x00ff00, x := 5, y := 5, radius := 1 }) },
         { shape := SH_RECTANGLE, id := 3,
           obj := some (Obj.rectangle
             { id := 3, color := 0xff0000, x := 0, y := 0, width := 2, height := 2 }) }] ∧
    ∃ result,
      parse_file (some
        ("circle id=\"7\" color=\"00ff00\" x=\"5\" y=\"5\" radius=\"1\"\n" ++
         "rectangle id=\"3\" color=\"ff0000\" x=\"0\" y=\"0\" width=\"2\" height=\"2\"\n").toList)
        = some (FileOutcome.success result) ∧
      result.Perm
        [{ shape := SH_CIRCLE, id := 7,
           obj := some (Obj.circle { id := 7, color := 0x00ff00, x := 5, y := 5, radius := 1 }) },
         { shape := SH_RECTANGLE, id := 3,
           obj := some (Obj.rectangle
             { id := 3, color := 0xff0000, x := 0, y := 0, width := 2, height := 2 }) }] ∧
      ascending_by_id result ∧
      result.length = (read_lines
        ("circle id=\"7\" color=\"00ff00\" x=\"5\" y=\"5\" radius=\"1\"\n" ++
         "rectangle id=\"3\" color=\"ff0000\" x=\"0\" y=\"0\" width=\"2\" height=\"2\"\n").toList).length :=
  ⟨by decide, (parse_file_ascending _ _ (by decide) (by decide)).1⟩

set_option maxRecDepth 100000 in
/-- C2, a scene on which the claim as stated fails: both lines carry the identifier
3000000000, and the id that `parse_file` reports with the duplicate-id error is
-1294967296, which is the identifier of no line. -/
theorem parse_file_duplicate_id_reported :
    (split_line
        "circle id=\"3000000000\" color=\"00ff00\" x=\"5\" y=\"5\" radius=\"1\"".toList).map
        (fun split => given_value (split.drop 1) "id".toList) = some (some 3000000000) ∧
    parse_file (some
        ("circle id=\"3000000000\" color=\"00ff00\" x=\"5\" y=\"5\" radius=\"1\"\n" ++
         "circle id=\"3000000000\" color=\"00ff00\" x=\"5\" y=\"5\" radius=\"1\"\n").toList)
      = some (FileOutcome.failure ERR_DUPLICATE_ID
          (Printed.err_msg_duplicate_id (-1294967296))) := by
  refine ⟨?_, ?_⟩ <;> decide

/-- C2, as amended. For every scene file whose lines, as `readline` delimits them, all
parse individually, `parse_file` fails with `ERR_DUPLICATE_ID` if and only if two lines have
the same stored identifier (the `id_t` value: the integer given for `id`, kept in an `int`
and converted to `id_t`, which is the integer itself from 0 to `2^32 - 1`), and the id it
reports is the stored identifier of a line whose stored identifier occurs twice, converted
to `int` (the identifier itself when it is below `2^31`); and whenever the next line of a
file carries an identifier that is present in the (ascending) command list already, the loop
stops with that error instead of extending the list. -/
theorem parse_file_duplicate_id (file : Str) (cmds : List Command)
    (hparse : (read_lines file).map parse_line = cmds.map Outcome.ok) :
    ((∃ printed, parse_file (some file)
        = some (FileOutcome.failure ERR_DUPLICATE_ID printed))
      ↔ ¬ (cmds.map (fun c => c.id)).Nodup) ∧
    (¬ (cmds.map (fun c => c.id)).Nodup →
      ∃ c ∈ cmds, 2 ≤ (cmds.map (fun c => c.id)).count c.id ∧
        parse_file (some file)
          = some (FileOutcome.failure ERR_DUPLICATE_ID
              (Printed.err_msg_duplicate_id (to_int c.id)))) ∧
    (∀ (command_list : List Command) (input line_buffer rest : Str) (command : Command)
        (line_number : Int) (fuel : Nat),
      ascending_by_id command_list →
      readline input = some (line_buffer, rest) →
      parse_line line_buffer = Outcome.ok command →
      (∃ x ∈ command_list, x.id = command.id) →
      parse_file_loop (fuel + 1) input command_list line_number
        = some (FileOutcome.failure ERR_DUPLICATE_ID
            (Printed.err_msg_duplicate_id (to_int command.id)))) ∧
    (∀ line c, parse_line line = Outcome.ok c →
      ∃ keyword groups v, split_line line = some (keyword :: groups) ∧
        given_value groups "id".toList = some v ∧ c.id = to_u32 (stored_int v) ∧
        (0 ≤ v → v < 2 ^ 32 → (c.id : Int) = v)) ∧
    (∀ id : Nat, id < 2 ^ 31 → to_int id = id) := by
  obtain ⟨h1, h2⟩ := parse_file_loop_spec (file.length + 1) file cmds [] 1
    (Nat.lt_succ_self _) hparse List.Pairwise.nil
    (fun c hc => absurd hc (List.not_mem_nil c))
  simp only [List.nil_append] at h1 h2
  have hdup : ¬ (cmds.map (fun c => c.id)).Nodup →
      ∃ c ∈ cmds, 2 ≤ (cmds.map (fun c => c.id)).count c.id ∧
        parse_file (some file)
          = some (FileOutcome.failure ERR_DUPLICATE_ID
              (Printed.err_msg_duplicate_id (to_int c.id))) := h2
  refine ⟨⟨?_, ?_⟩, hdup, ?_, parse_line_id_literal,
    fun id hid => to_int_of_range _ (by omega) (by omega)⟩
  · rintro ⟨printed, hfail⟩ hnd
    obtain ⟨result, hres, _⟩ := h1 hnd
    have hres' : parse_file (some file) = some (FileOutcome.success result) := hres
    rw [hfail] at hres'
    exact absurd hres' (by simp)
  · intro hnd
    obtain ⟨c, _, _, hfail⟩ := hdup hnd
    exact ⟨_, hfail⟩
  · intro command_list input line_buffer rest command line_number fuel hs hread hpl hin
    have hcid := parse_line_id_lt line_buffer command hpl
    simp only [parse_file_loop, hread, hpl,
      (parse_file_search_spec command.id hcid command_list 0 hs).1 hin]

theorem parse_file_duplicate_id_witness :
    (read_lines
      ("circle id=\"4\" color=\"00ff00\" x=\"5\" y=\"5\" radius=\"1\"\n" ++
       "circle id=\"4\" color=\"0000ff\" x=\"1\" y=\"1\" radius=\"2\"\n").toList).map parse_line
      = List.map Outcome.ok
        [{ shape := SH_CIRCLE, id := 4,
           obj := some (Obj.circle { id := 4, color := 0x00ff00, x := 5, y := 5, radius := 1 }) },
         { shape := SH_CIRCLE, id := 4,
           obj := some (Obj.circle { id := 4, color := 0x0000ff, x := 1, y := 1, radius := 2 }) }] ∧
    ∃ printed,
      parse_file (some
        ("circle id=\"4\" color=\"00ff00\" x=\"5\" y=\"5\" radius=\"1\"\n" ++
         "circle id=\"4\" color=\"0000ff\" x=\"1\" y=\"1\" radius=\"2\"\n").toList)
        = some (FileOutcome.failure ERR_DUPLICATE_ID printed) :=
  ⟨by decide,
   (parse_file_duplicate_id _
      [{ shape := SH_CIRCLE, id := 4,
         obj := some (Obj.circle { id := 4, color := 0x00ff00, x := 5, y := 5, radius := 1 }) },
       { shape := SH_CIRCLE, id := 4,
         obj := some (Obj.circle { id := 4, color := 0x0000ff, x := 1, y := 1, radius := 2 }) }]
      (by decide)).1.mpr (by decide)⟩


end BitmapDrawing
